import Mathlib

/-!
Range algebra and paging of excel-mcp-server.

A shallow embedding of `internal/excel/util.go` and `internal/excel/pagination.go`.

* Go strings are lists of characters (`GoString`).
* Go `int` is `Int` together with `wrap64`, the 64-bit two's-complement wrap-around,
  applied at every arithmetic operation of the embedded Go code.
* The functions of the `excelize` and `strconv`/`regexp` libraries that the embedded code
  calls are not part of the repository; they are modelled by their documented behaviour
  (bijective base-26 column names bounded by `MaxColumns`, decimal row numbers bounded
  by `TotalRows`).
-/

namespace ExcelMcp

/-! ## Go values -/

/-- A Go string, as the list of its characters. -/
abbrev GoString := List Char

/-- The `error` values that can reach the embedded code. -/
inductive GoError where
  /-- `fmt.Errorf("invalid range format: %s", rangeStr)` of `ParseRange`. -/
  | invalidRangeFormat (rangeStr : GoString)
  /-- The `excelize` invalid-cell-name error. -/
  | invalidCellName (cell : GoString)
  /-- The `excelize` invalid-column-name error. -/
  | invalidColumnName (name : GoString)
  /-- The `excelize` error `ErrMaxRows`. -/
  | maxRows
  /-- The `excelize` error `ErrColumnNumber`. -/
  | columnNumber
  /-- The `excelize` invalid-coordinates error. -/
  | invalidCoordinates (col row : Int)
  deriving DecidableEq, Repr

/-- Reduction of an exact integer to the value a 64-bit Go `int` holds. -/
def wrap64 (x : Int) : Int := (x + 2 ^ 63) % 2 ^ 64 - 2 ^ 63

/-- Go `a + b` on `int`. -/
def goAdd (a b : Int) : Int := wrap64 (a + b)

/-- Go `a - b` on `int`. -/
def goSub (a b : Int) : Int := wrap64 (a - b)

/-- Go `a / b` on `int`: truncated division; `none` is the run-time panic
"integer divide by zero". -/
def goDiv (a b : Int) : Option Int :=
  if b = 0 then none else some (wrap64 (Int.tdiv a b))

/-- The outcome of running a Go function that may panic; `outOfFuel` is the
embedding's marker for a loop that did not finish within its iteration budget. -/
inductive Run (α : Type) where
  | done (a : α)
  | divideByZero
  | outOfFuel
  deriving DecidableEq, Repr

/-! ## Character classes -/

/-- The class `[A-Z]`. -/
def isUpperAZ (c : Char) : Bool := decide (65 ≤ c.toNat) && decide (c.toNat ≤ 90)

/-- The class `[a-z]`. -/
def isLowerAZ (c : Char) : Bool := decide (97 ≤ c.toNat) && decide (c.toNat ≤ 122)

/-- The class `\d` of Go regular expressions: the ASCII digits. -/
def isDigit09 (c : Char) : Bool := decide (48 ≤ c.toNat) && decide (c.toNat ≤ 57)

/-! ## Library functions (`strconv`, `excelize`) -/

/-- The constant `excelize.MaxColumns` (column `XFD`). -/
def MaxColumns : Int := 16384

/-- The constant `excelize.TotalRows`. -/
def TotalRows : Int := 1048576

/-- The value of a string of decimal digits, most significant first. -/
def decimalValue (s : GoString) : Nat :=
  s.foldl (fun n ch => n * 10 + (ch.toNat - 48)) 0

/-- Whether a text starts with the sign `c`. -/
def startsWithSign (c : Char) : GoString → Bool
  | [] => false
  | x :: _ => x == c

/-- Modelled from the spec: `strconv.Atoi` of the Go standard library, which is not part
of the repository. An optional sign followed by one or more ASCII digits, whose value
must fit a 64-bit `int`; `none` is its error. -/
def Atoi (s : GoString) : Option Int :=
  let neg : Bool := startsWithSign '-' s
  let body : GoString := if neg || startsWithSign '+' s then s.drop 1 else s
  if body = [] ∨ ¬ body.all isDigit09 = true then none
  else
    let v : Int := if neg then - (decimalValue body : Int) else (decimalValue body : Int)
    if v < - 2 ^ 63 ∨ 2 ^ 63 ≤ v then none else some v

/-- The digits of `n`, least significant produced first and pushed in front of `acc`. -/
def decimalDigits : Nat → Nat → GoString → GoString
  | 0, _, acc => acc
  | fuel + 1, n, acc =>
    if n < 10 then Char.ofNat (n + 48) :: acc
    else decimalDigits fuel (n / 10) (Char.ofNat (n % 10 + 48) :: acc)

/-- Modelled from the spec: `strconv.Itoa` of the Go standard library, which is not part
of the repository: the decimal text of an `int`. -/
def Itoa (i : Int) : GoString :=
  if i < 0 then '-' :: decimalDigits (i.natAbs + 1) i.natAbs []
  else decimalDigits (i.toNat + 1) i.toNat []

/-- The predicate `alpha` of `excelize.SplitCellName`: a letter or `$`. -/
def isAlphaOrDollar (c : Char) : Bool := isUpperAZ c || isLowerAZ c || (c == '$')

/-- The index of the last character satisfying `f` (`strings.LastIndexFunc`), `none`
for Go's `-1`. -/
def lastIndexFunc (f : Char → Bool) : GoString → Option Nat
  | [] => none
  | c :: cs =>
    match lastIndexFunc f cs with
    | some i => some (i + 1)
    | none => if f c then some 0 else none

/-- Modelled from the spec: `excelize.SplitCellName`, which is not part of the
repository. The text up to the last letter or `$` is the column name (with every `$`
removed), the rest is the row number, which must be a positive `int`. -/
def SplitCellName (cell : GoString) : Except GoError (GoString × Int) :=
  match cell with
  | [] => .error (.invalidCellName cell)
  | c :: _ =>
    if isAlphaOrDollar c then
      match lastIndexFunc isAlphaOrDollar cell with
      | none => .error (.invalidCellName cell)
      | some i =>
        if i + 1 < cell.length then
          let col := (cell.take (i + 1)).filter (fun ch => ch != '$')
          let rowStr := cell.drop (i + 1)
          match Atoi rowStr with
          | some row => if 0 < row then .ok (col, row) else .error (.invalidCellName cell)
          | none => .error (.invalidCellName cell)
        else .error (.invalidCellName cell)
    else .error (.invalidCellName cell)

/-- The number a column name denotes in bijective base 26 (`A` = 1, ..., `Z` = 26,
`AA` = 27, ...), letters of either case. -/
def columnValue (name : GoString) : Nat :=
  name.foldl (fun n ch =>
    n * 26 + (if isUpperAZ ch then ch.toNat - 64 else ch.toNat - 96)) 0

/-- Modelled from the spec: `excelize.ColumnNameToNumber`, which is not part of the
repository. A non-empty string of letters denotes its bijective base-26 number, which
the library sums into a 64-bit `int` (`col += digit * multi`, `multi *= 26`), so that
`col` holds the number reduced to 64 bits; a `col` above `MaxColumns` is the error
`ErrColumnNumber`, and any other `col`, negative or zero included, is returned. -/
def ColumnNameToNumber (name : GoString) : Except GoError Int :=
  if name = [] ∨ ¬ name.all (fun ch => isUpperAZ ch || isLowerAZ ch) = true then
    .error (.invalidColumnName name)
  else if MaxColumns < wrap64 (columnValue name : Int) then .error .columnNumber
  else .ok (wrap64 (columnValue name : Int))

/-- The letters of column number `n`, last letter produced first and pushed in front
of `acc`. -/
def columnLetters : Nat → Nat → GoString → GoString
  | 0, _, acc => acc
  | fuel + 1, n, acc =>
    if n = 0 then acc
    else columnLetters fuel ((n - 1) / 26) (Char.ofNat ((n - 1) % 26 + 65) :: acc)

/-- Modelled from the spec: `excelize.ColumnNumberToName`, which is not part of the
repository. A number in `1..MaxColumns` gives its column name, any other the error
`ErrColumnNumber`. -/
def ColumnNumberToName (num : Int) : Except GoError GoString :=
  if num < 1 ∨ MaxColumns < num then .error .columnNumber
  else .ok (columnLetters num.toNat num.toNat [])

/-- Modelled from the spec: `excelize.CellNameToCoordinates`, which is not part of the
repository: the column and row of a cell name, with the row bounded by `TotalRows`. -/
def CellNameToCoordinates (cell : GoString) : Except GoError (Int × Int) :=
  match SplitCellName cell with
  | .error e => .error e
  | .ok (colName, row) =>
    if TotalRows < row then .error .maxRows
    else
      match ColumnNameToNumber colName with
      | .error e => .error e
      | .ok col => .ok (col, row)

/-- Modelled from the spec: `excelize.CoordinatesToCellName` without the optional
absolute-reference flag, which is not part of the repository: the cell name of a column
and a row, both at least 1 and within the sheet bounds. -/
def CoordinatesToCellName (col row : Int) : Except GoError GoString :=
  if col < 1 ∨ row < 1 then .error (.invalidCoordinates col row)
  else if TotalRows < row then .error .maxRows
  else
    match ColumnNumberToName col with
    | .error e => .error e
    | .ok colName => .ok (colName ++ Itoa row)

/-! ## `util.go` -/

/-- The text that the optional `\$?` of `rangeRegexp` consumes at the start of `s`. -/
def dollarPrefix : GoString → GoString
  | [] => []
  | c :: _ => if c = '$' then ['$'] else []

/-- One cell of `rangeRegexp`, the pattern `\$?[A-Z]+\$?\d+`, matched at the start of
`s`: the matched text and the text that follows it. Every piece of the pattern is
forced (a `$`, a letter or a digit can be consumed by one piece only), so the match is
unique. -/
def matchCell (s : GoString) : Option (GoString × GoString) :=
  let d1 := dollarPrefix s
  let s1 := s.drop d1.length
  let letters := s1.takeWhile isUpperAZ
  let s2 := s1.dropWhile isUpperAZ
  if letters = [] then none
  else
    let d2 := dollarPrefix s2
    let s3 := s2.drop d2.length
    let digits := s3.takeWhile isDigit09
    let s4 := s3.dropWhile isDigit09
    if digits = [] then none
    else some (d1 ++ letters ++ d2 ++ digits, s4)

/-- The call `rangeRegexp.FindStringSubmatch(rangeStr)` for the pattern
`^(\$?[A-Z]+\$?\d+)(?::(\$?[A-Z]+\$?\d+))?$`: `none` for Go's `nil`, otherwise the
submatches `matches[1]` and `matches[2]` (the latter empty when the second cell is
absent). -/
def rangeRegexpFind (rangeStr : GoString) : Option (GoString × GoString) :=
  match matchCell rangeStr with
  | none => none
  | some (c1, rest) =>
    match rest with
    | [] => some (c1, [])
    | ':' :: r2 =>
      match matchCell r2 with
      | some (c2, []) => some (c1, c2)
      | _ => none
    | _ => none

/-- The five results of `ParseRange`. -/
structure ParseResult where
  startCol : Int
  startRow : Int
  endCol : Int
  endRow : Int
  err : Option GoError
  deriving DecidableEq, Repr

/-- The function `ParseRange` of `util.go`. -/
def ParseRange (rangeStr : GoString) : ParseResult :=
  match rangeRegexpFind rangeStr with
  | none => ⟨0, 0, 0, 0, some (.invalidRangeFormat rangeStr)⟩
  | some (m1, m2) =>
    match CellNameToCoordinates m1 with
    | .error e => ⟨0, 0, 0, 0, some e⟩
    | .ok (startCol, startRow) =>
      if m2 = [] then ⟨startCol, startRow, startCol, startRow, none⟩
      else
        match CellNameToCoordinates m2 with
        | .error e => ⟨0, 0, 0, 0, some e⟩
        | .ok (endCol, endRow) => ⟨startCol, startRow, endCol, endRow, none⟩

/-- The function `NormalizeRange` of `util.go`. -/
def NormalizeRange (rangeStr : GoString) : GoString :=
  let r := ParseRange rangeStr
  match r.err with
  | some _ => rangeStr
  | none =>
    match CoordinatesToCellName r.startCol r.startRow with
    | .error _ => rangeStr
    | .ok startCell =>
      match CoordinatesToCellName r.endCol r.endRow with
      | .error _ => rangeStr
      | .ok endCell => startCell ++ ':' :: endCell

/-! ## The range grammar, stated declaratively -/

/-- The text of a cell: an optional `$`, the column letters, an optional `$`, the row
digits. -/
def cellText (abs1 : Bool) (letters : GoString) (abs2 : Bool) (digits : GoString) :
    GoString :=
  (if abs1 then ['$'] else []) ++ letters ++ (if abs2 then ['$'] else []) ++ digits

/-- One or more uppercase letters `A`-`Z`. -/
def IsLetters (l : GoString) : Prop := l ≠ [] ∧ ∀ c ∈ l, isUpperAZ c = true

/-- One or more ASCII digits. -/
def IsDigits (g : GoString) : Prop := g ≠ [] ∧ ∀ c ∈ g, isDigit09 c = true

instance (l : GoString) : Decidable (IsLetters l) := by
  unfold IsLetters; infer_instance

instance (g : GoString) : Decidable (IsDigits g) := by
  unfold IsDigits; infer_instance

/-- A cell of the range grammar. -/
def IsCell (c : GoString) : Prop :=
  ∃ abs1 l abs2 g, IsLetters l ∧ IsDigits g ∧ c = cellText abs1 l abs2 g

/-- The range grammar: one cell, or two cells joined by `:`, and nothing else. -/
def MatchesRangeGrammar (s : GoString) : Prop :=
  IsCell s ∨ ∃ c1 c2, IsCell c1 ∧ IsCell c2 ∧ s = c1 ++ ':' :: c2

/-- The bijective base-26 value of column letters: the letter at distance `i` from the
right counts its rank (`A` = 1, ..., `Z` = 26) times `26 ^ i`. -/
def base26Value (letters : GoString) : Nat :=
  Nat.ofDigits 26 (letters.reverse.map (fun c => c.toNat - 64))

/-- The decimal value of row digits: the digit at distance `i` from the right counts
times `10 ^ i`. -/
def base10Value (digits : GoString) : Nat :=
  Nat.ofDigits 10 (digits.reverse.map (fun c => c.toNat - 48))

/-- Coordinates within the sheet bounds of `excelize`. -/
def InSheet (col row : Int) : Prop :=
  1 ≤ col ∧ col ≤ MaxColumns ∧ 1 ≤ row ∧ row ≤ TotalRows

/-- What is known of a column and a row that `CellNameToCoordinates` returns: the row
is within the sheet, the column is a 64-bit `int` of at most `MaxColumns`, possibly
zero or negative. -/
def InParsedBounds (col row : Int) : Prop :=
  - 2 ^ 63 ≤ col ∧ col ≤ MaxColumns ∧ 1 ≤ row ∧ row ≤ TotalRows

/-! ## `pagination.go` -/

/-- The `for currentRow <= endRow` loop of `calculateFixedSizeRanges`, with `ranges`
the slice built so far; an early `return ranges` of the Go code is `some ranges`.
`fuel` bounds the number of iterations; `none` says that the bound was reached with
the loop condition still true. -/
def fixedSizeLoop (startCol endCol endRow rowsPerPage : Int) :
    Nat → Int → List GoString → Option (List GoString)
  | 0, currentRow, ranges => if currentRow ≤ endRow then none else some ranges
  | fuel + 1, currentRow, ranges =>
    if currentRow ≤ endRow then
      let pageEndRow0 := goSub (goAdd currentRow rowsPerPage) 1
      let pageEndRow := if pageEndRow0 > endRow then endRow else pageEndRow0
      match CoordinatesToCellName startCol currentRow with
      | .error _ => some ranges
      | .ok startRange =>
        match CoordinatesToCellName endCol pageEndRow with
        | .error _ => some ranges
        | .ok endRange =>
          fixedSizeLoop startCol endCol endRow rowsPerPage fuel (goAdd pageEndRow 1)
            (ranges ++ [startRange ++ ':' :: endRange])
    else some ranges

/-- The function `calculateFixedSizeRanges` of `pagination.go`. The loop is given one
iteration per row of the dimension, which is enough because every iteration that
continues moves `currentRow` forward. -/
def calculateFixedSizeRanges (dimension : GoString) (pageSize : Int) :
    Run (List GoString) :=
  let r := ParseRange dimension
  match r.err with
  | some _ => .done []
  | none =>
    let totalCols := goAdd (goSub r.endCol r.startCol) 1
    match goDiv pageSize totalCols with
    | none => .divideByZero
    | some q =>
      let rowsPerPage := if q < 1 then 1 else q
      match fixedSizeLoop r.startCol r.endCol r.endRow rowsPerPage
          (r.endRow - r.startRow + 1).toNat r.startRow [] with
      | none => .outOfFuel
      | some ranges => .done ranges

/-- The map `knownMap` that `FilterRemainingPagingRanges` builds from `knownRanges`,
as its lookup function (a missing key reads `false`). -/
def knownMapOf (knownRanges : List GoString) : GoString → Bool :=
  knownRanges.foldl (fun m r => fun k => if k = r then true else m k) (fun _ => false)

/-- The method `PagingRangeService.FilterRemainingPagingRanges` of `pagination.go`. -/
def FilterRemainingPagingRanges (allRanges knownRanges : List GoString) :
    List GoString :=
  if knownRanges.length = 0 then allRanges
  else
    let knownMap := knownMapOf knownRanges
    allRanges.foldl (fun remaining r => if !knownMap r then remaining ++ [r] else remaining) []

/-- The loop of `FindNextRange` from index `i` on, `rest` being `allRanges[i:]`. -/
def findNextLoop (allRanges : List GoString) (currentRange : GoString) :
    Nat → List GoString → GoString
  | _, [] => []
  | i, r :: rest =>
    if r = currentRange ∧ i + 1 < allRanges.length then allRanges.getD (i + 1) []
    else findNextLoop allRanges currentRange (i + 1) rest

/-- The method `PagingRangeService.FindNextRange` of `pagination.go`. -/
def FindNextRange (allRanges : List GoString) (currentRange : GoString) : GoString :=
  findNextLoop allRanges currentRange 0 allRanges

/-- The `for _, breakRow := range breaks` loop of `calculateRangesFromBreaks` followed
by the code after it (the trailing remainder page); an early `return ranges` of the Go
code returns `ranges`. -/
def rangesFromBreaksLoop (startCol startRow endCol endRow : Int) :
    List Int → Int → List GoString → List GoString
  | [], currentRow, ranges =>
    if currentRow ≤ endRow then
      match CoordinatesToCellName startCol currentRow with
      | .error _ => ranges
      | .ok startRange =>
        match CoordinatesToCellName endCol endRow with
        | .error _ => ranges
        | .ok endRange => ranges ++ [startRange ++ ':' :: endRange]
    else ranges
  | breakRow :: rest, currentRow, ranges =>
    if breakRow ≤ startRow ∨ breakRow > endRow then
      rangesFromBreaksLoop startCol startRow endCol endRow rest currentRow ranges
    else
      match CoordinatesToCellName startCol currentRow with
      | .error _ => ranges
      | .ok startRange =>
        match CoordinatesToCellName endCol (goSub breakRow 1) with
        | .error _ => ranges
        | .ok endRange =>
          rangesFromBreaksLoop startCol startRow endCol endRow rest breakRow
            (ranges ++ [startRange ++ ':' :: endRange])

/-- The method `PrintAreaPagingStrategy.calculateRangesFromBreaks` of `pagination.go`. -/
def calculateRangesFromBreaks (printArea : GoString) (breaks : List Int) : List GoString :=
  if printArea = [] then []
  else
    let r := ParseRange printArea
    match r.err with
    | some _ => []
    | none =>
      if breaks.length = 0 then
        match CoordinatesToCellName r.startCol r.startRow with
        | .error _ => []
        | .ok startRange =>
          match CoordinatesToCellName r.endCol r.endRow with
          | .error _ => []
          | .ok endRange => [startRange ++ ':' :: endRange]
      else rangesFromBreaksLoop r.startCol r.startRow r.endCol r.endRow breaks r.startRow []

/-- The cell notation of in-sheet coordinates, the empty text where
`CoordinatesToCellName` reports an error. -/
def cellOf (col row : Int) : GoString :=
  match CoordinatesToCellName col row with
  | .ok name => name
  | .error _ => []

/-- The page from row `s` to row `e` across the columns `sc..ec`, in cell notation. -/
def pageText (sc ec s e : Int) : GoString := cellOf sc s ++ ':' :: cellOf ec e

/-- The break rows that `calculateRangesFromBreaks` does not ignore: those strictly
after `sr` and not after `er`. -/
def validBreaks (sr er : Int) (breaks : List Int) : List Int :=
  breaks.filter (fun b => decide (sr < b ∧ b ≤ er))

/-- The pages the print-area policy describes for the valid break rows
`b1, ..., bm`, from the row `cur` on: `cur..b1-1`, `b1..b2-1`, ..., `bm..er`. -/
def breakPages (sc ec er : Int) : Int → List Int → List GoString
  | cur, [] => [pageText sc ec cur er]
  | cur, b :: rest => pageText sc ec cur (b - 1) :: breakPages sc ec er b rest

/-- A cell of the grammar whose column value and row value lie within the sheet
bounds of `excelize`: column at most 16384 (`XFD`), row in 1..1048576. -/
def CellInSheet (l g : GoString) : Prop :=
  base26Value l ≤ 16384 ∧ 1 ≤ base10Value g ∧ base10Value g ≤ 1048576

instance (l g : GoString) : Decidable (CellInSheet l g) := by
  unfold CellInSheet; infer_instance

/-! ## `excel.go`: the neutral style vocabulary -/

/-- The type `BorderStyle`, a Go string. -/
abbrev BorderStyle := GoString

/-- The type `FillPattern`, a Go string. -/
abbrev FillPattern := GoString

/-- The type `FillShading`, a Go string. -/
abbrev FillShading := GoString

def BorderStyleNone : BorderStyle := "none".toList
def BorderStyleContinuous : BorderStyle := "continuous".toList
def BorderStyleDash : BorderStyle := "dash".toList
def BorderStyleDot : BorderStyle := "dot".toList
def BorderStyleDouble : BorderStyle := "double".toList
def BorderStyleDashDot : BorderStyle := "dashDot".toList
def BorderStyleDashDotDot : BorderStyle := "dashDotDot".toList
def BorderStyleSlantDashDot : BorderStyle := "slantDashDot".toList
def BorderStyleMediumDashDot : BorderStyle := "mediumDashDot".toList
def BorderStyleMediumDashDotDot : BorderStyle := "mediumDashDotDot".toList

/-- The function `BorderStyleValues` of `excel.go`. -/
def BorderStyleValues : List BorderStyle :=
  [BorderStyleNone, BorderStyleContinuous, BorderStyleDash, BorderStyleDot,
    BorderStyleDouble, BorderStyleDashDot, BorderStyleDashDotDot, BorderStyleSlantDashDot,
    BorderStyleMediumDashDot, BorderStyleMediumDashDotDot]

def FillPatternNone : FillPattern := "none".toList
def FillPatternSolid : FillPattern := "solid".toList
def FillPatternMediumGray : FillPattern := "mediumGray".toList
def FillPatternDarkGray : FillPattern := "darkGray".toList
def FillPatternLightGray : FillPattern := "lightGray".toList
def FillPatternDarkHorizontal : FillPattern := "darkHorizontal".toList
def FillPatternDarkVertical : FillPattern := "darkVertical".toList
def FillPatternDarkDown : FillPattern := "darkDown".toList
def FillPatternDarkUp : FillPattern := "darkUp".toList
def FillPatternDarkGrid : FillPattern := "darkGrid".toList
def FillPatternDarkTrellis : FillPattern := "darkTrellis".toList
def FillPatternLightHorizontal : FillPattern := "lightHorizontal".toList
def FillPatternLightVertical : FillPattern := "lightVertical".toList
def FillPatternLightDown : FillPattern := "lightDown".toList
def FillPatternLightUp : FillPattern := "lightUp".toList
def FillPatternLightGrid : FillPattern := "lightGrid".toList
def FillPatternLightTrellis : FillPattern := "lightTrellis".toList
def FillPatternGray125 : FillPattern := "gray125".toList
def FillPatternGray0625 : FillPattern := "gray0625".toList

/-- The function `FillPatternValues` of `excel.go`. -/
def FillPatternValues : List FillPattern :=
  [FillPatternNone, FillPatternSolid, FillPatternMediumGray, FillPatternDarkGray,
    FillPatternLightGray, FillPatternDarkHorizontal, FillPatternDarkVertical,
    FillPatternDarkDown, FillPatternDarkUp, FillPatternDarkGrid, FillPatternDarkTrellis,
    FillPatternLightHorizontal, FillPatternLightVertical, FillPatternLightDown,
    FillPatternLightUp, FillPatternLightGrid, FillPatternLightTrellis, FillPatternGray125,
    FillPatternGray0625]

def FillShadingHorizontal : FillShading := "horizontal".toList
def FillShadingVertical : FillShading := "vertical".toList
def FillShadingDiagonalDown : FillShading := "diagonalDown".toList
def FillShadingDiagonalUp : FillShading := "diagonalUp".toList
def FillShadingFromCenter : FillShading := "fromCenter".toList
def FillShadingFromCorner : FillShading := "fromCorner".toList

/-- The function `FillShadingValues` of `excel.go`. -/
def FillShadingValues : List FillShading :=
  [FillShadingHorizontal, FillShadingVertical, FillShadingDiagonalDown,
    FillShadingDiagonalUp, FillShadingFromCenter, FillShadingFromCorner]

/-! ## `excel_excelize.go`: the style tables -/

/-- The lookup `m[k]` in a Go map given by its literal, `none` when the key does not
exist. -/
def mapGet {κ ν : Type} [DecidableEq κ] (k : κ) : List (κ × ν) → Option ν
  | [] => none
  | (k1, v) :: rest => if k = k1 then some v else mapGet k rest

/-- The map literal `styles` of `intToBorderStyleName`. -/
def intToBorderStyleNameStyles : List (Int × BorderStyle) :=
  [(0, BorderStyleNone), (1, BorderStyleContinuous), (2, BorderStyleContinuous),
    (3, BorderStyleDash), (4, BorderStyleDot), (5, BorderStyleContinuous),
    (6, BorderStyleDouble), (7, BorderStyleContinuous), (8, BorderStyleDashDot),
    (9, BorderStyleDashDotDot), (10, BorderStyleSlantDashDot), (11, BorderStyleContinuous),
    (12, BorderStyleMediumDashDot), (13, BorderStyleMediumDashDotDot)]

/-- The function `intToBorderStyleName` of `excel_excelize.go`. -/
def intToBorderStyleName (style : Int) : BorderStyle :=
  match mapGet style intToBorderStyleNameStyles with
  | some name => name
  | none => BorderStyleContinuous

/-- The map literal `patterns` of `intToFillPatternName`. -/
def intToFillPatternNamePatterns : List (Int × FillPattern) :=
  [(0, FillPatternNone), (1, FillPatternSolid), (2, FillPatternMediumGray),
    (3, FillPatternDarkGray), (4, FillPatternLightGray), (5, FillPatternDarkHorizontal),
    (6, FillPatternDarkVertical), (7, FillPatternDarkDown), (8, FillPatternDarkUp),
    (9, FillPatternDarkGrid), (10, FillPatternDarkTrellis),
    (11, FillPatternLightHorizontal), (12, FillPatternLightVertical),
    (13, FillPatternLightDown), (14, FillPatternLightUp), (15, FillPatternLightGrid),
    (16, FillPatternLightTrellis), (17, FillPatternGray125), (18, FillPatternGray0625)]

/-- The function `intToFillPatternName` of `excel_excelize.go`. -/
def intToFillPatternName (pattern : Int) : FillPattern :=
  match mapGet pattern intToFillPatternNamePatterns with
  | some name => name
  | none => FillPatternNone

/-- The map literal `shadings` of `intToFillShadingName`. -/
def intToFillShadingNameShadings : List (Int × FillShading) :=
  [(0, FillShadingHorizontal), (1, FillShadingVertical), (2, FillShadingDiagonalDown),
    (3, FillShadingDiagonalUp), (4, FillShadingFromCenter), (5, FillShadingFromCorner)]

/-- The function `intToFillShadingName` of `excel_excelize.go`. -/
def intToFillShadingName (shading : Int) : FillShading :=
  match mapGet shading intToFillShadingNameShadings with
  | some name => name
  | none => FillShadingHorizontal

/-- The map literal `styles` of `borderStyleNameToInt`. -/
def borderStyleNameToIntStyles : List (BorderStyle × Int) :=
  [(BorderStyleNone, 0), (BorderStyleContinuous, 1), (BorderStyleDash, 3),
    (BorderStyleDot, 4), (BorderStyleDouble, 6), (BorderStyleDashDot, 8),
    (BorderStyleDashDotDot, 9), (BorderStyleSlantDashDot, 10),
    (BorderStyleMediumDashDot, 12), (BorderStyleMediumDashDotDot, 13)]

/-- The function `borderStyleNameToInt` of `excel_excelize.go`. -/
def borderStyleNameToInt (style : BorderStyle) : Int :=
  match mapGet style borderStyleNameToIntStyles with
  | some value => value
  | none => 1

/-- The map literal `patterns` of `fillPatternNameToInt`. -/
def fillPatternNameToIntPatterns : List (FillPattern × Int) :=
  [(FillPatternNone, 0), (FillPatternSolid, 1), (FillPatternMediumGray, 2),
    (FillPatternDarkGray, 3), (FillPatternLightGray, 4), (FillPatternDarkHorizontal, 5),
    (FillPatternDarkVertical, 6), (FillPatternDarkDown, 7), (FillPatternDarkUp, 8),
    (FillPatternDarkGrid, 9), (FillPatternDarkTrellis, 10),
    (FillPatternLightHorizontal, 11), (FillPatternLightVertical, 12),
    (FillPatternLightDown, 13), (FillPatternLightUp, 14), (FillPatternLightGrid, 15),
    (FillPatternLightTrellis, 16), (FillPatternGray125, 17), (FillPatternGray0625, 18)]

/-- The function `fillPatternNameToInt` of `excel_excelize.go`. -/
def fillPatternNameToInt (pattern : FillPattern) : Int :=
  match mapGet pattern fillPatternNameToIntPatterns with
  | some value => value
  | none => 0

/-- The map literal `shadings` of `fillShadingNameToInt`. -/
def fillShadingNameToIntShadings : List (FillShading × Int) :=
  [(FillShadingHorizontal, 0), (FillShadingVertical, 1), (FillShadingDiagonalDown, 2),
    (FillShadingDiagonalUp, 3), (FillShadingFromCenter, 4), (FillShadingFromCorner, 5)]

/-- The function `fillShadingNameToInt` of `excel_excelize.go`. -/
def fillShadingNameToInt (shading : FillShading) : Int :=
  match mapGet shading fillShadingNameToIntShadings with
  | some value => value
  | none => 0

/-! ## `excel.go` and `excel_excelize.go`: cell styles -/

/-- The struct `Border` of `excel.go` (the field `Type` is written `Type_`). -/
structure Border where
  Type_ : GoString
  Style : BorderStyle
  Color : GoString
  deriving DecidableEq, Repr

/-- The struct `FontStyle` of `excel.go`; a nil pointer is `none`. -/
structure FontStyle where
  Bold : Option Bool
  Italic : Option Bool
  Underline : Option GoString
  Size : Option Int
  Strike : Option Bool
  Color : Option GoString
  VertAlign : Option GoString
  deriving DecidableEq, Repr

/-- The struct `FillStyle` of `excel.go` (the field `Type` is written `Type_`). -/
structure FillStyle where
  Type_ : GoString
  Pattern : FillPattern
  Color : List GoString
  Shading : Option FillShading
  deriving DecidableEq, Repr

/-- The struct `CellStyle` of `excel.go`; a nil pointer is `none`, a nil slice is the
empty list. -/
structure CellStyle where
  Border : List Border
  Font : Option FontStyle
  Fill : Option FillStyle
  NumFmt : Option GoString
  DecimalPlaces : Option Int
  deriving DecidableEq, Repr

/-- Modelled from the spec: the struct `excelize.Border`, declared outside the
repository. -/
structure ExcelizeBorder where
  Type_ : GoString
  Color : GoString
  Style : Int
  deriving DecidableEq, Repr

/-- Modelled from the spec: the struct `excelize.Fill`, declared outside the
repository. -/
structure ExcelizeFill where
  Type_ : GoString
  Pattern : Int
  Color : List GoString
  Shading : Int
  deriving DecidableEq, Repr

/-- Modelled from the spec: the struct `excelize.Font`, declared outside the repository,
with the fields that the conversions read or write. The `float64` field `Size` holds a
rational number. -/
structure ExcelizeFont where
  Bold : Bool
  Italic : Bool
  Underline : GoString
  Size : Rat
  Strike : Bool
  Color : GoString
  VertAlign : GoString
  deriving DecidableEq, Repr

/-- Modelled from the spec: the struct `excelize.Style`, declared outside the
repository, with the fields that the conversions read or write. -/
structure ExcelizeStyle where
  Border : List ExcelizeBorder
  Fill : ExcelizeFill
  Font : Option ExcelizeFont
  CustomNumFmt : Option GoString
  DecimalPlaces : Option Int
  deriving DecidableEq, Repr

/-- Modelled from the spec: the call `strings.TrimPrefix(s, "#")` of the Go standard
library. -/
def trimPrefixHash : GoString → GoString
  | [] => []
  | c :: rest => if c = '#' then rest else c :: rest

/-- Modelled from the spec: `strings.ToUpper` of the Go standard library, on ASCII
letters (the letters of a hexadecimal colour); other characters are kept. -/
def stringsToUpper (s : GoString) : GoString := s.map Char.toUpper

/-- The border conversion in the loop of `convertCellStyleToExcelizeStyle`. -/
def borderToExcelize (border : Border) : ExcelizeBorder :=
  { Type_ := border.Type_
    Color := if border.Color ≠ [] then trimPrefixHash border.Color else []
    Style := borderStyleNameToInt border.Style }

/-- The font conversion of `convertCellStyleToExcelizeStyle`; `float64(n)` is taken as
the rational `n`, which is exact up to `2^53` (Go rounds larger sizes). -/
def fontToExcelize (f : FontStyle) : ExcelizeFont :=
  { Bold := match f.Bold with
      | some b => b
      | none => false
    Italic := match f.Italic with
      | some b => b
      | none => false
    Underline := match f.Underline with
      | some u => u
      | none => []
    Size := match f.Size with
      | some n => if n > 0 then (n : Rat) else 0
      | none => 0
    Strike := match f.Strike with
      | some b => b
      | none => false
    Color := match f.Color with
      | some c => if c ≠ [] then trimPrefixHash c else []
      | none => []
    VertAlign := match f.VertAlign with
      | some v => v
      | none => [] }

/-- The fill conversion of `convertCellStyleToExcelizeStyle`. -/
def fillToExcelize (fl : FillStyle) : ExcelizeFill :=
  { Type_ := if fl.Type_ ≠ [] then fl.Type_ else []
    Pattern := fillPatternNameToInt fl.Pattern
    Color := if fl.Color.length > 0 then fl.Color.map trimPrefixHash else []
    Shading := match fl.Shading with
      | some h => fillShadingNameToInt h
      | none => 0 }

/-- The function `convertCellStyleToExcelizeStyle` of `excel_excelize.go`, on a non-nil
style. -/
def convertCellStyleToExcelizeStyle (style : CellStyle) : ExcelizeStyle :=
  { Border := if style.Border.length > 0 then style.Border.map borderToExcelize else []
    Font := match style.Font with
      | some f => some (fontToExcelize f)
      | none => none
    Fill := match style.Fill with
      | some fl => fillToExcelize fl
      | none => ⟨[], 0, [], 0⟩
    CustomNumFmt := match style.NumFmt with
      | some n => if n ≠ [] then some n else none
      | none => none
    DecimalPlaces := match style.DecimalPlaces with
      | some d => if d > 0 then some d else none
      | none => none }

/-- The border conversion in the loop of `convertExcelizeStyleToCellStyle`. -/
def borderFromExcelize (border : ExcelizeBorder) : Border :=
  { Type_ := border.Type_
    Color := if border.Color ≠ [] then '#' :: stringsToUpper border.Color else []
    Style := if border.Style ≠ 0 then intToBorderStyleName border.Style else [] }

/-- The font conversion of `convertExcelizeStyleToCellStyle`, before the test that keeps
it; `int(size)` of a positive size is its integer part. -/
def fontFromExcelize (f : ExcelizeFont) : FontStyle :=
  { Bold := if f.Bold then some f.Bold else none
    Italic := if f.Italic then some f.Italic else none
    Underline := if f.Underline ≠ [] then some f.Underline else none
    Size := if f.Size > 0 then some (Rat.floor f.Size) else none
    Strike := if f.Strike then some f.Strike else none
    Color := if f.Color ≠ [] then some ('#' :: stringsToUpper f.Color) else none
    VertAlign := if f.VertAlign ≠ [] then some f.VertAlign else none }

/-- The fill conversion of `convertExcelizeStyleToCellStyle`, before the test that keeps
it. -/
def fillFromExcelize (fl : ExcelizeFill) : FillStyle :=
  { Type_ := if fl.Type_ ≠ [] then fl.Type_ else []
    Pattern := if fl.Pattern ≠ 0 then intToFillPatternName fl.Pattern else []
    Color :=
      if fl.Color.length > 0 then
        (fl.Color.filter (fun c => decide (c ≠ []))).map (fun c => '#' :: stringsToUpper c)
      else []
    Shading := if fl.Shading ≠ 0 then some (intToFillShadingName fl.Shading) else none }

/-- The function `convertExcelizeStyleToCellStyle` of `excel_excelize.go`, on a non-nil
style. -/
def convertExcelizeStyleToCellStyle (style : ExcelizeStyle) : CellStyle :=
  { Border := if style.Border.length > 0 then style.Border.map borderFromExcelize else []
    Font := match style.Font with
      | some f =>
        let font := fontFromExcelize f
        if font.Bold ≠ none ∨ font.Italic ≠ none ∨ font.Underline ≠ none ∨ font.Size ≠ none ∨
            font.Strike ≠ none ∨ font.Color ≠ none ∨ font.VertAlign ≠ none then some font
        else none
      | none => none
    Fill :=
      if style.Fill.Type_ ≠ [] ∨ style.Fill.Pattern ≠ 0 ∨ style.Fill.Color.length > 0 then
        let fill := fillFromExcelize style.Fill
        if fill.Type_ ≠ [] ∨ fill.Pattern ≠ FillPatternNone ∨ fill.Color.length > 0 ∨
            fill.Shading ≠ none then some fill
        else none
      else none
    NumFmt := match style.CustomNumFmt with
      | some n => if n ≠ [] then some n else none
      | none => none
    DecimalPlaces := match style.DecimalPlaces with
      | some d => if d ≠ 0 then some d else none
      | none => none }

/-- The neutral style obtained by converting a neutral style to the native style and
back. -/
def styleRoundTrip (s : CellStyle) : CellStyle :=
  convertExcelizeStyleToCellStyle (convertCellStyleToExcelizeStyle s)

/-- A hexadecimal digit `0`-`9`, `a`-`f` or `A`-`F`. -/
def isHexDigit (c : Char) : Bool :=
  isDigit09 c || (decide (97 ≤ c.toNat) && decide (c.toNat ≤ 102)) ||
    (decide (65 ≤ c.toNat) && decide (c.toNat ≤ 70))

/-- An uppercase hexadecimal digit `0`-`9` or `A`-`F`. -/
def isUpperHexDigit (c : Char) : Bool :=
  isDigit09 c || (decide (65 ≤ c.toNat) && decide (c.toNat ≤ 70))

/-- Six hexadecimal digits, the `RRGGBB` part of a colour. -/
def IsHexColor (h : GoString) : Prop := h.length = 6 ∧ ∀ c ∈ h, isHexDigit c = true

instance (h : GoString) : Decidable (IsHexColor h) := by
  unfold IsHexColor; infer_instance

/-! ## `excel.go`: backend selection -/

/-- Modelled from the spec: an `excelize.File`, declared outside the repository, as its
`Path` and the names of its sheets. -/
structure ExcelizeFile where
  Path : GoString
  Sheets : List GoString
  deriving DecidableEq, Repr

/-- Modelled from the spec: `excelize.NewFile()`, which is outside the repository: a new
workbook with the single empty sheet `Sheet1` and no path. -/
def excelizeNewFile : ExcelizeFile := ⟨[], ["Sheet1".toList]⟩

/-- The value of the interface `Excel` that `OpenFile` returns: the OLE document (of a
type `Ole` declared outside the sources) or an `ExcelizeExcel` around a file. -/
inductive Excel (Ole : Type) where
  | ole (doc : Ole)
  | excelize (file : ExcelizeFile)
  deriving DecidableEq, Repr

/-- The method `ExcelizeExcel.GetBackendName` of `excel_excelize.go`. -/
def ExcelizeExcel.GetBackendName (_file : ExcelizeFile) : GoString := "excelize".toList

/-- What a call of `OpenFile` produces: the returned document (`none` for `nil`), the
returned error (`none` for `nil`), and whether `excelize.OpenFile` was called. The
release callback is left out. -/
structure OpenOutcome (Ole Err : Type) where
  excel : Option (Excel Ole)
  err : Option Err
  excelizeTried : Bool
  deriving DecidableEq, Repr

/-- The function `OpenFile` of `excel.go`. Its three collaborators are parameters:
`newExcelOle` is `NewExcelOle`, `excelizeOpenFile` is `excelize.OpenFile`, and
`isNotExist` is `os.IsNotExist`. -/
def OpenFile {Ole Err : Type} (newExcelOle : GoString → Except Err Ole)
    (excelizeOpenFile : GoString → Except Err ExcelizeFile) (isNotExist : Err → Bool)
    (absoluteFilePath : GoString) : OpenOutcome Ole Err :=
  match newExcelOle absoluteFilePath with
  | .ok ole => ⟨some (.ole ole), none, false⟩
  | .error _ =>
    match excelizeOpenFile absoluteFilePath with
    | .error err =>
      if isNotExist err then
        ⟨some (.excelize { excelizeNewFile with Path := absoluteFilePath }), none, true⟩
      else ⟨none, some err, true⟩
    | .ok workbook => ⟨some (.excelize workbook), none, true⟩

/-! ## `excel_excelize.go`: the worksheet and its dimension -/

/-- A Go string as the list of its bytes, for the code that slices strings at byte
offsets. -/
abbrev GoBytes := List UInt8

/-- Modelled from the spec: the sheet of an `excelize.File` that an `ExcelizeWorksheet`
works on, declared outside the repository: the cell values and formulas by
coordinates, and the stored dimension. -/
structure ExcelizeSheet where
  cells : List ((Int × Int) × GoBytes)
  formulas : List ((Int × Int) × GoBytes)
  dimension : GoString
  deriving DecidableEq, Repr

/-- Modelled from the spec: `File.SetCellValue` with a string value, which is outside
the repository: an invalid cell name is an error, otherwise the value is stored; the
stored dimension is left as it is. -/
def SetCellValue (w : ExcelizeSheet) (cell : GoString) (value : GoBytes) :
    Except GoError ExcelizeSheet :=
  match CellNameToCoordinates cell with
  | .error e => .error e
  | .ok key => .ok { w with cells := (key, value) :: w.cells }

/-- Modelled from the spec: `File.SetCellFormula`, which is outside the repository: an
invalid cell name is an error, otherwise the formula is stored; the stored dimension is
left as it is. -/
def SetCellFormula (w : ExcelizeSheet) (cell : GoString) (formula : GoBytes) :
    Except GoError ExcelizeSheet :=
  match CellNameToCoordinates cell with
  | .error e => .error e
  | .ok key => .ok { w with formulas := (key, formula) :: w.formulas }

/-- Modelled from the spec: `File.GetCellValue`, which is outside the repository: the
value last stored in the cell, the empty string when there is none. -/
def GetCellValue (w : ExcelizeSheet) (cell : GoString) : Except GoError GoBytes :=
  match CellNameToCoordinates cell with
  | .error e => .error e
  | .ok key =>
    match mapGet key w.cells with
    | some value => .ok value
    | none => .ok []

/-- Modelled from the spec: `File.SetSheetDimension`, which is outside the repository,
on the normalized range references that `updateDimension` passes: the reference is
stored. -/
def SetSheetDimension (w : ExcelizeSheet) (rangeRef : GoString) :
    Except GoError ExcelizeSheet :=
  .ok { w with dimension := rangeRef }

/-- The method `ExcelizeWorksheet.updateDimension` of `excel_excelize.go`;
`GetSheetDimension` returns the stored dimension. -/
def updateDimension (w : ExcelizeSheet) (updatedCell : GoString) :
    Except GoError ExcelizeSheet :=
  let r := ParseRange w.dimension
  match r.err with
  | some e => .error e
  | none =>
    match CellNameToCoordinates updatedCell with
    | .error e => .error e
    | .ok (updatedCol, updatedRow) =>
      let startCol := if r.startCol > updatedCol then updatedCol else r.startCol
      let endCol := if r.endCol < updatedCol then updatedCol else r.endCol
      let startRow := if r.startRow > updatedRow then updatedRow else r.startRow
      let endRow := if r.endRow < updatedRow then updatedRow else r.endRow
      match CoordinatesToCellName startCol startRow with
      | .error e => .error e
      | .ok startRange =>
        match CoordinatesToCellName endCol endRow with
        | .error e => .error e
        | .ok endRange => SetSheetDimension w (startRange ++ ':' :: endRange)

/-- The method `ExcelizeWorksheet.SetValue` of `excel_excelize.go`, for a string
value. -/
def SetValue (w : ExcelizeSheet) (cell : GoString) (value : GoBytes) :
    Except GoError ExcelizeSheet :=
  match SetCellValue w cell value with
  | .error e => .error e
  | .ok w1 =>
    match updateDimension w1 cell with
    | .error e => .error e
    | .ok w2 => .ok w2

/-- The method `ExcelizeWorksheet.SetFormula` of `excel_excelize.go`. -/
def SetFormula (w : ExcelizeSheet) (cell : GoString) (formula : GoBytes) :
    Except GoError ExcelizeSheet :=
  match SetCellFormula w cell formula with
  | .error e => .error e
  | .ok w1 =>
    match updateDimension w1 cell with
    | .error e => .error e
    | .ok w2 => .ok w2

/-! ## `excel_excelize.go`: `FindReplace`

Go strings are byte sequences; the scan loop of `FindReplace` slices them by byte
offsets, so cell texts are `GoBytes` here. -/

/-- The UTF-8 encoding written by `utf8.AppendRune`; a surrogate or a value above
`0x10FFFF` is written as `U+FFFD`. -/
def EncodeRune (r : Nat) : GoBytes :=
  if r < 0x80 then [UInt8.ofNat r]
  else if r < 0x800 then [UInt8.ofNat (0xC0 + r / 64), UInt8.ofNat (0x80 + r % 64)]
  else if 0x10FFFF < r ∨ (0xD800 ≤ r ∧ r ≤ 0xDFFF) then [0xEF, 0xBF, 0xBD]
  else if r < 0x10000 then
    [UInt8.ofNat (0xE0 + r / 4096), UInt8.ofNat (0x80 + r / 64 % 64),
      UInt8.ofNat (0x80 + r % 64)]
  else
    [UInt8.ofNat (0xF0 + r / 262144), UInt8.ofNat (0x80 + r / 4096 % 64),
      UInt8.ofNat (0x80 + r / 64 % 64), UInt8.ofNat (0x80 + r % 64)]

/-- The bytes of a Go string literal given by its runes. -/
def utf8Bytes (s : GoString) : GoBytes := (s.map (fun c => EncodeRune c.toNat)).flatten

/-- The constant `utf8.RuneError`. -/
def RuneError : Nat := 0xFFFD

/-- Whether the byte lies in the closed interval from `lo` to `hi`. -/
def byteIn (b : UInt8) (lo hi : Nat) : Bool := decide (lo ≤ b.toNat) && decide (b.toNat ≤ hi)

/-- Modelled from the spec: `utf8.DecodeRuneInString`, which is outside the repository:
the first rune of the text and its width in bytes; an invalid or truncated encoding is
`RuneError` with width 1 and the empty text is `RuneError` with width 0. -/
def DecodeRune : GoBytes → Nat × Nat
  | [] => (RuneError, 0)
  | b0 :: rest =>
    let x := b0.toNat
    if x < 0x80 then (x, 1)
    else if 0xC2 ≤ x ∧ x ≤ 0xDF then
      match rest with
      | b1 :: _ =>
        if byteIn b1 0x80 0xBF then (x % 32 * 64 + b1.toNat % 64, 2) else (RuneError, 1)
      | [] => (RuneError, 1)
    else if 0xE0 ≤ x ∧ x ≤ 0xEF then
      match rest with
      | b1 :: b2 :: _ =>
        if byteIn b1 (if x = 0xE0 then 0xA0 else 0x80) (if x = 0xED then 0x9F else 0xBF)
            && byteIn b2 0x80 0xBF then
          (x % 16 * 4096 + b1.toNat % 64 * 64 + b2.toNat % 64, 3)
        else (RuneError, 1)
      | _ => (RuneError, 1)
    else if 0xF0 ≤ x ∧ x ≤ 0xF4 then
      match rest with
      | b1 :: b2 :: b3 :: _ =>
        if byteIn b1 (if x = 0xF0 then 0x90 else 0x80) (if x = 0xF4 then 0x8F else 0xBF)
            && byteIn b2 0x80 0xBF && byteIn b3 0x80 0xBF then
          (x % 8 * 262144 + b1.toNat % 64 * 4096 + b2.toNat % 64 * 64 + b3.toNat % 64, 4)
        else (RuneError, 1)
      | _ => (RuneError, 1)
    else (RuneError, 1)

/-- Modelled from the spec: `unicode.ToLower`, which is outside the repository. The
ASCII letters and the code points listed map as in the Unicode tables of Go
(`U+0130` to `i`, `U+023A` to `U+2C65`, `U+1E9E` to `U+00DF`, `U+212A` to `k`); every
other code point is left as it is here, so only results on ASCII text and on the
listed code points carry over to the program. -/
def unicodeToLower (r : Nat) : Nat :=
  if 0x41 ≤ r ∧ r ≤ 0x5A then r + 32
  else if r = 0x130 then 0x69
  else if r = 0x23A then 0x2C65
  else if r = 0x1E9E then 0xDF
  else if r = 0x212A then 0x6B
  else r

/-- The lower-case form of one ASCII byte, as in the ASCII fast path of
`strings.ToLower`. -/
def lowerByte (b : UInt8) : UInt8 :=
  if 0x41 ≤ b.toNat ∧ b.toNat ≤ 0x5A then b + 32 else b

/-- Modelled from the spec: `strings.Map`, which is outside the repository: every rune
of the text (an invalid byte counting as `RuneError`) is replaced by the encoding of
its image. `fuel` bounds the number of runes; the length of the text is enough. -/
def mapRunes (mapping : Nat → Nat) : Nat → GoBytes → GoBytes
  | 0, _ => []
  | _ + 1, [] => []
  | fuel + 1, b :: rest =>
    EncodeRune (mapping (DecodeRune (b :: rest)).1) ++
      mapRunes mapping fuel ((b :: rest).drop (DecodeRune (b :: rest)).2)

/-- Modelled from the spec: `strings.ToLower`, which is outside the repository: a text
of ASCII bytes only has its letters `A` to `Z` lowered byte by byte, any other text is
mapped rune by rune with `unicode.ToLower`. -/
def stringsToLower (s : GoBytes) : GoBytes :=
  if s.all (fun b => decide (b.toNat < 0x80)) then s.map lowerByte
  else mapRunes unicodeToLower s.length s

/-- Modelled from the spec: `strings.HasPrefix` with the arguments in the order text,
beginning. -/
def startsWith : GoBytes → GoBytes → Bool
  | _, [] => true
  | [], _ :: _ => false
  | a :: s, b :: p => a == b && startsWith s p

/-- Modelled from the spec: `strings.Index`, which is outside the repository: the byte
offset of the first occurrence of `sub` in the text, `none` for the result `-1`. -/
def stringsIndex (sub : GoBytes) : GoBytes → Option Nat
  | [] => if sub = [] then some 0 else none
  | a :: s =>
    if startsWith (a :: s) sub then some 0
    else (stringsIndex sub s).map (fun i => i + 1)

/-- Modelled from the spec: `strings.Contains`. -/
def stringsContains (s sub : GoBytes) : Bool := (stringsIndex sub s).isSome

/-- Modelled from the spec: `strings.EqualFold`, which is outside the repository. On
ASCII texts this is equality up to the case of letters; on other texts the lower-case
forms are compared, which is coarser than the simple case folding of Go. -/
def stringsEqualFold (s t : GoBytes) : Bool := decide (stringsToLower s = stringsToLower t)

/-- The loop of `strings.Replace` for a non-empty `old`; `fuel` bounds the number of
replacements and the length of the text is enough. -/
def replaceLoop (old new : GoBytes) : Nat → GoBytes → GoBytes
  | 0, s => s
  | fuel + 1, s =>
    match stringsIndex old s with
    | none => s
    | some j => s.take j ++ new ++ replaceLoop old new fuel (s.drop (j + old.length))

/-- The loop of `strings.Replace` for an empty `old`, after the first insertion: each
rune of the text is followed by `new`. -/
def insertAfterRunes (new : GoBytes) : Nat → GoBytes → GoBytes
  | 0, _ => []
  | _ + 1, [] => []
  | fuel + 1, b :: rest =>
    (b :: rest).take (DecodeRune (b :: rest)).2 ++ new ++
      insertAfterRunes new fuel ((b :: rest).drop (DecodeRune (b :: rest)).2)

/-- Modelled from the spec: `strings.ReplaceAll`, which is outside the repository. -/
def stringsReplaceAll (s old new : GoBytes) : GoBytes :=
  if old = new then s
  else if old = [] then new ++ insertAfterRunes new s.length s
  else replaceLoop old new s.length s

/-- How the scan-and-splice loop of `FindReplace` ends: with the final `result`, with
the run-time panic of a slice expression whose bounds are out of range, or still
running when `fuel` iterations are over. -/
inductive Scan where
  | done (result : GoBytes)
  | sliceOutOfRange
  | outOfFuel
  deriving DecidableEq, Repr

/-- The loop `for { pos := strings.Index(strings.ToLower(result[idx:]), lowerFind) ... }`
of `FindReplace`, started with the given `result` and `idx`. `result[idx:]` panics when
`idx` exceeds the length, and `result[:idx+pos]`, `result[idx+pos+len(find):]` panic
when `idx+pos+len(find)` exceeds it. -/
def foldScanLoop (find replace lowerFind : GoBytes) : Nat → GoBytes → Nat → Scan
  | 0, _, _ => .outOfFuel
  | fuel + 1, result, idx =>
    if result.length < idx then .sliceOutOfRange
    else
      match stringsIndex lowerFind (stringsToLower (result.drop idx)) with
      | none => .done result
      | some pos =>
        if result.length < idx + pos + find.length then .sliceOutOfRange
        else
          foldScanLoop find replace lowerFind fuel
            (result.take (idx + pos) ++ replace ++ result.drop (idx + pos + find.length))
            (idx + pos + replace.length)

/-- What the body of the loops of `FindReplace` decides for one cell: `matched` false,
`matched` true with `newValue`, a panic, or a scan loop that is still running. -/
inductive CellOutcome where
  | unchanged
  | replaced (newValue : GoBytes)
  | sliceOutOfRange
  | outOfFuel
  deriving DecidableEq, Repr

/-- The statements of `FindReplace` from `var newValue string` up to `if matched`, for
a cell whose text is `value`; `fuel` bounds the iterations of the scan loop. -/
def replaceInCell (fuel : Nat) (value find replace : GoBytes)
    (matchCase matchEntireCell : Bool) : CellOutcome :=
  if matchEntireCell then
    if matchCase then
      if value = find then .replaced replace else .unchanged
    else
      if stringsEqualFold value find then .replaced replace else .unchanged
  else
    if matchCase then
      if stringsContains value find then .replaced (stringsReplaceAll value find replace)
      else .unchanged
    else
      if stringsContains (stringsToLower value) (stringsToLower find) then
        match foldScanLoop find replace (stringsToLower find) fuel value 0 with
        | .done result => .replaced result
        | .sliceOutOfRange => .sliceOutOfRange
        | .outOfFuel => .outOfFuel
      else .unchanged

/-- How a call of `FindReplace` ends: it returns `count` and `err` and leaves the
sheet as given, it panics, or a scan loop is still running. -/
inductive FindReplaceOutcome where
  | returned (count : Int) (err : Option GoError) (sheet : ExcelizeSheet)
  | sliceOutOfRange
  | outOfFuel
  deriving DecidableEq, Repr

/-- The integers from `a` to `b` in ascending order, the values of a loop
`for i := a; i <= b; i++`. -/
def intRange (a b : Int) : List Int :=
  (List.range (b - a + 1).toNat).map (fun i => a + (i : Int))

/-- The cells that the two loops of `FindReplace` visit, as `(col, row)`, in the order
of the visits. -/
def cellsOfRange (startCol startRow endCol endRow : Int) : List (Int × Int) :=
  ((intRange startRow endRow).map
    (fun row => (intRange startCol endCol).map (fun col => (col, row)))).flatten

/-- The two loops of `FindReplace` over the cells still to visit, with the `count` and
the sheet reached so far. -/
def findReplaceCells (fuel : Nat) (find replace : GoBytes)
    (matchCase matchEntireCell : Bool) :
    List (Int × Int) → Int → ExcelizeSheet → FindReplaceOutcome
  | [], count, w => .returned count none w
  | (col, row) :: rest, count, w =>
    match CoordinatesToCellName col row with
    | .error _ => findReplaceCells fuel find replace matchCase matchEntireCell rest count w
    | .ok cell =>
      match GetCellValue w cell with
      | .error _ =>
        findReplaceCells fuel find replace matchCase matchEntireCell rest count w
      | .ok value =>
        if value = [] then
          findReplaceCells fuel find replace matchCase matchEntireCell rest count w
        else
          match replaceInCell fuel value find replace matchCase matchEntireCell with
          | .unchanged =>
            findReplaceCells fuel find replace matchCase matchEntireCell rest count w
          | .replaced newValue =>
            match SetCellValue w cell newValue with
            | .error e => .returned count (some e) w
            | .ok w2 =>
              findReplaceCells fuel find replace matchCase matchEntireCell rest
                (count + 1) w2
          | .sliceOutOfRange => .sliceOutOfRange
          | .outOfFuel => .outOfFuel

/-- The method `ExcelizeWorksheet.FindReplace` of `excel_excelize.go`; `GetDimension`
returns the stored dimension, and `fuel` bounds the iterations of each scan loop. -/
def FindReplace (fuel : Nat) (w : ExcelizeSheet) (searchRange : GoString)
    (find replace : GoBytes) (matchCase matchEntireCell : Bool) : FindReplaceOutcome :=
  let rangeStr := if searchRange = [] then w.dimension else searchRange
  let r := ParseRange rangeStr
  match r.err with
  | some e => .returned 0 (some e) w
  | none =>
    findReplaceCells fuel find replace matchCase matchEntireCell
      (cellsOfRange r.startCol r.startRow r.endCol r.endRow) 0 w

/-! ### The replacement that the specification describes -/

/-- Equality of two ASCII texts up to the case of their letters. -/
def EqualsIgnoringCase (m f : GoBytes) : Prop := m.map lowerByte = f.map lowerByte

instance (m f : GoBytes) : Decidable (EqualsIgnoringCase m f) := by
  unfold EqualsIgnoringCase; infer_instance

/-- The text `f` occurs in `s` at byte offset `i`, up to the case of letters. -/
def OccursAt (f s : GoBytes) (i : Nat) : Prop :=
  i + f.length ≤ s.length ∧ EqualsIgnoringCase ((s.drop i).take f.length) f

instance (f s : GoBytes) (i : Nat) : Decidable (OccursAt f s i) := by
  unfold OccursAt; infer_instance

/-- A text of ASCII bytes only. -/
def IsAscii (s : GoBytes) : Prop := ∀ b ∈ s, b.toNat < 0x80

instance (s : GoBytes) : Decidable (IsAscii s) := by
  unfold IsAscii; infer_instance

/-- The relation `ReplacedIgnoringCase f r s out`: `out` is `s` with each occurrence of
`f`, taken from left to right without overlap and up to the case of letters, replaced
by `r` as written, and every other byte kept. Either `f` does not occur in `s` and
`out` is `s`, or `s` is `u ++ m ++ t` with `m` the first occurrence and `out` is
`u ++ r` followed by the replacement of what comes after `m`. -/
inductive ReplacedIgnoringCase (f r : GoBytes) : GoBytes → GoBytes → Prop where
  | rest (s : GoBytes) (h : ∀ i, ¬ OccursAt f s i) : ReplacedIgnoringCase f r s s
  | occurrence (s u m t out : GoBytes) (hs : s = u ++ m ++ t)
      (hm : EqualsIgnoringCase m f) (hfirst : ∀ i, i < u.length → ¬ OccursAt f s i)
      (ht : ReplacedIgnoringCase f r t out) :
      ReplacedIgnoringCase f r s (u ++ r ++ out)

/-! ## Paging range service: lemmas -/

theorem knownMapOf_foldl (knownRanges : List GoString) (m : GoString → Bool) (k : GoString) :
    (knownRanges.foldl (fun m r => fun k => if k = r then true else m k) m) k = true ↔
      k ∈ knownRanges ∨ m k = true := by
  induction knownRanges generalizing m with
  | nil => simp
  | cons r rs ih =>
    rw [List.foldl_cons, ih]
    by_cases h : k = r
    · simp [h]
    · simp [h, or_comm]

theorem knownMapOf_eq_true (knownRanges : List GoString) (k : GoString) :
    knownMapOf knownRanges k = true ↔ k ∈ knownRanges := by
  unfold knownMapOf
  rw [knownMapOf_foldl]
  simp

theorem foldl_append_eq_filter (p : GoString → Bool) (l acc : List GoString) :
    l.foldl (fun remaining r => if p r then remaining ++ [r] else remaining) acc =
      acc ++ l.filter p := by
  induction l generalizing acc with
  | nil => simp
  | cons r rs ih =>
    rw [List.foldl_cons, ih]
    by_cases h : p r = true
    · simp [h]
    · simp [h]

theorem FilterRemaining_eq_filter (allRanges knownRanges : List GoString) :
    FilterRemainingPagingRanges allRanges knownRanges =
      allRanges.filter (fun r => decide (r ∉ knownRanges)) := by
  unfold FilterRemainingPagingRanges
  by_cases h : knownRanges.length = 0
  · have hk : knownRanges = [] := List.length_eq_zero.mp h
    subst hk
    simp
  · rw [if_neg h]
    simp only []
    rw [foldl_append_eq_filter (fun r => !knownMapOf knownRanges r)]
    rw [List.nil_append]
    apply List.filter_congr
    intro r _
    by_cases hr : r ∈ knownRanges
    · simp [hr, (knownMapOf_eq_true knownRanges r).mpr hr]
    · have : knownMapOf knownRanges r = false := by
        cases hm : knownMapOf knownRanges r with
        | false => rfl
        | true => exact absurd ((knownMapOf_eq_true knownRanges r).mp hm) hr
      simp [hr, this]

theorem findNextLoop_no_match (allRanges : List GoString) (currentRange : GoString) :
    ∀ (rest : List GoString) (i : Nat), (∀ r ∈ rest, r ≠ currentRange) →
      findNextLoop allRanges currentRange i rest = [] := by
  intro rest
  induction rest with
  | nil => intro i _; rfl
  | cons r rs ih =>
    intro i h
    have hr : r ≠ currentRange := h r (List.mem_cons_self _ _)
    unfold findNextLoop
    rw [if_neg (fun hc => hr hc.1)]
    exact ih (i + 1) (fun x hx => h x (List.mem_cons_of_mem _ hx))

theorem findNextLoop_first_match (allRanges : List GoString) (currentRange : GoString) :
    ∀ (rest : List GoString) (i k : Nat), allRanges.drop i = rest → k < rest.length →
      rest.getD k [] = currentRange → (∀ j, j < k → rest.getD j [] ≠ currentRange) →
      findNextLoop allRanges currentRange i rest =
        if i + k + 1 < allRanges.length then allRanges.getD (i + k + 1) [] else [] := by
  intro rest
  induction rest with
  | nil => intro i k _ hk; simp at hk
  | cons r rs ih =>
    intro i k hdrop hk hmatch hfirst
    have hlen : allRanges.length = i + (rs.length + 1) := by
      have h1 := congrArg List.length hdrop
      have h2 : i < allRanges.length := by
        by_contra hc
        rw [List.drop_eq_nil_of_le (Nat.le_of_not_lt hc)] at hdrop
        simp at hdrop
      simp only [List.length_drop, List.length_cons] at h1
      omega
    have hdrop1 : allRanges.drop (i + 1) = rs := by
      rw [← List.drop_drop, hdrop]
      rfl
    cases k with
    | zero =>
      simp only [List.getD_cons_zero] at hmatch
      unfold findNextLoop
      by_cases hlt : i + 1 < allRanges.length
      · rw [if_pos ⟨hmatch, hlt⟩]
        simp [hlt]
      · rw [if_neg (fun hc => hlt hc.2)]
        have hrs : rs = [] := by
          apply List.eq_nil_of_length_eq_zero
          omega
        subst hrs
        simp [findNextLoop, hlt]
    | succ k =>
      have hr : r ≠ currentRange := by
        have := hfirst 0 (Nat.succ_pos k)
        simpa using this
      unfold findNextLoop
      rw [if_neg (fun hc => hr hc.1)]
      have hk1 : k < rs.length := by simpa using hk
      have := ih (i + 1) k hdrop1 hk1 (by simpa using hmatch)
        (fun j hj => by simpa using hfirst (j + 1) (Nat.succ_lt_succ hj))
      rw [this]
      have e : i + 1 + k + 1 = i + (k + 1) + 1 := by omega
      rw [e]

/-! ## Character classes: lemmas -/

theorem isUpperAZ_ne_dollar {c : Char} (h : isUpperAZ c = true) : c ≠ '$' := by
  intro hc; subst hc; revert h; decide

theorem isUpperAZ_not_digit {c : Char} (h : isUpperAZ c = true) : isDigit09 c = false := by
  unfold isUpperAZ at h
  unfold isDigit09
  simp only [Bool.and_eq_true, decide_eq_true_eq] at h
  simp only [Bool.and_eq_false_iff, decide_eq_false_iff_not]
  omega

theorem isDigit09_not_upper {c : Char} (h : isDigit09 c = true) : isUpperAZ c = false := by
  unfold isDigit09 at h
  unfold isUpperAZ
  simp only [Bool.and_eq_true, decide_eq_true_eq] at h
  simp only [Bool.and_eq_false_iff, decide_eq_false_iff_not]
  omega

theorem isDigit09_ne_dollar {c : Char} (h : isDigit09 c = true) : c ≠ '$' := by
  intro hc; subst hc; revert h; decide

theorem isDigit09_ne_colon {c : Char} (h : isDigit09 c = true) : c ≠ ':' := by
  intro hc; subst hc; revert h; decide

theorem isUpperAZ_ne_colon {c : Char} (h : isUpperAZ c = true) : c ≠ ':' := by
  intro hc; subst hc; revert h; decide

theorem isDigit09_not_alpha {c : Char} (h : isDigit09 c = true) :
    isAlphaOrDollar c = false := by
  have hd := isDigit09_ne_dollar h
  unfold isDigit09 at h
  unfold isAlphaOrDollar isUpperAZ isLowerAZ
  simp only [Bool.and_eq_true, decide_eq_true_eq] at h
  simp only [Bool.or_eq_false_iff, Bool.and_eq_false_iff, decide_eq_false_iff_not,
    beq_eq_false_iff_ne, ne_eq]
  refine ⟨⟨?_, ?_⟩, hd⟩ <;> omega

theorem isUpperAZ_alpha {c : Char} (h : isUpperAZ c = true) : isAlphaOrDollar c = true := by
  unfold isAlphaOrDollar
  simp [h]

theorem isDigit09_not_sign {c : Char} (h : isDigit09 c = true) (s : Char)
    (hs : isDigit09 s = false) : (c == s) = false := by
  rw [beq_eq_false_iff_ne]
  intro hc; subst hc; rw [h] at hs; exact Bool.noConfusion hs

/-! ## The matcher of `rangeRegexp` against the grammar -/

theorem takeWhile_dropWhile_forced (p : Char → Bool) (l rest : GoString) (hl : ∀ c ∈ l, p c = true)
    (hr : ∀ c ∈ rest.head?, p c = false) :
    (l ++ rest).takeWhile p = l ∧ (l ++ rest).dropWhile p = rest := by
  rw [List.takeWhile_append_of_pos hl, List.dropWhile_append_of_pos hl]
  cases rest with
  | nil => simp
  | cons x xs =>
    have hx : p x = false := hr x (by simp)
    simp [List.takeWhile_cons, List.dropWhile_cons, hx]

theorem dollarPrefix_dollar (t : GoString) : dollarPrefix ('$' :: t) = ['$'] := by
  simp [dollarPrefix]

theorem dollarPrefix_of_head (t : GoString) (h : ∀ c ∈ t.head?, c ≠ '$') :
    dollarPrefix t = [] := by
  cases t with
  | nil => rfl
  | cons x xs =>
    have hx : x ≠ '$' := h x (by simp)
    simp [dollarPrefix, hx]

theorem dollarPrefix_drop (abs : Bool) (t : GoString) (h : ∀ c ∈ t.head?, c ≠ '$') :
    dollarPrefix ((if abs then ['$'] else []) ++ t) = (if abs then ['$'] else []) ∧
    ((if abs then ['$'] else []) ++ t).drop (if abs then ['$'] else []).length = t := by
  cases abs with
  | true => simp [dollarPrefix]
  | false => simp [dollarPrefix_of_head t h]

theorem matchCell_cellText (abs1 abs2 : Bool) (l g rest : GoString) (hl : IsLetters l)
    (hg : IsDigits g) (hr : ∀ c ∈ rest.head?, isDigit09 c = false) :
    matchCell (cellText abs1 l abs2 g ++ rest) = some (cellText abs1 l abs2 g, rest) := by
  obtain ⟨hl0, hl1⟩ := hl
  obtain ⟨hg0, hg1⟩ := hg
  have e : cellText abs1 l abs2 g ++ rest =
      (if abs1 then ['$'] else []) ++ (l ++ ((if abs2 then ['$'] else []) ++ (g ++ rest))) := by
    simp [cellText, List.append_assoc]
  have h1 := dollarPrefix_drop abs1 (l ++ ((if abs2 then ['$'] else []) ++ (g ++ rest))) (by
    cases l with
    | nil => exact absurd rfl hl0
    | cons x xs =>
      intro c hc
      simp at hc
      subst hc
      exact isUpperAZ_ne_dollar (hl1 _ (List.mem_cons_self _ _)))
  have h2 := takeWhile_dropWhile_forced isUpperAZ l ((if abs2 then ['$'] else []) ++ (g ++ rest)) hl1 (by
    cases abs2 with
    | true => intro c hc; simp at hc; subst hc; decide
    | false =>
      cases g with
      | nil => exact absurd rfl hg0
      | cons x xs =>
        intro c hc
        simp at hc
        subst hc
        exact isDigit09_not_upper (hg1 _ (List.mem_cons_self _ _)))
  have h3 := dollarPrefix_drop abs2 (g ++ rest) (by
    cases g with
    | nil => exact absurd rfl hg0
    | cons x xs =>
      intro c hc
      simp at hc
      subst hc
      exact isDigit09_ne_dollar (hg1 _ (List.mem_cons_self _ _)))
  have h4 := takeWhile_dropWhile_forced isDigit09 g rest hg1 hr
  unfold matchCell
  simp only [e, h1.1, h1.2, h2.1, h2.2, h3.1, h3.2, h4.1, h4.2, if_neg hl0, if_neg hg0]
  simp [cellText, List.append_assoc]

theorem matchCell_sound (s c rest : GoString) (h : matchCell s = some (c, rest)) :
    s = c ++ rest ∧ IsCell c := by
  unfold matchCell at h
  simp only [] at h
  by_cases h1 : (s.drop (dollarPrefix s).length).takeWhile isUpperAZ = []
  · rw [if_pos h1] at h; exact Option.noConfusion h
  · rw [if_neg h1] at h
    by_cases h2 : (((s.drop (dollarPrefix s).length).dropWhile isUpperAZ).drop
        (dollarPrefix ((s.drop (dollarPrefix s).length).dropWhile isUpperAZ)).length).takeWhile
          isDigit09 = []
    · rw [if_pos h2] at h; exact Option.noConfusion h
    · rw [if_neg h2] at h
      have hd : ∀ t : GoString, dollarPrefix t ++ t.drop (dollarPrefix t).length = t ∧
          ∃ a : Bool, dollarPrefix t = if a then ['$'] else [] := by
        intro t
        cases t with
        | nil => exact ⟨rfl, false, rfl⟩
        | cons x xs =>
          by_cases hx : x = '$'
          · subst hx; exact ⟨by simp [dollarPrefix], true, by simp [dollarPrefix]⟩
          · exact ⟨by simp [dollarPrefix, hx], false, by simp [dollarPrefix, hx]⟩
      simp only [Option.some.injEq, Prod.mk.injEq] at h
      obtain ⟨hc, hrest⟩ := h
      obtain ⟨e1, a1, ha1⟩ := hd s
      obtain ⟨e2, a2, ha2⟩ := hd ((s.drop (dollarPrefix s).length).dropWhile isUpperAZ)
      constructor
      · rw [← hc, ← hrest]
        simp only [List.append_assoc]
        rw [List.takeWhile_append_dropWhile, e2, List.takeWhile_append_dropWhile, e1]
      · refine ⟨a1, _, a2, _, ⟨h1, fun c hc => List.mem_takeWhile_imp hc⟩,
          ⟨h2, fun c hc => List.mem_takeWhile_imp hc⟩, ?_⟩
        rw [← hc]
        unfold cellText
        rw [← ha1, ← ha2]

theorem cellText_ne_nil (abs1 abs2 : Bool) (l g : GoString) (hg : IsDigits g) :
    cellText abs1 l abs2 g ≠ [] := by
  intro h
  have := congrArg List.length h
  have hgl : 0 < g.length := List.length_pos.mpr hg.1
  simp only [cellText, List.length_append, List.length_nil] at this
  omega

theorem rangeRegexpFind_single (abs1 abs2 : Bool) (l g : GoString) (hl : IsLetters l)
    (hg : IsDigits g) :
    rangeRegexpFind (cellText abs1 l abs2 g) = some (cellText abs1 l abs2 g, []) := by
  have h := matchCell_cellText abs1 abs2 l g [] hl hg (by simp)
  rw [List.append_nil] at h
  unfold rangeRegexpFind
  rw [h]

theorem rangeRegexpFind_pair (a1 a2 b1 b2 : Bool) (l1 g1 l2 g2 : GoString)
    (hl1 : IsLetters l1) (hg1 : IsDigits g1) (hl2 : IsLetters l2) (hg2 : IsDigits g2) :
    rangeRegexpFind (cellText a1 l1 a2 g1 ++ ':' :: cellText b1 l2 b2 g2) =
      some (cellText a1 l1 a2 g1, cellText b1 l2 b2 g2) := by
  have h := matchCell_cellText a1 a2 l1 g1 (':' :: cellText b1 l2 b2 g2) hl1 hg1 (by
    intro c hc; simp at hc; subst hc; decide)
  have h2 := matchCell_cellText b1 b2 l2 g2 [] hl2 hg2 (by simp)
  rw [List.append_nil] at h2
  unfold rangeRegexpFind
  rw [h]
  simp only []
  rw [h2]

theorem rangeRegexpFind_sound (s m1 m2 : GoString) (h : rangeRegexpFind s = some (m1, m2)) :
    IsCell m1 ∧ ((m2 = [] ∧ s = m1) ∨ (IsCell m2 ∧ s = m1 ++ ':' :: m2)) := by
  unfold rangeRegexpFind at h
  cases hm : matchCell s with
  | none => rw [hm] at h; exact Option.noConfusion h
  | some cr =>
    obtain ⟨c1, rest⟩ := cr
    rw [hm] at h
    obtain ⟨hs, hc1⟩ := matchCell_sound s c1 rest hm
    cases rest with
    | nil =>
      simp only [Option.some.injEq, Prod.mk.injEq] at h
      obtain ⟨e1, e2⟩ := h
      subst e1 e2
      exact ⟨hc1, Or.inl ⟨rfl, by simpa using hs⟩⟩
    | cons x r2 =>
      by_cases hx : x = ':'
      · subst hx
        simp only [] at h
        cases hm2 : matchCell r2 with
        | none => rw [hm2] at h; exact Option.noConfusion h
        | some cr2 =>
          obtain ⟨c2, rest2⟩ := cr2
          rw [hm2] at h
          obtain ⟨hs2, hc2⟩ := matchCell_sound r2 c2 rest2 hm2
          cases rest2 with
          | nil =>
            simp only [Option.some.injEq, Prod.mk.injEq] at h
            obtain ⟨e1, e2⟩ := h
            subst e1 e2
            refine ⟨hc1, Or.inr ⟨hc2, ?_⟩⟩
            rw [hs, hs2, List.append_nil]
          | cons y ys => exact Option.noConfusion h
      · exfalso
        simp only [] at h
        split at h
        · rename_i heq; exact List.noConfusion heq
        · rename_i heq
          injection heq with h1 _
          exact hx h1
        · exact Option.noConfusion h

theorem rangeRegexpFind_of_grammar (s : GoString) (h : MatchesRangeGrammar s) :
    ∃ m1 m2, rangeRegexpFind s = some (m1, m2) := by
  rcases h with ⟨a1, l, a2, g, hl, hg, rfl⟩ | ⟨c1, c2, ⟨a1, l1, a2, g1, hl1, hg1, rfl⟩,
    ⟨b1, l2, b2, g2, hl2, hg2, rfl⟩, rfl⟩
  · exact ⟨_, _, rangeRegexpFind_single a1 a2 l g hl hg⟩
  · exact ⟨_, _, rangeRegexpFind_pair a1 a2 b1 b2 l1 g1 l2 g2 hl1 hg1 hl2 hg2⟩

theorem grammar_of_rangeRegexpFind (s m1 m2 : GoString)
    (h : rangeRegexpFind s = some (m1, m2)) : MatchesRangeGrammar s := by
  obtain ⟨hc1, hcase⟩ := rangeRegexpFind_sound s m1 m2 h
  rcases hcase with ⟨_, hs⟩ | ⟨hc2, hs⟩
  · exact Or.inl (hs ▸ hc1)
  · exact Or.inr ⟨m1, m2, hc1, hc2, hs⟩

theorem not_grammar_of_rangeRegexpFind_none (s : GoString) (h : rangeRegexpFind s = none) :
    ¬ MatchesRangeGrammar s := by
  intro hg
  obtain ⟨m1, m2, hm⟩ := rangeRegexpFind_of_grammar s hg
  rw [h] at hm
  exact Option.noConfusion hm

/-! ## Cell names to coordinates -/

theorem lastIndexFunc_none (f : Char → Bool) (suf : GoString)
    (h : ∀ c ∈ suf, f c = false) : lastIndexFunc f suf = none := by
  induction suf with
  | nil => rfl
  | cons x xs ih =>
    unfold lastIndexFunc
    rw [ih (fun c hc => h c (List.mem_cons_of_mem _ hc))]
    simp [h x (List.mem_cons_self _ _)]

theorem lastIndexFunc_append (f : Char → Bool) (pre suf : GoString)
    (h : ∀ c ∈ suf, f c = false) : lastIndexFunc f (pre ++ suf) = lastIndexFunc f pre := by
  induction pre with
  | nil => rw [List.nil_append, lastIndexFunc_none f suf h]; rfl
  | cons x xs ih =>
    rw [List.cons_append]
    unfold lastIndexFunc
    rw [ih]

theorem lastIndexFunc_concat (f : Char → Bool) (p : GoString) (c : Char) (h : f c = true) :
    lastIndexFunc f (p ++ [c]) = some p.length := by
  induction p with
  | nil => simp [lastIndexFunc, h]
  | cons x xs ih =>
    rw [List.cons_append]
    unfold lastIndexFunc
    rw [ih]
    rfl

theorem decimalValue_concat (g : GoString) (c : Char) :
    decimalValue (g ++ [c]) = decimalValue g * 10 + (c.toNat - 48) := by
  simp [decimalValue, List.foldl_append]

theorem columnValue_concat (l : GoString) (c : Char) :
    columnValue (l ++ [c]) =
      columnValue l * 26 + (if isUpperAZ c then c.toNat - 64 else c.toNat - 96) := by
  simp [columnValue, List.foldl_append]

theorem decimalValue_eq_base10Value (g : GoString) : decimalValue g = base10Value g := by
  induction g using List.reverseRecOn with
  | nil => simp [decimalValue, base10Value]
  | append_singleton xs x ih =>
    rw [decimalValue_concat, ih]
    simp only [base10Value, List.reverse_append, List.reverse_singleton, List.singleton_append,
      List.map_cons, Nat.ofDigits_cons]
    omega

theorem columnValue_eq_base26Value (l : GoString) (h : ∀ c ∈ l, isUpperAZ c = true) :
    columnValue l = base26Value l := by
  induction l using List.reverseRecOn with
  | nil => simp [columnValue, base26Value]
  | append_singleton xs x ih =>
    have hx : isUpperAZ x = true := h x (by simp)
    rw [columnValue_concat, ih (fun c hc => h c (by simp [hc])), if_pos hx]
    simp only [base26Value, List.reverse_append, List.reverse_singleton, List.singleton_append,
      List.map_cons, Nat.ofDigits_cons]
    omega

theorem columnValue_pos (l : GoString) (h0 : l ≠ [])
    (h : ∀ c ∈ l, (isUpperAZ c || isLowerAZ c) = true) : 1 ≤ columnValue l := by
  induction l using List.reverseRecOn with
  | nil => exact absurd rfl h0
  | append_singleton xs x _ =>
    rw [columnValue_concat]
    have hx := h x (by simp)
    by_cases hu : isUpperAZ x = true
    · rw [if_pos hu]
      unfold isUpperAZ at hu
      simp only [Bool.and_eq_true, decide_eq_true_eq] at hu
      omega
    · rw [if_neg hu]
      have hlow : isLowerAZ x = true := by
        cases hb : isUpperAZ x with
        | true => exact absurd hb hu
        | false => rw [hb] at hx; simpa using hx
      unfold isLowerAZ at hlow
      simp only [Bool.and_eq_true, decide_eq_true_eq] at hlow
      omega

theorem Atoi_digits (g : GoString) (hg : IsDigits g) :
    Atoi g = if (2 : Int) ^ 63 ≤ (decimalValue g : Int) then none
      else some (decimalValue g : Int) := by
  obtain ⟨hg0, hg1⟩ := hg
  cases g with
  | nil => exact absurd rfl hg0
  | cons x xs =>
    have hx : isDigit09 x = true := hg1 x (List.mem_cons_self _ _)
    have hm : startsWithSign '-' (x :: xs) = false :=
      isDigit09_not_sign hx '-' (by decide)
    have hp : startsWithSign '+' (x :: xs) = false :=
      isDigit09_not_sign hx '+' (by decide)
    have hall : (x :: xs).all isDigit09 = true := List.all_eq_true.mpr hg1
    unfold Atoi
    simp only [hm, hp, Bool.or_self, Bool.false_eq_true, if_false, hall, not_true_eq_false,
      or_false, reduceCtorEq]
    have hnn : ¬ ((decimalValue (x :: xs) : Int) < - 2 ^ 63) := by
      have : (0 : Int) ≤ (decimalValue (x :: xs) : Int) := Int.ofNat_nonneg _
      omega
    by_cases hbig : (2 : Int) ^ 63 ≤ (decimalValue (x :: xs) : Int)
    · rw [if_pos (Or.inr hbig), if_pos hbig]
    · rw [if_neg (fun h => h.elim hnn hbig), if_neg hbig]

theorem SplitCellName_split (p g : GoString) (c1 : Char) (h1 : isAlphaOrDollar c1 = true)
    (c0 : Char) (t : GoString) (hcell : p ++ [c1] ++ g = c0 :: t)
    (h0 : isAlphaOrDollar c0 = true) (hg0 : g ≠ [])
    (hg : ∀ c ∈ g, isAlphaOrDollar c = false) :
    SplitCellName (p ++ [c1] ++ g) =
      match Atoi g with
      | some row =>
        if 0 < row then .ok ((p ++ [c1]).filter (fun ch => ch != '$'), row)
        else .error (.invalidCellName (p ++ [c1] ++ g))
      | none => .error (.invalidCellName (p ++ [c1] ++ g)) := by
  have hlast : lastIndexFunc isAlphaOrDollar (p ++ [c1] ++ g) = some p.length := by
    rw [lastIndexFunc_append _ _ _ hg, lastIndexFunc_concat _ _ _ h1]
  have hlen : p.length + 1 < (p ++ [c1] ++ g).length := by
    have : 0 < g.length := List.length_pos.mpr hg0
    simp only [List.length_append, List.length_singleton]
    omega
  have htake : (p ++ [c1] ++ g).take (p.length + 1) = p ++ [c1] := by
    have : (p ++ [c1]).length = p.length + 1 := by simp
    rw [← this, List.take_left]
  have hdrop : (p ++ [c1] ++ g).drop (p.length + 1) = g := by
    have : (p ++ [c1]).length = p.length + 1 := by simp
    rw [← this, List.drop_left]
  generalize hc : p ++ [c1] ++ g = cell at *
  subst hcell
  unfold SplitCellName
  simp only [h0, if_true, hlast, hlen, htake, hdrop]

theorem cellText_shape (abs1 abs2 : Bool) (l g : GoString) (hl : IsLetters l) :
    ∃ p c1 c0 t, cellText abs1 l abs2 g = p ++ [c1] ++ g ∧ isAlphaOrDollar c1 = true ∧
      p ++ [c1] ++ g = c0 :: t ∧ isAlphaOrDollar c0 = true ∧
      (p ++ [c1]).filter (fun ch => ch != '$') = l := by
  obtain ⟨hl0, hl1⟩ := hl
  have hfilter : l.filter (fun ch => ch != '$') = l := by
    rw [List.filter_eq_self]
    intro c hc
    simpa using isUpperAZ_ne_dollar (hl1 c hc)
  obtain ⟨l', x, hlx⟩ : ∃ l' x, l = l' ++ [x] := by
    rcases List.eq_nil_or_concat l with h | ⟨l', x, h⟩
    · exact absurd h hl0
    · exact ⟨l', x, by simpa using h⟩
  obtain ⟨y, l'', hly⟩ : ∃ y l'', l = y :: l'' := by
    cases l with
    | nil => exact absurd rfl hl0
    | cons y l'' => exact ⟨y, l'', rfl⟩
  have hx : isAlphaOrDollar x = true := isUpperAZ_alpha (hl1 x (by simp [hlx]))
  have hy : isAlphaOrDollar y = true := isUpperAZ_alpha (hl1 y (by simp [hly]))
  have hdollar : isAlphaOrDollar '$' = true := by decide
  cases abs1 <;> cases abs2
  · refine ⟨l', x, y, l'' ++ g, ?_, hx, ?_, hy, ?_⟩
    · simp [cellText, hlx]
    · rw [← hlx, hly]; rfl
    · rw [← hlx]; exact hfilter
  · refine ⟨l, '$', y, l'' ++ '$' :: g, ?_, hdollar, ?_, hy, ?_⟩
    · simp [cellText]
    · rw [hly]; simp
    · rw [List.filter_append, hfilter]; simp
  · refine ⟨'$' :: l', x, '$', l ++ g, ?_, hx, ?_, hdollar, ?_⟩
    · simp [cellText, hlx]
    · simp [hlx]
    · rw [List.cons_append, ← hlx]
      rw [List.filter_cons_of_neg (by simp), hfilter]
  · refine ⟨'$' :: l, '$', '$', l ++ '$' :: g, ?_, hdollar, ?_, hdollar, ?_⟩
    · simp [cellText]
    · simp
    · rw [List.cons_append, List.filter_cons_of_neg (by simp), List.filter_append, hfilter]
      simp

theorem CellNameToCoordinates_cellText (abs1 abs2 : Bool) (l g : GoString)
    (hl : IsLetters l) (hg : IsDigits g) :
    CellNameToCoordinates (cellText abs1 l abs2 g) =
      if (decimalValue g : Int) < 1 ∨ (2 : Int) ^ 63 ≤ (decimalValue g : Int) then
        .error (.invalidCellName (cellText abs1 l abs2 g))
      else if TotalRows < (decimalValue g : Int) then .error .maxRows
      else if MaxColumns < wrap64 (columnValue l : Int) then .error .columnNumber
      else .ok (wrap64 (columnValue l : Int), (decimalValue g : Int)) := by
  obtain ⟨p, c1, c0, t, hshape, h1, hcell, h0, hfilter⟩ := cellText_shape abs1 abs2 l g hl
  have hsplit := SplitCellName_split p g c1 h1 c0 t hcell h0 hg.1
    (fun c hc => isDigit09_not_alpha (hg.2 c hc))
  rw [Atoi_digits g hg, hfilter, ← hshape] at hsplit
  have hcol : ColumnNameToNumber l =
      if MaxColumns < wrap64 (columnValue l : Int) then .error .columnNumber
      else .ok (wrap64 (columnValue l : Int)) := by
    unfold ColumnNameToNumber
    have hall : l.all (fun ch => isUpperAZ ch || isLowerAZ ch) = true := by
      rw [List.all_eq_true]
      intro c hc
      simp [hl.2 c hc]
    rw [if_neg]
    intro h
    rcases h with h | h
    · exact hl.1 h
    · exact h hall
  unfold CellNameToCoordinates
  rw [hsplit]
  by_cases hbig : (2 : Int) ^ 63 ≤ (decimalValue g : Int)
  · rw [if_pos hbig, if_pos (Or.inr hbig)]
  · rw [if_neg hbig]
    simp only []
    by_cases hpos : 0 < (decimalValue g : Int)
    · rw [if_pos hpos, if_neg (fun h => h.elim (fun h1 => by omega) hbig)]
      simp only []
      by_cases hrow : TotalRows < (decimalValue g : Int)
      · rw [if_pos hrow, if_pos hrow]
      · rw [if_neg hrow, if_neg hrow, hcol]
        by_cases hc : MaxColumns < wrap64 (columnValue l : Int)
        · rw [if_pos hc, if_pos hc]
        · rw [if_neg hc, if_neg hc]
    · rw [if_neg hpos, if_pos (Or.inl (by omega))]

theorem wrap64_small (x : Int) (h1 : 0 ≤ x) (h2 : x ≤ MaxColumns) : wrap64 x = x := by
  have hM : MaxColumns = 16384 := rfl
  unfold wrap64
  omega

theorem wrap64_bounds (x : Int) : - 2 ^ 63 ≤ wrap64 x ∧ wrap64 x < 2 ^ 63 := by
  unfold wrap64
  omega

theorem CellNameToCoordinates_ok (abs1 abs2 : Bool) (l g : GoString)
    (hl : IsLetters l) (hg : IsDigits g) (hcol : (columnValue l : Int) ≤ MaxColumns)
    (hrow1 : 1 ≤ (decimalValue g : Int)) (hrow2 : (decimalValue g : Int) ≤ TotalRows) :
    CellNameToCoordinates (cellText abs1 l abs2 g) =
      .ok ((columnValue l : Int), (decimalValue g : Int)) := by
  have hT : TotalRows = 1048576 := rfl
  have hw : wrap64 (columnValue l : Int) = (columnValue l : Int) :=
    wrap64_small _ (by omega) hcol
  rw [CellNameToCoordinates_cellText abs1 abs2 l g hl hg, hw,
    if_neg (fun h => h.elim (fun h1 => by omega) (fun h2 => by omega)),
    if_neg (by omega), if_neg (by omega)]

theorem CellNameToCoordinates_ok_inv (abs1 abs2 : Bool) (l g : GoString)
    (hl : IsLetters l) (hg : IsDigits g) (col row : Int)
    (h : CellNameToCoordinates (cellText abs1 l abs2 g) = .ok (col, row)) :
    col = wrap64 (columnValue l : Int) ∧ row = (decimalValue g : Int) ∧
      - 2 ^ 63 ≤ col ∧ col ≤ MaxColumns ∧ 1 ≤ row ∧ row ≤ TotalRows := by
  rw [CellNameToCoordinates_cellText abs1 abs2 l g hl hg] at h
  have hb := (wrap64_bounds (columnValue l : Int)).1
  split at h
  · exact Except.noConfusion h
  · rename_i h1
    split at h
    · exact Except.noConfusion h
    · rename_i h2
      split at h
      · exact Except.noConfusion h
      · rename_i h3
        injection h with h
        injection h with hc hr
        subst hc hr
        refine ⟨rfl, rfl, hb, ?_, ?_, ?_⟩ <;> omega

/-! ## Coordinates to cell names -/

theorem toNat_ofNat_small (n : Nat) (h : n < 55296) : (Char.ofNat n).toNat = n := by
  have hv : n.isValidChar := Or.inl h
  unfold Char.ofNat
  rw [dif_pos hv]
  simp [Char.ofNatAux, Char.toNat, UInt32.toNat]

theorem columnLetters_spec : ∀ (fuel n : Nat) (acc : GoString), n ≤ fuel →
    ∃ pre, columnLetters fuel n acc = pre ++ acc ∧ (∀ c ∈ pre, isUpperAZ c = true) ∧
      columnValue pre = n ∧ (1 ≤ n → pre ≠ []) := by
  intro fuel
  induction fuel with
  | zero =>
    intro n acc hn
    have : n = 0 := by omega
    subst this
    exact ⟨[], rfl, by simp, rfl, by omega⟩
  | succ fuel ih =>
    intro n acc hn
    unfold columnLetters
    by_cases h0 : n = 0
    · subst h0
      exact ⟨[], by simp, by simp, rfl, by omega⟩
    · rw [if_neg h0]
      have hlt : (n - 1) / 26 ≤ fuel := by
        have : (n - 1) / 26 ≤ n - 1 := Nat.div_le_self _ _
        omega
      obtain ⟨pre, hpre, hup, hval, _⟩ :=
        ih ((n - 1) / 26) (Char.ofNat ((n - 1) % 26 + 65) :: acc) hlt
      have hmod : (n - 1) % 26 < 26 := Nat.mod_lt _ (by decide)
      have hch : (Char.ofNat ((n - 1) % 26 + 65)).toNat = (n - 1) % 26 + 65 :=
        toNat_ofNat_small _ (by omega)
      have hupc : isUpperAZ (Char.ofNat ((n - 1) % 26 + 65)) = true := by
        unfold isUpperAZ
        rw [hch]
        simp only [Bool.and_eq_true, decide_eq_true_eq]
        omega
      refine ⟨pre ++ [Char.ofNat ((n - 1) % 26 + 65)], ?_, ?_, ?_, ?_⟩
      · rw [hpre]; simp
      · intro c hc
        rcases List.mem_append.mp hc with h | h
        · exact hup c h
        · rw [List.mem_singleton.mp h]; exact hupc
      · rw [columnValue_concat, hval, if_pos hupc, hch]
        have := Nat.div_add_mod (n - 1) 26
        omega
      · intro _; simp

theorem decimalDigits_spec : ∀ (fuel n : Nat) (acc : GoString), n < fuel →
    ∃ pre, decimalDigits fuel n acc = pre ++ acc ∧ (∀ c ∈ pre, isDigit09 c = true) ∧
      decimalValue pre = n ∧ pre ≠ [] := by
  intro fuel
  induction fuel with
  | zero => intro n acc hn; omega
  | succ fuel ih =>
    intro n acc hn
    unfold decimalDigits
    by_cases h10 : n < 10
    · rw [if_pos h10]
      have hch : (Char.ofNat (n + 48)).toNat = n + 48 := toNat_ofNat_small _ (by omega)
      refine ⟨[Char.ofNat (n + 48)], rfl, ?_, ?_, by simp⟩
      · intro c hc
        rw [List.mem_singleton.mp hc]
        unfold isDigit09
        rw [hch]
        simp only [Bool.and_eq_true, decide_eq_true_eq]
        omega
      · simp [decimalValue, hch]
    · rw [if_neg h10]
      have hlt : n / 10 < fuel := by
        have : n / 10 < n := Nat.div_lt_self (by omega) (by decide)
        omega
      obtain ⟨pre, hpre, hdig, hval, _⟩ :=
        ih (n / 10) (Char.ofNat (n % 10 + 48) :: acc) hlt
      have hmod : n % 10 < 10 := Nat.mod_lt _ (by decide)
      have hch : (Char.ofNat (n % 10 + 48)).toNat = n % 10 + 48 :=
        toNat_ofNat_small _ (by omega)
      refine ⟨pre ++ [Char.ofNat (n % 10 + 48)], ?_, ?_, ?_, by simp⟩
      · rw [hpre]; simp
      · intro c hc
        rcases List.mem_append.mp hc with h | h
        · exact hdig c h
        · rw [List.mem_singleton.mp h]
          unfold isDigit09
          rw [hch]
          simp only [Bool.and_eq_true, decide_eq_true_eq]
          omega
      · rw [decimalValue_concat, hval, hch]
        have := Nat.div_add_mod n 10
        omega

theorem CoordinatesToCellName_ok (col row : Int) (hc1 : 1 ≤ col) (hc2 : col ≤ MaxColumns)
    (hr1 : 1 ≤ row) (hr2 : row ≤ TotalRows) :
    ∃ l g, IsLetters l ∧ IsDigits g ∧ CoordinatesToCellName col row = .ok (l ++ g) ∧
      (columnValue l : Int) = col ∧ (decimalValue g : Int) = row := by
  obtain ⟨l, hl, hup, hval, hne⟩ := columnLetters_spec col.toNat col.toNat [] (le_refl _)
  obtain ⟨g, hg, hdig, hdval, hgne⟩ :=
    decimalDigits_spec (row.toNat + 1) row.toNat [] (Nat.lt_succ_self _)
  rw [List.append_nil] at hl hg
  refine ⟨l, g, ⟨hne (by omega), hup⟩, ⟨hgne, hdig⟩, ?_, by omega, by omega⟩
  unfold CoordinatesToCellName ColumnNumberToName Itoa
  rw [if_neg (by omega), if_neg (by omega), if_neg (by omega)]
  simp only []
  rw [if_neg (by omega), hl, hg]

/-! ## `ParseRange` and `NormalizeRange`: lemmas -/

theorem ParseRange_none (s : GoString) (h : rangeRegexpFind s = none) :
    ParseRange s = ⟨0, 0, 0, 0, some (.invalidRangeFormat s)⟩ := by
  unfold ParseRange
  rw [h]

theorem ParseRange_single_ok (abs1 abs2 : Bool) (l g : GoString)
    (hl : IsLetters l) (hg : IsDigits g) (hcol : (columnValue l : Int) ≤ MaxColumns)
    (hrow1 : 1 ≤ (decimalValue g : Int)) (hrow2 : (decimalValue g : Int) ≤ TotalRows) :
    ParseRange (cellText abs1 l abs2 g) =
      ⟨columnValue l, decimalValue g, columnValue l, decimalValue g, none⟩ := by
  unfold ParseRange
  rw [rangeRegexpFind_single abs1 abs2 l g hl hg]
  simp only []
  rw [CellNameToCoordinates_ok abs1 abs2 l g hl hg hcol hrow1 hrow2]
  simp

theorem ParseRange_pair_ok (a1 a2 b1 b2 : Bool) (l1 g1 l2 g2 : GoString)
    (hl1 : IsLetters l1) (hg1 : IsDigits g1) (hl2 : IsLetters l2) (hg2 : IsDigits g2)
    (hcol1 : (columnValue l1 : Int) ≤ MaxColumns) (hrow1 : 1 ≤ (decimalValue g1 : Int))
    (hrow1' : (decimalValue g1 : Int) ≤ TotalRows)
    (hcol2 : (columnValue l2 : Int) ≤ MaxColumns) (hrow2 : 1 ≤ (decimalValue g2 : Int))
    (hrow2' : (decimalValue g2 : Int) ≤ TotalRows) :
    ParseRange (cellText a1 l1 a2 g1 ++ ':' :: cellText b1 l2 b2 g2) =
      ⟨columnValue l1, decimalValue g1, columnValue l2, decimalValue g2, none⟩ := by
  unfold ParseRange
  rw [rangeRegexpFind_pair a1 a2 b1 b2 l1 g1 l2 g2 hl1 hg1 hl2 hg2]
  simp only []
  rw [CellNameToCoordinates_ok a1 a2 l1 g1 hl1 hg1 hcol1 hrow1 hrow1']
  simp only []
  rw [if_neg (cellText_ne_nil b1 b2 l2 g2 hg2),
    CellNameToCoordinates_ok b1 b2 l2 g2 hl2 hg2 hcol2 hrow2 hrow2']

theorem CellNameToCoordinates_bounds (c : GoString) (hc : IsCell c) (col row : Int)
    (h : CellNameToCoordinates c = .ok (col, row)) : InParsedBounds col row := by
  obtain ⟨a1, l, a2, g, hl, hg, rfl⟩ := hc
  obtain ⟨_, _, h1, h2, h3, h4⟩ := CellNameToCoordinates_ok_inv a1 a2 l g hl hg col row h
  exact ⟨h1, h2, h3, h4⟩

theorem InSheet_of_bounds (col row : Int) (h : InParsedBounds col row) (hc : 1 ≤ col) :
    InSheet col row :=
  ⟨hc, h.2.1, h.2.2.1, h.2.2.2⟩

theorem ParseRange_ok_bounds (s : GoString) (h : (ParseRange s).err = none) :
    InParsedBounds (ParseRange s).startCol (ParseRange s).startRow ∧
      InParsedBounds (ParseRange s).endCol (ParseRange s).endRow := by
  unfold ParseRange at h ⊢
  cases hm : rangeRegexpFind s with
  | none => rw [hm] at h; simp at h
  | some m =>
    obtain ⟨m1, m2⟩ := m
    obtain ⟨hc1, hcase⟩ := rangeRegexpFind_sound s m1 m2 hm
    rw [hm] at h
    simp only [] at h ⊢
    cases h1 : CellNameToCoordinates m1 with
    | error e => rw [h1] at h; simp at h
    | ok cr =>
      obtain ⟨sc, sr⟩ := cr
      have hs1 := CellNameToCoordinates_bounds m1 hc1 sc sr h1
      rw [h1] at h
      simp only [] at h ⊢
      by_cases h2 : m2 = []
      · rw [if_pos h2]
        exact ⟨hs1, hs1⟩
      · rw [if_neg h2] at h ⊢
        have hc2 : IsCell m2 := by
          rcases hcase with ⟨hnil, _⟩ | ⟨hc2, _⟩
          · exact absurd hnil h2
          · exact hc2
        cases h3 : CellNameToCoordinates m2 with
        | error e => rw [h3] at h; simp at h
        | ok cr2 =>
          obtain ⟨ec, er⟩ := cr2
          exact ⟨hs1, CellNameToCoordinates_bounds m2 hc2 ec er h3⟩

theorem ParseRange_ok_inSheet (s : GoString) (h : (ParseRange s).err = none)
    (h1 : 1 ≤ (ParseRange s).startCol) (h2 : 1 ≤ (ParseRange s).endCol) :
    InSheet (ParseRange s).startCol (ParseRange s).startRow ∧
      InSheet (ParseRange s).endCol (ParseRange s).endRow :=
  ⟨InSheet_of_bounds _ _ (ParseRange_ok_bounds s h).1 h1,
    InSheet_of_bounds _ _ (ParseRange_ok_bounds s h).2 h2⟩

theorem cellText_plain (l g : GoString) : cellText false l false g = l ++ g := by
  simp [cellText]

theorem ParseRange_of_names (sc sr ec er : Int) (h1 : InSheet sc sr) (h2 : InSheet ec er) :
    ∃ l1 g1 l2 g2, IsLetters l1 ∧ IsDigits g1 ∧ IsLetters l2 ∧ IsDigits g2 ∧
      CoordinatesToCellName sc sr = .ok (l1 ++ g1) ∧
      CoordinatesToCellName ec er = .ok (l2 ++ g2) ∧
      ParseRange (l1 ++ g1) = ⟨sc, sr, sc, sr, none⟩ ∧
      ParseRange (l1 ++ g1 ++ ':' :: (l2 ++ g2)) = ⟨sc, sr, ec, er, none⟩ := by
  obtain ⟨l1, g1, hl1, hg1, hn1, hv1, hd1⟩ :=
    CoordinatesToCellName_ok sc sr h1.1 h1.2.1 h1.2.2.1 h1.2.2.2
  obtain ⟨l2, g2, hl2, hg2, hn2, hv2, hd2⟩ :=
    CoordinatesToCellName_ok ec er h2.1 h2.2.1 h2.2.2.1 h2.2.2.2
  refine ⟨l1, g1, l2, g2, hl1, hg1, hl2, hg2, hn1, hn2, ?_, ?_⟩
  · have := ParseRange_single_ok false false l1 g1 hl1 hg1 (hv1 ▸ h1.2.1)
      (hd1 ▸ h1.2.2.1) (hd1 ▸ h1.2.2.2)
    rw [cellText_plain, hv1, hd1] at this
    exact this
  · have := ParseRange_pair_ok false false false false l1 g1 l2 g2 hl1 hg1 hl2 hg2
      (hv1 ▸ h1.2.1) (hd1 ▸ h1.2.2.1) (hd1 ▸ h1.2.2.2)
      (hv2 ▸ h2.2.1) (hd2 ▸ h2.2.2.1) (hd2 ▸ h2.2.2.2)
    rw [cellText_plain, cellText_plain, hv1, hd1, hv2, hd2] at this
    exact this

theorem NormalizeRange_of_ok (s : GoString) (h : (ParseRange s).err = none)
    (hc1 : 1 ≤ (ParseRange s).startCol) (hc2 : 1 ≤ (ParseRange s).endCol) :
    ∃ l1 g1 l2 g2, IsLetters l1 ∧ IsDigits g1 ∧ IsLetters l2 ∧ IsDigits g2 ∧
      NormalizeRange s = l1 ++ g1 ++ ':' :: (l2 ++ g2) ∧
      ParseRange (l1 ++ g1 ++ ':' :: (l2 ++ g2)) = ParseRange s := by
  obtain ⟨hs1, hs2⟩ := ParseRange_ok_inSheet s h hc1 hc2
  obtain ⟨l1, g1, l2, g2, hl1, hg1, hl2, hg2, hn1, hn2, _, hp⟩ :=
    ParseRange_of_names _ _ _ _ hs1 hs2
  refine ⟨l1, g1, l2, g2, hl1, hg1, hl2, hg2, ?_, ?_⟩
  · unfold NormalizeRange
    simp only [h, hn1, hn2]
  · rw [hp]
    cases hr : ParseRange s with
    | mk a b c d e =>
      rw [hr] at h
      simp only at h
      subst h
      rfl

/-! ## Fixed-size paging: lemmas -/

theorem wrap64_of_range (x : Int) (h1 : - 2 ^ 63 ≤ x) (h2 : x < 2 ^ 63) : wrap64 x = x := by
  unfold wrap64
  omega

theorem goSub_goAdd_one (a b : Int) : goSub (goAdd a b) 1 = wrap64 (a + b - 1) := by
  unfold goSub goAdd wrap64
  omega

theorem tdiv_range (a b : Int) (ha1 : - 2 ^ 63 ≤ a) (ha2 : a < 2 ^ 63) (hb : 1 ≤ b) :
    - 2 ^ 63 ≤ Int.tdiv a b ∧ Int.tdiv a b < 2 ^ 63 := by
  by_cases h0 : 0 ≤ a
  · rw [Int.tdiv_eq_ediv h0 (by omega)]
    have h1 : a / b ≤ a := Int.ediv_le_self b h0
    have h2 : 0 ≤ a / b := Int.ediv_nonneg h0 (by omega)
    omega
  · have hn : 0 ≤ -a := by omega
    have e : Int.tdiv a b = - Int.tdiv (-a) b := by
      rw [Int.neg_tdiv, Int.neg_neg]
    rw [e, Int.tdiv_eq_ediv hn (by omega)]
    have h1 : -a / b ≤ -a := Int.ediv_le_self b hn
    have h2 : 0 ≤ -a / b := Int.ediv_nonneg hn (by omega)
    omega

theorem fixedSizeLoop_exit (sc ec er rpp : Int) (fuel : Nat) (cur : Int)
    (acc : List GoString) (h : er < cur) :
    fixedSizeLoop sc ec er rpp fuel cur acc = some acc := by
  cases fuel with
  | zero => simp [fixedSizeLoop, not_le.mpr h]
  | succ n => simp [fixedSizeLoop, not_le.mpr h]

theorem fixedSizeLoop_step (sc ec er rpp : Int) (fuel : Nat) (cur : Int)
    (acc : List GoString) (hsc : 1 ≤ sc ∧ sc ≤ MaxColumns) (hec : 1 ≤ ec ∧ ec ≤ MaxColumns)
    (her : er ≤ TotalRows) (hcur : 1 ≤ cur ∧ cur ≤ er) (hrpp : 1 ≤ rpp)
    (hnw : cur + rpp - 1 < 2 ^ 63) :
    ∃ a b, CoordinatesToCellName sc cur = .ok a ∧
      CoordinatesToCellName ec (min (cur + rpp - 1) er) = .ok b ∧
      fixedSizeLoop sc ec er rpp (fuel + 1) cur acc =
        fixedSizeLoop sc ec er rpp fuel (min (cur + rpp - 1) er + 1)
          (acc ++ [a ++ ':' :: b]) := by
  have hT : TotalRows = 1048576 := rfl
  obtain ⟨l1, g1, _, _, ha, _, _⟩ :=
    CoordinatesToCellName_ok sc cur hsc.1 hsc.2 hcur.1 (by omega)
  obtain ⟨l2, g2, _, _, hb, _, _⟩ :=
    CoordinatesToCellName_ok ec (min (cur + rpp - 1) er) hec.1 hec.2 (by omega) (by omega)
  refine ⟨l1 ++ g1, l2 ++ g2, ha, hb, ?_⟩
  have hend : (if goSub (goAdd cur rpp) 1 > er then er else goSub (goAdd cur rpp) 1) =
      min (cur + rpp - 1) er := by
    rw [goSub_goAdd_one, wrap64_of_range _ (by omega) hnw]
    by_cases h : cur + rpp - 1 > er
    · rw [if_pos h]; omega
    · rw [if_neg h]; omega
  have hnext : goAdd (min (cur + rpp - 1) er) 1 = min (cur + rpp - 1) er + 1 := by
    unfold goAdd
    exact wrap64_of_range _ (by omega) (by omega)
  rw [fixedSizeLoop]
  simp only [hend, if_pos hcur.2, ha, hb, hnext]

/-- The pages of the fixed-size loop from row `cur` on: page `k` starts at row
`cur + k * rpp` and ends at row `min (cur + (k + 1) * rpp - 1) er`. -/
theorem fixedSizeLoop_pages (sc ec er rpp : Int) (hsc : 1 ≤ sc ∧ sc ≤ MaxColumns)
    (hec : 1 ≤ ec ∧ ec ≤ MaxColumns) (her : er ≤ TotalRows) (hrpp : 1 ≤ rpp) :
    ∀ (fuel : Nat) (cur : Int) (acc : List GoString), 1 ≤ cur →
      (er < cur ∨ cur + rpp - 1 < 2 ^ 63) → (er - cur + 1).toNat ≤ fuel →
      ∃ pages, fixedSizeLoop sc ec er rpp fuel cur acc = some (acc ++ pages) ∧
        (∀ k : Nat, k < pages.length ↔ cur + k * rpp ≤ er) ∧
        ∀ k : Nat, k < pages.length → ∃ a b,
          CoordinatesToCellName sc (cur + k * rpp) = .ok a ∧
          CoordinatesToCellName ec (min (cur + (k + 1) * rpp - 1) er) = .ok b ∧
          pages.getD k [] = a ++ ':' :: b := by
  have hT : TotalRows = 1048576 := rfl
  have hmul : ∀ k : Nat, 0 ≤ (k : Int) * rpp := fun k =>
    Int.mul_nonneg (Int.ofNat_nonneg k) (by omega)
  intro fuel
  induction fuel with
  | zero =>
    intro cur acc _ _ hfuel
    have hgt : er < cur := by omega
    refine ⟨[], by simp [fixedSizeLoop, not_le.mpr hgt], ?_, ?_⟩
    · intro k
      have := hmul k
      simp only [List.length_nil, Nat.not_lt_zero, false_iff]
      omega
    · intro k hk; simp at hk
  | succ fuel ih =>
    intro cur acc hcur hnw hfuel
    by_cases hgt : er < cur
    · refine ⟨[], by rw [fixedSizeLoop_exit _ _ _ _ _ _ _ hgt]; simp, ?_, ?_⟩
      · intro k
        have := hmul k
        simp only [List.length_nil, Nat.not_lt_zero, false_iff]
        omega
      · intro k hk; simp at hk
    · have hle : cur ≤ er := by omega
      have hnw1 : cur + rpp - 1 < 2 ^ 63 := hnw.elim (fun h => absurd h hgt) id
      obtain ⟨a, b, ha, hb, hstep⟩ :=
        fixedSizeLoop_step sc ec er rpp fuel cur acc hsc hec her ⟨hcur, hle⟩ hrpp hnw1
      obtain ⟨rest, hrest, hlen, hget⟩ := ih (min (cur + rpp - 1) er + 1) (acc ++ [a ++ ':' :: b])
        (by omega) (by omega) (by omega)
      refine ⟨(a ++ ':' :: b) :: rest, ?_, ?_, ?_⟩
      · rw [hstep, hrest]; simp
      · intro k
        cases k with
        | zero => simp; omega
        | succ j =>
          have hj := hlen j
          have h0 := hmul j
          have e : ((j + 1 : Nat) : Int) * rpp = (j : Int) * rpp + rpp := by
            push_cast; ring
          rw [e]
          simp only [List.length_cons, Nat.add_lt_add_iff_right]
          rw [hj]
          by_cases hlast : cur + rpp - 1 < er
          · rw [min_eq_left (by omega)]
            constructor <;> intro h <;> omega
          · rw [min_eq_right (by omega)]
            constructor <;> intro h <;> omega
      · intro k hk
        cases k with
        | zero =>
          refine ⟨a, b, by simpa using ha, ?_, by simp⟩
          have e : cur + ((0 : Nat) + 1 : Int) * rpp - 1 = cur + rpp - 1 := by
            push_cast; ring
          rw [e]; exact hb
        | succ j =>
          have hjlt : j < rest.length := by simpa using hk
          have hjle := (hlen j).mp hjlt
          have h0 := hmul j
          have hlast : cur + rpp - 1 < er := by
            by_contra hc
            rw [min_eq_right (by omega)] at hjle
            omega
          rw [min_eq_left (by omega)] at hget
          obtain ⟨a', b', ha', hb', hg'⟩ := hget j hjlt
          refine ⟨a', b', ?_, ?_, by simpa using hg'⟩
          · have e : cur + ((j + 1 : Nat) : Int) * rpp = cur + rpp - 1 + 1 + (j : Int) * rpp := by
              push_cast; ring
            rw [e]; exact ha'
          · have e : cur + (((j + 1 : Nat) : Int) + 1) * rpp - 1 =
                cur + rpp - 1 + 1 + ((j : Int) + 1) * rpp - 1 := by
              push_cast; ring
            rw [e]; exact hb'

/-- The pages of `calculateFixedSizeRanges` whenever the columns are at least 1 and the
first row sum does not wrap around: with `rpp = max 1 (pageSize / (ec - sc + 1))`, page `k` is
`cell(sc, sr + k * rpp):cell(ec, min (sr + (k + 1) * rpp - 1) er)`, for exactly the
`k` with `sr + k * rpp ≤ er`. -/
theorem calculateFixedSizeRanges_pages (dimension : GoString) (pageSize sc sr ec er : Int)
    (hparse : ParseRange dimension = ⟨sc, sr, ec, er, none⟩) (hsc0 : 1 ≤ sc) (hcol : sc ≤ ec)
    (hps : - 2 ^ 63 ≤ pageSize ∧ pageSize < 2 ^ 63)
    (hnw : sr + max 1 (Int.tdiv pageSize (ec - sc + 1)) - 1 < 2 ^ 63) :
    ∃ pages, calculateFixedSizeRanges dimension pageSize = .done pages ∧
      (∀ k : Nat, k < pages.length ↔
        sr + k * max 1 (Int.tdiv pageSize (ec - sc + 1)) ≤ er) ∧
      ∀ k : Nat, k < pages.length → ∃ a b,
        CoordinatesToCellName sc (sr + k * max 1 (Int.tdiv pageSize (ec - sc + 1))) = .ok a ∧
        CoordinatesToCellName ec
          (min (sr + (k + 1) * max 1 (Int.tdiv pageSize (ec - sc + 1)) - 1) er) = .ok b ∧
        pages.getD k [] = a ++ ':' :: b := by
  have hM : MaxColumns = 16384 := rfl
  have hT : TotalRows = 1048576 := rfl
  have herr : (ParseRange dimension).err = none := by rw [hparse]
  obtain ⟨hs1, hs2⟩ := ParseRange_ok_inSheet dimension herr (by rw [hparse]; exact hsc0)
    (by rw [hparse]; exact le_trans hsc0 hcol)
  rw [hparse] at hs1 hs2
  simp only [] at hs1 hs2
  obtain ⟨hsc1, hsc2, hsr1, hsr2⟩ := hs1
  obtain ⟨hec1, hec2, her1, her2⟩ := hs2
  have htot : goAdd (goSub ec sc) 1 = ec - sc + 1 := by
    unfold goAdd goSub
    rw [wrap64_of_range (ec - sc) (by omega) (by omega),
      wrap64_of_range _ (by omega) (by omega)]
  obtain ⟨hq1, hq2⟩ := tdiv_range pageSize (ec - sc + 1) hps.1 hps.2 (by omega)
  have hdiv : goDiv pageSize (ec - sc + 1) = some (Int.tdiv pageSize (ec - sc + 1)) := by
    unfold goDiv
    rw [if_neg (by omega), wrap64_of_range _ hq1 hq2]
  have hrpp : (if Int.tdiv pageSize (ec - sc + 1) < 1 then 1
      else Int.tdiv pageSize (ec - sc + 1)) = max 1 (Int.tdiv pageSize (ec - sc + 1)) := by
    by_cases h : Int.tdiv pageSize (ec - sc + 1) < 1
    · rw [if_pos h, max_eq_left (by omega)]
    · rw [if_neg h, max_eq_right (by omega)]
  obtain ⟨pages, hloop, hlen, hget⟩ :=
    fixedSizeLoop_pages sc ec er (max 1 (Int.tdiv pageSize (ec - sc + 1))) ⟨hsc1, hsc2⟩
      ⟨hec1, hec2⟩ her2 (le_max_left _ _) (er - sr + 1).toNat sr [] hsr1 (Or.inr hnw)
      (le_refl _)
  refine ⟨pages, ?_, hlen, hget⟩
  unfold calculateFixedSizeRanges
  simp only [hparse, htot, hdiv, hrpp, hloop, List.nil_append]

/-! ## Claims -/

/-- C1: `calculateFixedSizeRanges` is claimed to return, for every integer `pageSize`,
the pages `cell(sc, sr + k*rpp):cell(ec, min(sr + (k+1)*rpp - 1, er))`. On the dimension
`A2:A5` (which parses to `(1, 2, 1, 5)`) with `pageSize = 2^63 - 1` the claimed list is
the single page `A2:A5`, but `currentRow + rowsPerPage - 1` wraps around to a negative
row, `CoordinatesToCellName` rejects it and the function returns no page at all; with
`pageSize = 2^63 - 3` the sum does not wrap and the page is returned. -/
theorem calculateFixedSizeRanges_maxPageSize_no_pages :
    ParseRange "A2:A5".toList = ⟨1, 2, 1, 5, none⟩ ∧
    goSub (goAdd 2 9223372036854775807) 1 = -9223372036854775808 ∧
    calculateFixedSizeRanges "A2:A5".toList 9223372036854775807 = .done [] ∧
    calculateFixedSizeRanges "A2:A5".toList 9223372036854775805 =
      .done ["A2:A5".toList] := by
  decide

/-- C2: the pages of `calculateFixedSizeRanges` are claimed to partition the dimension
for every `pageSize`, the list being non-empty. On the dimension `C7:C9` (which parses
to `(3, 7, 3, 9)`) with `pageSize = 2^63 - 5` the row sum wraps around and the returned
list is empty, so no cell of the dimension lies in any page. -/
theorem calculateFixedSizeRanges_overflow_not_partition :
    ParseRange "C7:C9".toList = ⟨3, 7, 3, 9, none⟩ ∧
    ∃ pages, calculateFixedSizeRanges "C7:C9".toList 9223372036854775803 = .done pages ∧
      pages.length = 0 :=
  ⟨by decide, [], by decide, rfl⟩

/-- C3: a text made of one or two well-formed cells (optional `$`, uppercase letters
of value at most 16384, optional `$`, digits of value in 1..1048576) parses without
error to the base-26 column values and decimal row values of its cells; a bare cell
gives its coordinates twice; the `$` markers do not change the result. -/
theorem ParseRange_wellFormed_text (a1 a2 b1 b2 : Bool) (l1 g1 l2 g2 : GoString)
    (hl1 : IsLetters l1) (hg1 : IsDigits g1) (hl2 : IsLetters l2) (hg2 : IsDigits g2)
    (hc1 : base26Value l1 ≤ 16384) (hr1 : 1 ≤ base10Value g1 ∧ base10Value g1 ≤ 1048576)
    (hc2 : base26Value l2 ≤ 16384) (hr2 : 1 ≤ base10Value g2 ∧ base10Value g2 ≤ 1048576) :
    ParseRange (cellText a1 l1 a2 g1) =
      ⟨base26Value l1, base10Value g1, base26Value l1, base10Value g1, none⟩ ∧
    ParseRange (cellText a1 l1 a2 g1 ++ ':' :: cellText b1 l2 b2 g2) =
      ⟨base26Value l1, base10Value g1, base26Value l2, base10Value g2, none⟩ ∧
    ParseRange (cellText a1 l1 a2 g1 ++ ':' :: cellText b1 l2 b2 g2) =
      ParseRange (cellText false l1 false g1 ++ ':' :: cellText false l2 false g2) := by
  have e1 := columnValue_eq_base26Value l1 hl1.2
  have e2 := columnValue_eq_base26Value l2 hl2.2
  have d1 := decimalValue_eq_base10Value g1
  have d2 := decimalValue_eq_base10Value g2
  have hM : MaxColumns = 16384 := rfl
  have hT : TotalRows = 1048576 := rfl
  have k1 : (columnValue l1 : Int) ≤ MaxColumns := by omega
  have k2 : (columnValue l2 : Int) ≤ MaxColumns := by omega
  have r1 : 1 ≤ (decimalValue g1 : Int) := by omega
  have r1' : (decimalValue g1 : Int) ≤ TotalRows := by omega
  have r2 : 1 ≤ (decimalValue g2 : Int) := by omega
  have r2' : (decimalValue g2 : Int) ≤ TotalRows := by omega
  refine ⟨?_, ?_, ?_⟩
  · rw [ParseRange_single_ok a1 a2 l1 g1 hl1 hg1 k1 r1 r1', e1, d1]
  · rw [ParseRange_pair_ok a1 a2 b1 b2 l1 g1 l2 g2 hl1 hg1 hl2 hg2 k1 r1 r1' k2 r2 r2',
      e1, d1, e2, d2]
  · rw [ParseRange_pair_ok a1 a2 b1 b2 l1 g1 l2 g2 hl1 hg1 hl2 hg2 k1 r1 r1' k2 r2 r2',
      ParseRange_pair_ok false false false false l1 g1 l2 g2 hl1 hg1 hl2 hg2 k1 r1 r1'
        k2 r2 r2']

/-- Witness of C3 at `$AA$1:AZ$100`, with the column values `A` = 1, `Z` = 26,
`AA` = 27, `AZ` = 52 of the claim. -/
theorem ParseRange_wellFormed_text_witness :
    (base26Value ['A'] = 1 ∧ base26Value ['Z'] = 26 ∧ base26Value ['A', 'A'] = 27 ∧
      base26Value ['A', 'Z'] = 52 ∧ base10Value ['1', '0', '0'] = 100) ∧
    cellText true ['A', 'A'] true ['1'] ++ ':' :: cellText false ['A', 'Z'] true ['1', '0', '0']
      = "$AA$1:AZ$100".toList ∧
    (ParseRange (cellText true ['A', 'A'] true ['1']) =
      ⟨base26Value ['A', 'A'], base10Value ['1'], base26Value ['A', 'A'],
        base10Value ['1'], none⟩ ∧
    ParseRange (cellText true ['A', 'A'] true ['1'] ++
        ':' :: cellText false ['A', 'Z'] true ['1', '0', '0']) =
      ⟨base26Value ['A', 'A'], base10Value ['1'], base26Value ['A', 'Z'],
        base10Value ['1', '0', '0'], none⟩ ∧
    ParseRange (cellText true ['A', 'A'] true ['1'] ++
        ':' :: cellText false ['A', 'Z'] true ['1', '0', '0']) =
      ParseRange (cellText false ['A', 'A'] false ['1'] ++
        ':' :: cellText false ['A', 'Z'] false ['1', '0', '0'])) :=
  ⟨by decide, by decide,
    ParseRange_wellFormed_text true true false true ['A', 'A'] ['1'] ['A', 'Z']
      ['1', '0', '0'] (by decide) (by decide) (by decide) (by decide) (by decide)
      (by decide) (by decide) (by decide)⟩

/-- C4: for every text that does not match the range grammar (one cell, or two cells
joined by `:`, anchored at both ends), `ParseRange` returns the coordinates
`(0, 0, 0, 0)` together with a non-nil error, the invalid-range-format error. -/
theorem ParseRange_rejects_nonGrammar (s : GoString) (h : ¬ MatchesRangeGrammar s) :
    ParseRange s = ⟨0, 0, 0, 0, some (.invalidRangeFormat s)⟩ ∧
      (ParseRange s).err ≠ none := by
  have hnone : rangeRegexpFind s = none := by
    cases hm : rangeRegexpFind s with
    | none => rfl
    | some m => exact absurd (grammar_of_rangeRegexpFind s m.1 m.2 hm) h
  rw [ParseRange_none s hnone]
  exact ⟨rfl, by simp⟩

/-- Witness of C4 at the empty string, `not-a-range`, the column-only range `A:C` and
the lowercase cell name `a1`. -/
theorem ParseRange_rejects_nonGrammar_witness :
    (¬ MatchesRangeGrammar [] ∧ ParseRange [] = ⟨0, 0, 0, 0, some (.invalidRangeFormat [])⟩) ∧
    (ParseRange "not-a-range".toList).err ≠ none ∧
    (ParseRange "A:C".toList).err ≠ none ∧
    ParseRange "a1".toList = ⟨0, 0, 0, 0, some (.invalidRangeFormat "a1".toList)⟩ :=
  ⟨⟨not_grammar_of_rangeRegexpFind_none [] (by decide),
      (ParseRange_rejects_nonGrammar [] (not_grammar_of_rangeRegexpFind_none [] (by decide))).1⟩,
    (ParseRange_rejects_nonGrammar "not-a-range".toList
      (not_grammar_of_rangeRegexpFind_none _ (by decide))).2,
    (ParseRange_rejects_nonGrammar "A:C".toList
      (not_grammar_of_rangeRegexpFind_none _ (by decide))).2,
    (ParseRange_rejects_nonGrammar "a1".toList
      (not_grammar_of_rangeRegexpFind_none _ (by decide))).1⟩

/-- The canonical form of `NormalizeRange`: for every text on which `ParseRange`
succeeds with both columns at least 1, `NormalizeRange` returns a text without `$`, of
the two-cell form letters-digits-colon-letters-digits, that `ParseRange` parses to the
same coordinates as the original text. -/
theorem NormalizeRange_canonical (s : GoString) (h : (ParseRange s).err = none)
    (hc1 : 1 ≤ (ParseRange s).startCol) (hc2 : 1 ≤ (ParseRange s).endCol) :
    '$' ∉ NormalizeRange s ∧
    (∃ l1 g1 l2 g2, IsLetters l1 ∧ IsDigits g1 ∧ IsLetters l2 ∧ IsDigits g2 ∧
      NormalizeRange s = l1 ++ g1 ++ ':' :: (l2 ++ g2)) ∧
    ParseRange (NormalizeRange s) = ParseRange s := by
  obtain ⟨l1, g1, l2, g2, hl1, hg1, hl2, hg2, hn, hp⟩ := NormalizeRange_of_ok s h hc1 hc2
  refine ⟨?_, ⟨l1, g1, l2, g2, hl1, hg1, hl2, hg2, hn⟩, ?_⟩
  · rw [hn]
    intro hmem
    simp only [List.mem_append, List.mem_cons] at hmem
    rcases hmem with (hm | hm) | hm | hm | hm
    · exact isUpperAZ_ne_dollar (hl1.2 _ hm) rfl
    · exact isDigit09_ne_dollar (hg1.2 _ hm) rfl
    · exact absurd hm (by decide)
    · exact isUpperAZ_ne_dollar (hl2.2 _ hm) rfl
    · exact isDigit09_ne_dollar (hg2.2 _ hm) rfl
  · rw [hn, hp]

/-- The canonical form at `$A$1:$C$10`, normalized to `A1:C10`, and at the bare cell
`B5`, normalized to `B5:B5`. -/
theorem NormalizeRange_canonical_examples :
    NormalizeRange "$A$1:$C$10".toList = "A1:C10".toList ∧
    NormalizeRange "B5".toList = "B5:B5".toList ∧
    ParseRange (NormalizeRange "$A$1:$C$10".toList) = ParseRange "$A$1:$C$10".toList ∧
    '$' ∉ NormalizeRange "B5".toList :=
  ⟨by decide, by decide,
    (NormalizeRange_canonical "$A$1:$C$10".toList (by decide) (by decide) (by decide)).2.2,
    (NormalizeRange_canonical "B5".toList (by decide) (by decide) (by decide)).1⟩

/-- C6: for every text on which `ParseRange` returns an error, `NormalizeRange` returns
the text unchanged (it is a total function, so it never fails). -/
theorem NormalizeRange_passthrough (s : GoString) (h : (ParseRange s).err ≠ none) :
    NormalizeRange s = s := by
  unfold NormalizeRange
  cases he : (ParseRange s).err with
  | none => exact absurd he h
  | some e => simp only [he]

/-- Witness of C6 at `not-a-range` and at the empty string. -/
theorem NormalizeRange_passthrough_witness :
    NormalizeRange "not-a-range".toList = "not-a-range".toList ∧ NormalizeRange [] = [] :=
  ⟨NormalizeRange_passthrough "not-a-range".toList (by decide),
    NormalizeRange_passthrough [] (by decide)⟩

/-- C7: for every column in 1..16384 and row in 1..1048576, `CoordinatesToCellName`
succeeds and `ParseRange` of the cell name it returns succeeds with
`(col, row, col, row)`. -/
theorem ParseRange_CoordinatesToCellName (col row : Int) (hc1 : 1 ≤ col)
    (hc2 : col ≤ 16384) (hr1 : 1 ≤ row) (hr2 : row ≤ 1048576) :
    ∃ name, CoordinatesToCellName col row = .ok name ∧
      ParseRange name = ⟨col, row, col, row, none⟩ := by
  have hs : InSheet col row := ⟨hc1, hc2, hr1, hr2⟩
  obtain ⟨l1, g1, _, _, _, _, _, _, hn, _, hp, _⟩ := ParseRange_of_names col row col row hs hs
  exact ⟨l1 ++ g1, hn, hp⟩

/-- Witness of C7 at the last cell of a sheet, column 16384 (`XFD`) and row 1048576. -/
theorem ParseRange_CoordinatesToCellName_witness :
    ∃ name, CoordinatesToCellName 16384 1048576 = .ok name ∧
      ParseRange name = ⟨16384, 1048576, 16384, 1048576, none⟩ :=
  ParseRange_CoordinatesToCellName 16384 1048576 (by decide) (by decide) (by decide)
    (by decide)

/-- C8: `FindNextRange` returns the element after the first (smallest-index) exact match
of `current` when that match is not the last element, and the empty string in every
other case: the first match is the last element, or `current` does not occur (in
particular when the list is empty). Repeated elements are allowed. -/
theorem FindNextRange_after_first_match (all : List GoString) (current : GoString) :
    (∀ i, i < all.length → all.getD i [] = current →
      (∀ j, j < i → all.getD j [] ≠ current) →
      FindNextRange all current = if i + 1 < all.length then all.getD (i + 1) [] else []) ∧
    ((∀ i, i < all.length → all.getD i [] ≠ current) → FindNextRange all current = []) := by
  constructor
  · intro i hi hmatch hfirst
    have := findNextLoop_first_match all current all 0 i rfl hi hmatch hfirst
    rw [Nat.zero_add] at this
    exact this
  · intro hno
    apply findNextLoop_no_match
    intro r hr
    obtain ⟨n, hn, hget⟩ := List.mem_iff_getElem.mp hr
    have := hno n hn
    rw [List.getD_eq_getElem _ _ hn, hget] at this
    exact this

/-- C9: `FilterRemainingPagingRanges(all, known)` is the sublist of the elements of
`all` that are equal to no element of `known`, in their order and multiplicity; with
an empty `known` it is `all`, and filtering `all` by itself gives the empty list. -/
theorem FilterRemainingPagingRanges_exact (all known : List GoString) :
    FilterRemainingPagingRanges all known = all.filter (fun r => decide (r ∉ known)) ∧
    FilterRemainingPagingRanges all [] = all ∧
    FilterRemainingPagingRanges all all = [] := by
  refine ⟨FilterRemaining_eq_filter all known, rfl, ?_⟩
  rw [FilterRemaining_eq_filter, List.filter_eq_nil_iff]
  intro r hr
  simp [hr]

/-- C10, as stated, fails: with `all = ["$A$1:$A$10"]` and `known = ["A1:A10"]` the
result is `all` itself, not the empty list, although the normalized form of its element
appears in `known`. -/
theorem FilterRemainingPagingRanges_not_normalizing :
    FilterRemainingPagingRanges ["$A$1:$A$10".toList] ["A1:A10".toList] =
      ["$A$1:$A$10".toList] ∧
    ¬ (∀ r ∈ FilterRemainingPagingRanges ["$A$1:$A$10".toList] ["A1:A10".toList],
        NormalizeRange r ∉ ["A1:A10".toList]) := by
  decide

/-- C10, amended: `FilterRemainingPagingRanges` removes the elements of `all` that are
themselves (as written, without normalization) elements of `known`: for a non-empty
`known` no element of the result is in `known`, and every element of `all` that is not
in `known` is kept. -/
theorem FilterRemainingPagingRanges_removes_known (all known : List GoString)
    (hk : known ≠ []) :
    (∀ r ∈ FilterRemainingPagingRanges all known, r ∉ known) ∧
    (∀ r ∈ all, r ∉ known → r ∈ FilterRemainingPagingRanges all known) := by
  have _ := hk
  rw [FilterRemaining_eq_filter]
  constructor
  · intro r hr
    simpa using (List.mem_filter.mp hr).2
  · intro r hr hn
    exact List.mem_filter.mpr ⟨hr, by simpa using hn⟩

/-- Witness of the amended C10 at `all = ["A1:A10", "$A$1:$A$10"]`,
`known = ["A1:A10"]`: the element written as in `known` is removed, the one written
with `$` markers is kept. -/
theorem FilterRemainingPagingRanges_removes_known_witness :
    FilterRemainingPagingRanges ["A1:A10".toList, "$A$1:$A$10".toList] ["A1:A10".toList] =
      ["$A$1:$A$10".toList] ∧
    ∀ r ∈ FilterRemainingPagingRanges ["A1:A10".toList, "$A$1:$A$10".toList]
        ["A1:A10".toList], r ∉ ["A1:A10".toList] :=
  ⟨by decide,
    (FilterRemainingPagingRanges_removes_known ["A1:A10".toList, "$A$1:$A$10".toList]
      ["A1:A10".toList] (by decide)).1⟩

/-! ## Fixed-size paging: totality and page sizes -/

theorem wrap64_range (x : Int) : - 2 ^ 63 ≤ wrap64 x ∧ wrap64 x < 2 ^ 63 := by
  unfold wrap64
  omega

theorem CoordinatesToCellName_row_lt_one (col row : Int) (h : row < 1) :
    CoordinatesToCellName col row = .error (.invalidCoordinates col row) := by
  unfold CoordinatesToCellName
  rw [if_pos (Or.inr h)]

/-- When the row sum of the first iteration wraps around, the loop returns at once with
the pages collected so far. -/
theorem fixedSizeLoop_wrap (sc ec er rpp : Int) (fuel : Nat) (cur : Int)
    (acc : List GoString) (hsc : 1 ≤ sc ∧ sc ≤ MaxColumns) (her : er ≤ TotalRows)
    (hcur : 1 ≤ cur ∧ cur ≤ er) (hrpp : rpp < 2 ^ 63) (hw : 2 ^ 63 ≤ cur + rpp - 1) :
    fixedSizeLoop sc ec er rpp (fuel + 1) cur acc = some acc := by
  have hT : TotalRows = 1048576 := rfl
  obtain ⟨l1, g1, _, _, ha, _, _⟩ :=
    CoordinatesToCellName_ok sc cur hsc.1 hsc.2 hcur.1 (by omega)
  have hval : goSub (goAdd cur rpp) 1 = cur + rpp - 1 - 2 ^ 64 := by
    rw [goSub_goAdd_one]
    unfold wrap64
    omega
  have hend : (if goSub (goAdd cur rpp) 1 > er then er else goSub (goAdd cur rpp) 1) =
      cur + rpp - 1 - 2 ^ 64 := by
    rw [hval, if_neg (by omega)]
  rw [fixedSizeLoop]
  simp only [hend, if_pos hcur.2, ha]
  rw [CoordinatesToCellName_row_lt_one ec _ (by omega)]

theorem fixedSizeLoop_total (sc ec er rpp : Int) (hsc : 1 ≤ sc ∧ sc ≤ MaxColumns)
    (hec : 1 ≤ ec ∧ ec ≤ MaxColumns) (her : er ≤ TotalRows) (hrpp : 1 ≤ rpp ∧ rpp < 2 ^ 63)
    (fuel : Nat) (cur : Int) (acc : List GoString) (hcur : 1 ≤ cur)
    (hfuel : (er - cur + 1).toNat ≤ fuel) :
    ∃ pages, fixedSizeLoop sc ec er rpp fuel cur acc = some (acc ++ pages) := by
  by_cases hnw : er < cur ∨ cur + rpp - 1 < 2 ^ 63
  · obtain ⟨pages, h, _⟩ :=
      fixedSizeLoop_pages sc ec er rpp hsc hec her hrpp.1 fuel cur acc hcur hnw hfuel
    exact ⟨pages, h⟩
  · have h1 : cur ≤ er := by omega
    have h2 : 2 ^ 63 ≤ cur + rpp - 1 := by omega
    obtain ⟨n, hn⟩ : ∃ n, fuel = n + 1 := ⟨fuel - 1, by omega⟩
    subst hn
    exact ⟨[], by
      rw [fixedSizeLoop_wrap sc ec er rpp n cur acc hsc her ⟨hcur, h1⟩ hrpp.2 h2]; simp⟩

theorem CoordinatesToCellName_col_lt_one (col row : Int) (h : col < 1) :
    CoordinatesToCellName col row = .error (.invalidCoordinates col row) := by
  unfold CoordinatesToCellName
  rw [if_pos (Or.inl h)]

/-- With a start or end column below 1 the loop returns at once with the pages
collected so far. -/
theorem fixedSizeLoop_col_lt_one (sc ec er rpp : Int) (h : sc < 1 ∨ ec < 1) (fuel : Nat)
    (cur : Int) (acc : List GoString) (hfuel : (er - cur + 1).toNat ≤ fuel) :
    fixedSizeLoop sc ec er rpp fuel cur acc = some acc := by
  cases fuel with
  | zero =>
    unfold fixedSizeLoop
    rw [if_neg (by omega)]
  | succ n =>
    unfold fixedSizeLoop
    by_cases hcur : cur ≤ er
    · rw [if_pos hcur]
      simp only []
      by_cases hsc : sc < 1
      · rw [CoordinatesToCellName_col_lt_one sc cur hsc]
      · have hec : ec < 1 := h.resolve_left hsc
        cases CoordinatesToCellName sc cur with
        | error e => rfl
        | ok a =>
          simp only []
          rw [CoordinatesToCellName_col_lt_one ec _ hec]
    · rw [if_neg hcur]

theorem goAdd_goSub_one (a b : Int) : goAdd (goSub a b) 1 = wrap64 (a - b + 1) := by
  unfold goAdd goSub wrap64
  omega

/-- The outcome of `calculateFixedSizeRanges` on every input: it always finishes, with
a list of pages unless the text parses to a range whose start column is the column
right after its end column, where the division `pageSize / totalCols` panics. -/
theorem calculateFixedSizeRanges_outcome (dimension : GoString) (pageSize : Int) :
    ((ParseRange dimension).err = none ∧
        (ParseRange dimension).startCol = (ParseRange dimension).endCol + 1 ∧
        calculateFixedSizeRanges dimension pageSize = .divideByZero) ∨
      ∃ pages, calculateFixedSizeRanges dimension pageSize = .done pages := by
  have hM : MaxColumns = 16384 := rfl
  cases herr : (ParseRange dimension).err with
  | some e =>
    refine Or.inr ⟨[], ?_⟩
    unfold calculateFixedSizeRanges
    simp only [herr]
  | none =>
    obtain ⟨⟨hsc1, hsc2, hsr1, hsr2⟩, ⟨hec1, hec2, her1, her2⟩⟩ :=
      ParseRange_ok_bounds dimension herr
    have htot := goAdd_goSub_one (ParseRange dimension).endCol (ParseRange dimension).startCol
    by_cases h0 : wrap64
        ((ParseRange dimension).endCol - (ParseRange dimension).startCol + 1) = 0
    · refine Or.inl ⟨rfl, ?_, ?_⟩
      · unfold wrap64 at h0
        omega
      · unfold calculateFixedSizeRanges
        simp only [herr, htot, goDiv, h0, if_true]
    · right
      obtain ⟨hq1, hq2⟩ := wrap64_range (Int.tdiv pageSize (wrap64
        ((ParseRange dimension).endCol - (ParseRange dimension).startCol + 1)))
      have hdiv : goDiv pageSize (wrap64
          ((ParseRange dimension).endCol - (ParseRange dimension).startCol + 1)) =
          some (wrap64 (Int.tdiv pageSize (wrap64
            ((ParseRange dimension).endCol - (ParseRange dimension).startCol + 1)))) := by
        unfold goDiv
        rw [if_neg h0]
      generalize wrap64 (Int.tdiv pageSize (wrap64
        ((ParseRange dimension).endCol - (ParseRange dimension).startCol + 1))) = q
        at hq1 hq2 hdiv
      have hrpp : 1 ≤ (if q < 1 then 1 else q) ∧ (if q < 1 then 1 else q) < 2 ^ 63 := by
        by_cases hq : q < 1
        · rw [if_pos hq]; omega
        · rw [if_neg hq]; omega
      by_cases hcols : 1 ≤ (ParseRange dimension).startCol ∧ 1 ≤ (ParseRange dimension).endCol
      · obtain ⟨pages, hp⟩ := fixedSizeLoop_total (ParseRange dimension).startCol
          (ParseRange dimension).endCol (ParseRange dimension).endRow (if q < 1 then 1 else q)
          ⟨hcols.1, hsc2⟩ ⟨hcols.2, hec2⟩ her2 hrpp
          ((ParseRange dimension).endRow - (ParseRange dimension).startRow + 1).toNat
          (ParseRange dimension).startRow [] hsr1 (le_refl _)
        refine ⟨pages, ?_⟩
        unfold calculateFixedSizeRanges
        simp only [herr, htot, hdiv, hp, List.nil_append]
      · have hp := fixedSizeLoop_col_lt_one (ParseRange dimension).startCol
          (ParseRange dimension).endCol (ParseRange dimension).endRow (if q < 1 then 1 else q)
          (by omega)
          ((ParseRange dimension).endRow - (ParseRange dimension).startRow + 1).toNat
          (ParseRange dimension).startRow [] (le_refl _)
        refine ⟨[], ?_⟩
        unfold calculateFixedSizeRanges
        simp only [herr, htot, hdiv, hp]

theorem ParseRange_of_cell_names (sc sr ec er : Int) (a b : GoString) (h1 : InSheet sc sr)
    (h2 : InSheet ec er) (ha : CoordinatesToCellName sc sr = .ok a)
    (hb : CoordinatesToCellName ec er = .ok b) :
    ParseRange (a ++ ':' :: b) = ⟨sc, sr, ec, er, none⟩ := by
  obtain ⟨l1, g1, l2, g2, _, _, _, _, hn1, hn2, _, hp⟩ := ParseRange_of_names sc sr ec er h1 h2
  rw [ha] at hn1
  rw [hb] at hn2
  injection hn1 with hn1
  injection hn2 with hn2
  rw [hn1, hn2]
  exact hp

/-- With a page size of at least one row of cells, every page of
`calculateFixedSizeRanges` parses back to a well-formed range over the columns of the
dimension that holds at most `pageSize` cells. -/
theorem calculateFixedSizeRanges_page_cells (dimension : GoString)
    (pageSize sc sr ec er : Int) (hparse : ParseRange dimension = ⟨sc, sr, ec, er, none⟩)
    (hcol : sc ≤ ec) (hrow : sr ≤ er) (hmin : ec - sc + 1 ≤ pageSize)
    (hmax : pageSize < 2 ^ 63) :
    ∃ pages, calculateFixedSizeRanges dimension pageSize = .done pages ∧
      ∀ p ∈ pages, ∃ r1 r2, ParseRange p = ⟨sc, r1, ec, r2, none⟩ ∧ r1 ≤ r2 ∧
        (r2 - r1 + 1) * (ec - sc + 1) ≤ pageSize := by
  have hM : MaxColumns = 16384 := rfl
  have hT : TotalRows = 1048576 := rfl
  have herr : (ParseRange dimension).err = none := by rw [hparse]
  have hcols : 1 ≤ ec - sc + 1 := by omega
  have hq : Int.tdiv pageSize (ec - sc + 1) = pageSize / (ec - sc + 1) :=
    Int.tdiv_eq_ediv (by omega) (by omega)
  by_cases hsc0 : ¬ 1 ≤ sc
  · refine ⟨[], ?_, by simp⟩
    have htot : goAdd (goSub ec sc) 1 = ec - sc + 1 := by
      rw [goAdd_goSub_one, wrap64_of_range _ (by omega) (by omega)]
    have hdiv : goDiv pageSize (ec - sc + 1) =
        some (wrap64 (Int.tdiv pageSize (ec - sc + 1))) := by
      unfold goDiv
      rw [if_neg (by omega)]
    have hloop := fixedSizeLoop_col_lt_one sc ec er
      (if wrap64 (Int.tdiv pageSize (ec - sc + 1)) < 1 then 1
        else wrap64 (Int.tdiv pageSize (ec - sc + 1))) (Or.inl (by omega))
      (er - sr + 1).toNat sr [] (le_refl _)
    unfold calculateFixedSizeRanges
    simp only [hparse, htot, hdiv, hloop]
  have hsc0 : 1 ≤ sc := not_not.mp hsc0
  obtain ⟨hs1, hs2⟩ := ParseRange_ok_inSheet dimension herr (by rw [hparse]; exact hsc0)
    (by rw [hparse]; exact le_trans hsc0 hcol)
  rw [hparse] at hs1 hs2
  simp only [] at hs1 hs2
  obtain ⟨hsc1, hsc2, hsr1, hsr2⟩ := hs1
  obtain ⟨hec1, hec2, her1, her2⟩ := hs2
  have hq1 : 1 ≤ pageSize / (ec - sc + 1) := by
    have := Int.ediv_le_ediv (by omega : 0 < ec - sc + 1) hmin
    rw [Int.ediv_self (by omega)] at this
    exact this
  have hq2 : pageSize / (ec - sc + 1) * (ec - sc + 1) ≤ pageSize :=
    Int.ediv_mul_le pageSize (by omega)
  have hq3 : pageSize / (ec - sc + 1) ≤ pageSize := Int.ediv_le_self _ (by omega)
  have hrppeq : max 1 (Int.tdiv pageSize (ec - sc + 1)) = pageSize / (ec - sc + 1) := by
    rw [hq, max_eq_right hq1]
  by_cases hnw : sr + pageSize / (ec - sc + 1) - 1 < 2 ^ 63
  · obtain ⟨pages, hdone, hlen, hget⟩ := calculateFixedSizeRanges_pages dimension pageSize
      sc sr ec er hparse hsc0 hcol ⟨by omega, hmax⟩ (by rw [hrppeq]; exact hnw)
    rw [hrppeq] at hlen hget
    refine ⟨pages, hdone, ?_⟩
    intro p hp
    obtain ⟨k, hk, hkp⟩ := List.mem_iff_getElem.mp hp
    obtain ⟨a, b, ha, hb, hab⟩ := hget k hk
    rw [List.getD_eq_getElem _ _ hk, hkp] at hab
    have hstart : sr + (k : Int) * (pageSize / (ec - sc + 1)) ≤ er := (hlen k).mp hk
    have hk0 : 0 ≤ (k : Int) * (pageSize / (ec - sc + 1)) :=
      Int.mul_nonneg (Int.ofNat_nonneg k) (by omega)
    have hexp : ((k : Int) + 1) * (pageSize / (ec - sc + 1)) =
        (k : Int) * (pageSize / (ec - sc + 1)) + pageSize / (ec - sc + 1) := by ring
    rw [hexp] at hb
    refine ⟨sr + (k : Int) * (pageSize / (ec - sc + 1)),
      min (sr + ((k : Int) * (pageSize / (ec - sc + 1)) + pageSize / (ec - sc + 1)) - 1) er,
      ?_, by omega, ?_⟩
    · rw [hab]
      exact ParseRange_of_cell_names _ _ _ _ a b ⟨hsc1, hsc2, by omega, by omega⟩
        ⟨hec1, hec2, by omega, by omega⟩ ha hb
    · have hrows : min (sr + ((k : Int) * (pageSize / (ec - sc + 1)) +
          pageSize / (ec - sc + 1)) - 1) er -
          (sr + (k : Int) * (pageSize / (ec - sc + 1))) + 1 ≤ pageSize / (ec - sc + 1) := by
        omega
      exact le_trans (Int.mul_le_mul_of_nonneg_right hrows (by omega)) hq2
  · refine ⟨[], ?_, by simp⟩
    have htot : goAdd (goSub ec sc) 1 = ec - sc + 1 := by
      unfold goAdd goSub
      rw [wrap64_of_range (ec - sc) (by omega) (by omega),
        wrap64_of_range _ (by omega) (by omega)]
    have hdiv : goDiv pageSize (ec - sc + 1) = some (pageSize / (ec - sc + 1)) := by
      unfold goDiv
      rw [if_neg (by omega), hq, wrap64_of_range _ (by omega) (by omega)]
    obtain ⟨n, hn⟩ : ∃ n, (er - sr + 1).toNat = n + 1 := ⟨(er - sr + 1).toNat - 1, by omega⟩
    have hloop := fixedSizeLoop_wrap sc ec er (pageSize / (ec - sc + 1)) n sr []
      ⟨hsc1, hsc2⟩ her2 ⟨hsr1, hrow⟩ (by omega) (by omega)
    unfold calculateFixedSizeRanges
    simp only [hparse, htot, hdiv, if_neg (by omega : ¬ pageSize / (ec - sc + 1) < 1), hn,
      hloop]

/-! ## Claims (continued) -/

/-- C11: for every dimension on which `ParseRange` fails and every `pageSize`,
`calculateFixedSizeRanges` finishes with the empty list (it has no error result). -/
theorem calculateFixedSizeRanges_unparsable (dimension : GoString) (pageSize : Int)
    (h : (ParseRange dimension).err ≠ none) :
    calculateFixedSizeRanges dimension pageSize = .done [] := by
  unfold calculateFixedSizeRanges
  cases he : (ParseRange dimension).err with
  | none => exact absurd he h
  | some e => simp only [he]

/-- Witness of C11 at the empty string and at `invalid`, with page size 100. -/
theorem calculateFixedSizeRanges_unparsable_witness :
    calculateFixedSizeRanges [] 100 = .done [] ∧
    calculateFixedSizeRanges "invalid".toList 100 = .done [] :=
  ⟨calculateFixedSizeRanges_unparsable [] 100 (by decide),
    calculateFixedSizeRanges_unparsable "invalid".toList 100 (by decide)⟩

/-- C12: `calculateFixedSizeRanges` is claimed never to fail at run time, its divisor
`totalCols` being non-zero. The dimension `B1:A1` parses to `(2, 1, 1, 1)`, so
`totalCols = 1 - 2 + 1 = 0` and the division `pageSize / totalCols` panics. -/
theorem calculateFixedSizeRanges_reversed_columns_panics :
    ParseRange "B1:A1".toList = ⟨2, 1, 1, 1, none⟩ ∧
    goAdd (goSub 1 2) 1 = 0 ∧
    goDiv 100 0 = none ∧
    calculateFixedSizeRanges "B1:A1".toList 100 = .divideByZero := by
  decide

/-- C13, as stated, fails: the dimension `A1:E3` has five columns, and with
`pageSize = 2` every page is one row of five cells, more than `pageSize`. -/
theorem calculateFixedSizeRanges_page_exceeds_pageSize :
    ParseRange "A1:E3".toList = ⟨1, 1, 5, 3, none⟩ ∧
    calculateFixedSizeRanges "A1:E3".toList 2 =
      .done ["A1:E1".toList, "A2:E2".toList, "A3:E3".toList] ∧
    ParseRange "A1:E1".toList = ⟨1, 1, 5, 1, none⟩ ∧
    ¬ ((1 - 1 + 1) * (5 - 1 + 1) ≤ (2 : Int)) := by
  decide

/-- C13, amended: for every dimension that parses to a well-formed range and every
`pageSize` that is at least the number of columns of the dimension, every page returned
by `calculateFixedSizeRanges` spans the columns of the dimension and holds at most
`pageSize` cells: `(end row - start row + 1) * (endCol - startCol + 1) ≤ pageSize`. -/
theorem calculateFixedSizeRanges_pageSize_bound (dimension : GoString)
    (pageSize sc sr ec er : Int) (hparse : ParseRange dimension = ⟨sc, sr, ec, er, none⟩)
    (hcol : sc ≤ ec) (hrow : sr ≤ er) (hmin : ec - sc + 1 ≤ pageSize)
    (hmax : pageSize < 2 ^ 63) :
    ∃ pages, calculateFixedSizeRanges dimension pageSize = .done pages ∧
      ∀ p ∈ pages, ∃ r1 r2, ParseRange p = ⟨sc, r1, ec, r2, none⟩ ∧ r1 ≤ r2 ∧
        (r2 - r1 + 1) * (ec - sc + 1) ≤ pageSize :=
  calculateFixedSizeRanges_page_cells dimension pageSize sc sr ec er hparse hcol hrow hmin hmax

/-- Witness of the amended C13 at the dimension `A1:C10` with `pageSize = 9`, whose
pages `A1:C3`, `A4:C6`, `A7:C9`, `A10:C10` hold 9, 9, 9 and 3 cells. -/
theorem calculateFixedSizeRanges_pageSize_bound_witness :
    calculateFixedSizeRanges "A1:C10".toList 9 =
      .done ["A1:C3".toList, "A4:C6".toList, "A7:C9".toList, "A10:C10".toList] ∧
    ∃ pages, calculateFixedSizeRanges "A1:C10".toList 9 = .done pages ∧
      ∀ p ∈ pages, ∃ r1 r2, ParseRange p = ⟨1, r1, 3, r2, none⟩ ∧ r1 ≤ r2 ∧
        (r2 - r1 + 1) * (3 - 1 + 1) ≤ 9 :=
  ⟨by decide,
    calculateFixedSizeRanges_pageSize_bound "A1:C10".toList 9 1 1 3 10 (by decide)
      (by decide) (by decide) (by decide) (by decide)⟩

/-! ## `ParseRange` on the texts of the grammar -/

theorem rangeRegexpFind_cell (c : GoString) (hc : IsCell c) :
    rangeRegexpFind c = some (c, []) := by
  obtain ⟨a1, l, a2, g, hl, hg, rfl⟩ := hc
  exact rangeRegexpFind_single a1 a2 l g hl hg

theorem rangeRegexpFind_cells (c1 c2 : GoString) (h1 : IsCell c1) (h2 : IsCell c2) :
    rangeRegexpFind (c1 ++ ':' :: c2) = some (c1, c2) ∧ c2 ≠ [] := by
  obtain ⟨a1, l1, a2, g1, hl1, hg1, rfl⟩ := h1
  obtain ⟨b1, l2, b2, g2, hl2, hg2, rfl⟩ := h2
  exact ⟨rangeRegexpFind_pair a1 a2 b1 b2 l1 g1 l2 g2 hl1 hg1 hl2 hg2,
    cellText_ne_nil b1 b2 l2 g2 hg2⟩

theorem ParseRange_cell_eq (c : GoString) (hc : IsCell c) :
    ParseRange c =
      match CellNameToCoordinates c with
      | .error e => ⟨0, 0, 0, 0, some e⟩
      | .ok (col, row) => ⟨col, row, col, row, none⟩ := by
  unfold ParseRange
  rw [rangeRegexpFind_cell c hc]
  simp only []
  cases CellNameToCoordinates c with
  | error e => rfl
  | ok cr => simp

theorem ParseRange_cells_eq (c1 c2 : GoString) (h1 : IsCell c1) (h2 : IsCell c2) :
    ParseRange (c1 ++ ':' :: c2) =
      match CellNameToCoordinates c1 with
      | .error e => ⟨0, 0, 0, 0, some e⟩
      | .ok (sc, sr) =>
        match CellNameToCoordinates c2 with
        | .error e => ⟨0, 0, 0, 0, some e⟩
        | .ok (ec, er) => ⟨sc, sr, ec, er, none⟩ := by
  obtain ⟨hfind, hne⟩ := rangeRegexpFind_cells c1 c2 h1 h2
  unfold ParseRange
  rw [hfind]
  simp only []
  cases CellNameToCoordinates c1 with
  | error e => rfl
  | ok cr => simp only [if_neg hne]

theorem CellNameToCoordinates_ok_iff (abs1 abs2 : Bool) (l g : GoString)
    (hl : IsLetters l) (hg : IsDigits g) :
    (∃ cr, CellNameToCoordinates (cellText abs1 l abs2 g) = .ok cr) ↔
      wrap64 (base26Value l : Int) ≤ 16384 ∧ 1 ≤ base10Value g ∧ base10Value g ≤ 1048576 := by
  have hM : MaxColumns = 16384 := rfl
  have hT : TotalRows = 1048576 := rfl
  have e1 := columnValue_eq_base26Value l hl.2
  have e2 := decimalValue_eq_base10Value g
  rw [← e1, ← e2]
  constructor
  · rintro ⟨⟨col, row⟩, h⟩
    obtain ⟨hc, hr, h1, h2, h3, h4⟩ := CellNameToCoordinates_ok_inv abs1 abs2 l g hl hg col row h
    rw [← hc]
    omega
  · rintro ⟨h1, h2, h3⟩
    refine ⟨(wrap64 (columnValue l : Int), (decimalValue g : Int)), ?_⟩
    rw [CellNameToCoordinates_cellText abs1 abs2 l g hl hg,
      if_neg (fun h => h.elim (fun h1 => by omega) (fun h2 => by omega)),
      if_neg (by omega), if_neg (by omega)]

theorem ParseRange_cell_ok_iff (abs1 abs2 : Bool) (l g : GoString)
    (hl : IsLetters l) (hg : IsDigits g) :
    (ParseRange (cellText abs1 l abs2 g)).err = none ↔
      wrap64 (base26Value l : Int) ≤ 16384 ∧ 1 ≤ base10Value g ∧ base10Value g ≤ 1048576 := by
  rw [ParseRange_cell_eq _ ⟨abs1, l, abs2, g, hl, hg, rfl⟩,
    ← CellNameToCoordinates_ok_iff abs1 abs2 l g hl hg]
  cases CellNameToCoordinates (cellText abs1 l abs2 g) with
  | error e => simp
  | ok cr => simp

/-- On a text of the grammar `ParseRange` returns no error exactly when every row value
is in 1..1048576 and every column value, reduced to 64 bits, is at most 16384. -/
theorem ParseRange_cells_ok_iff (a1 a2 b1 b2 : Bool) (l1 g1 l2 g2 : GoString)
    (hl1 : IsLetters l1) (hg1 : IsDigits g1) (hl2 : IsLetters l2) (hg2 : IsDigits g2) :
    (ParseRange (cellText a1 l1 a2 g1 ++ ':' :: cellText b1 l2 b2 g2)).err = none ↔
      (wrap64 (base26Value l1 : Int) ≤ 16384 ∧ 1 ≤ base10Value g1 ∧
        base10Value g1 ≤ 1048576) ∧
      (wrap64 (base26Value l2 : Int) ≤ 16384 ∧ 1 ≤ base10Value g2 ∧
        base10Value g2 ≤ 1048576) := by
  rw [ParseRange_cells_eq _ _ ⟨a1, l1, a2, g1, hl1, hg1, rfl⟩ ⟨b1, l2, b2, g2, hl2, hg2, rfl⟩,
    ← CellNameToCoordinates_ok_iff a1 a2 l1 g1 hl1 hg1,
    ← CellNameToCoordinates_ok_iff b1 b2 l2 g2 hl2 hg2]
  cases CellNameToCoordinates (cellText a1 l1 a2 g1) with
  | error e => simp
  | ok cr =>
    cases CellNameToCoordinates (cellText b1 l2 b2 g2) with
    | error e => simp
    | ok cr2 => simp

theorem wrap64_of_CellInSheet (l g : GoString) (h : CellInSheet l g) :
    wrap64 (base26Value l : Int) ≤ 16384 ∧ 1 ≤ base10Value g ∧ base10Value g ≤ 1048576 := by
  obtain ⟨h1, h2, h3⟩ := h
  refine ⟨?_, h2, h3⟩
  rw [wrap64_of_range _ (by omega) (by omega)]
  omega

theorem ParseRange_ok_shape (s : GoString) (h : (ParseRange s).err = none) :
    (IsCell s ∧ (ParseRange s).endCol = (ParseRange s).startCol ∧
        (ParseRange s).endRow = (ParseRange s).startRow) ∨
      ∃ c1 c2, IsCell c1 ∧ IsCell c2 ∧ s = c1 ++ ':' :: c2 ∧
        ParseRange c1 = ⟨(ParseRange s).startCol, (ParseRange s).startRow,
          (ParseRange s).startCol, (ParseRange s).startRow, none⟩ ∧
        ParseRange c2 = ⟨(ParseRange s).endCol, (ParseRange s).endRow,
          (ParseRange s).endCol, (ParseRange s).endRow, none⟩ := by
  cases hm : rangeRegexpFind s with
  | none => rw [ParseRange_none s hm] at h; simp at h
  | some m =>
    obtain ⟨m1, m2⟩ := m
    obtain ⟨hc1, hcase⟩ := rangeRegexpFind_sound s m1 m2 hm
    rcases hcase with ⟨_, hs⟩ | ⟨hc2, hs⟩
    · left
      subst hs
      refine ⟨hc1, ?_⟩
      rw [ParseRange_cell_eq s hc1] at h ⊢
      cases hcn : CellNameToCoordinates s with
      | error e => rw [hcn] at h; simp at h
      | ok cr => simp
    · right
      subst hs
      refine ⟨m1, m2, hc1, hc2, rfl, ?_⟩
      rw [ParseRange_cells_eq m1 m2 hc1 hc2] at h ⊢
      rw [ParseRange_cell_eq m1 hc1, ParseRange_cell_eq m2 hc2]
      cases hcn1 : CellNameToCoordinates m1 with
      | error e => rw [hcn1] at h; simp at h
      | ok cr1 =>
        cases hcn2 : CellNameToCoordinates m2 with
        | error e => rw [hcn1, hcn2] at h; simp at h
        | ok cr2 => simp

/-- C16, as stated, fails: `ParseRange` succeeds on `B1:A1` and `A5:A2` and returns the
corners as written, with `startCol > endCol` and `startRow > endRow`. -/
theorem ParseRange_reversed_corners :
    ParseRange "B1:A1".toList = ⟨2, 1, 1, 1, none⟩ ∧ ¬ ((2 : Int) ≤ 1) ∧
    ParseRange "A5:A2".toList = ⟨1, 5, 1, 2, none⟩ ∧ ¬ ((5 : Int) ≤ 2) := by
  decide

/-- C16, amended: a text on which `ParseRange` succeeds is a single cell, for which the
end coordinates equal the start coordinates, or two cells `c1:c2`, for which the start
coordinates are those of `c1` and the end coordinates those of `c2`, as written: the
corners are neither ordered nor checked against each other. -/
theorem ParseRange_corners_as_written (s : GoString) (h : (ParseRange s).err = none) :
    (IsCell s ∧ (ParseRange s).endCol = (ParseRange s).startCol ∧
        (ParseRange s).endRow = (ParseRange s).startRow) ∨
      ∃ c1 c2, IsCell c1 ∧ IsCell c2 ∧ s = c1 ++ ':' :: c2 ∧
        ParseRange c1 = ⟨(ParseRange s).startCol, (ParseRange s).startRow,
          (ParseRange s).startCol, (ParseRange s).startRow, none⟩ ∧
        ParseRange c2 = ⟨(ParseRange s).endCol, (ParseRange s).endRow,
          (ParseRange s).endCol, (ParseRange s).endRow, none⟩ :=
  ParseRange_ok_shape s h

/-- Witness of the amended C16 at `B1:A1`, whose corners `B1` = (2, 1) and `A1` = (1, 1)
are returned in the order written. -/
theorem ParseRange_corners_as_written_witness :
    ParseRange "B1:A1".toList = ⟨2, 1, 1, 1, none⟩ ∧
    ParseRange "B1".toList = ⟨2, 1, 2, 1, none⟩ ∧
    ParseRange "A1".toList = ⟨1, 1, 1, 1, none⟩ ∧
    ((IsCell "B1:A1".toList ∧
        (ParseRange "B1:A1".toList).endCol = (ParseRange "B1:A1".toList).startCol ∧
        (ParseRange "B1:A1".toList).endRow = (ParseRange "B1:A1".toList).startRow) ∨
      ∃ c1 c2, IsCell c1 ∧ IsCell c2 ∧ "B1:A1".toList = c1 ++ ':' :: c2 ∧
        ParseRange c1 = ⟨(ParseRange "B1:A1".toList).startCol,
          (ParseRange "B1:A1".toList).startRow, (ParseRange "B1:A1".toList).startCol,
          (ParseRange "B1:A1".toList).startRow, none⟩ ∧
        ParseRange c2 = ⟨(ParseRange "B1:A1".toList).endCol,
          (ParseRange "B1:A1".toList).endRow, (ParseRange "B1:A1".toList).endCol,
          (ParseRange "B1:A1".toList).endRow, none⟩) :=
  ⟨by decide, by decide, by decide,
    ParseRange_corners_as_written "B1:A1".toList (by decide)⟩

/-- C17, as stated, fails: `A0`, `XFE1` and `A1048577` are texts of the grammar on
which `ParseRange` returns an error. -/
theorem ParseRange_rejects_out_of_bounds :
    (MatchesRangeGrammar "A0".toList ∧ (ParseRange "A0".toList).err ≠ none) ∧
    (MatchesRangeGrammar "XFE1".toList ∧ (ParseRange "XFE1".toList).err ≠ none) ∧
    (MatchesRangeGrammar "A1048577".toList ∧ (ParseRange "A1048577".toList).err ≠ none) :=
  ⟨⟨grammar_of_rangeRegexpFind _ "A0".toList [] (by decide), by decide⟩,
    ⟨grammar_of_rangeRegexpFind _ "XFE1".toList [] (by decide), by decide⟩,
    ⟨grammar_of_rangeRegexpFind _ "A1048577".toList [] (by decide), by decide⟩⟩

/-- C17, amended: on a text of the grammar (one cell, or two cells joined by `:`) in
which every cell has a column value of at most 16384 and a row value in 1..1048576,
`ParseRange` returns no error. -/
theorem ParseRange_grammar_in_bounds_ok (a1 a2 b1 b2 : Bool) (l1 g1 l2 g2 : GoString)
    (hl1 : IsLetters l1) (hg1 : IsDigits g1) (hl2 : IsLetters l2) (hg2 : IsDigits g2)
    (h1 : CellInSheet l1 g1) (h2 : CellInSheet l2 g2) :
    (ParseRange (cellText a1 l1 a2 g1)).err = none ∧
    (ParseRange (cellText a1 l1 a2 g1 ++ ':' :: cellText b1 l2 b2 g2)).err = none :=
  ⟨(ParseRange_cell_ok_iff a1 a2 l1 g1 hl1 hg1).mpr (wrap64_of_CellInSheet l1 g1 h1),
    (ParseRange_cells_ok_iff a1 a2 b1 b2 l1 g1 l2 g2 hl1 hg1 hl2 hg2).mpr
      ⟨wrap64_of_CellInSheet l1 g1 h1, wrap64_of_CellInSheet l2 g2 h2⟩⟩

/-- Witness of the amended C17 at the cells `$C$10` and `XFD1048576`, the last cell of
a sheet: the cell `$C$10` and the range `$C$10:XFD1048576` parse without error. -/
theorem ParseRange_grammar_in_bounds_ok_witness :
    CellInSheet ['C'] ['1', '0'] ∧
    CellInSheet ['X', 'F', 'D'] ['1', '0', '4', '8', '5', '7', '6'] ∧
    cellText true ['C'] true ['1', '0'] ++
      ':' :: cellText false ['X', 'F', 'D'] false ['1', '0', '4', '8', '5', '7', '6'] =
      "$C$10:XFD1048576".toList ∧
    (ParseRange (cellText true ['C'] true ['1', '0'])).err = none ∧
    (ParseRange (cellText true ['C'] true ['1', '0'] ++
      ':' :: cellText false ['X', 'F', 'D'] false ['1', '0', '4', '8', '5', '7', '6'])).err
      = none :=
  ⟨by decide, by decide, by decide,
    ParseRange_grammar_in_bounds_ok true true false false ['C'] ['1', '0'] ['X', 'F', 'D']
      ['1', '0', '4', '8', '5', '7', '6'] (by decide) (by decide) (by decide) (by decide)
      (by decide) (by decide)⟩

/-! ## Print-area paging: lemmas -/

theorem cellOf_ok (col row : Int) (h : InSheet col row) :
    CoordinatesToCellName col row = .ok (cellOf col row) := by
  obtain ⟨l, g, _, _, hn, _, _⟩ := CoordinatesToCellName_ok col row h.1 h.2.1 h.2.2.1 h.2.2.2
  unfold cellOf
  rw [hn]

theorem ParseRange_pageText (sc ec s e : Int) (h1 : InSheet sc s) (h2 : InSheet ec e) :
    ParseRange (pageText sc ec s e) = ⟨sc, s, ec, e, none⟩ :=
  ParseRange_of_cell_names sc s ec e _ _ h1 h2 (cellOf_ok sc s h1) (cellOf_ok ec e h2)

theorem rangesFromBreaksLoop_eq (sc sr ec er : Int) (hsc : 1 ≤ sc ∧ sc ≤ MaxColumns)
    (hec : 1 ≤ ec ∧ ec ≤ MaxColumns) (hsr : 1 ≤ sr) (her : er ≤ TotalRows) :
    ∀ (breaks : List Int) (cur : Int) (acc : List GoString), sr ≤ cur → cur ≤ er →
      rangesFromBreaksLoop sc sr ec er breaks cur acc =
        acc ++ breakPages sc ec er cur (validBreaks sr er breaks) := by
  have hT : TotalRows = 1048576 := rfl
  intro breaks
  induction breaks with
  | nil =>
    intro cur acc h1 h2
    unfold rangesFromBreaksLoop
    rw [if_pos h2, cellOf_ok sc cur ⟨hsc.1, hsc.2, by omega, by omega⟩,
      cellOf_ok ec er ⟨hec.1, hec.2, by omega, by omega⟩]
    rfl
  | cons b rest ih =>
    intro cur acc h1 h2
    unfold rangesFromBreaksLoop
    by_cases hskip : b ≤ sr ∨ b > er
    · rw [if_pos hskip, ih cur acc h1 h2]
      have : validBreaks sr er (b :: rest) = validBreaks sr er rest := by
        unfold validBreaks
        rw [List.filter_cons_of_neg]
        simp only [decide_eq_true_eq]
        omega
      rw [this]
    · rw [if_neg hskip]
      have hb : sr < b ∧ b ≤ er := by omega
      have hsub : goSub b 1 = b - 1 := by
        unfold goSub
        exact wrap64_of_range _ (by omega) (by omega)
      rw [hsub, cellOf_ok sc cur ⟨hsc.1, hsc.2, by omega, by omega⟩,
        cellOf_ok ec (b - 1) ⟨hec.1, hec.2, by omega, by omega⟩]
      simp only []
      rw [ih b _ (by omega) hb.2]
      have : validBreaks sr er (b :: rest) = b :: validBreaks sr er rest := by
        unfold validBreaks
        rw [List.filter_cons_of_pos]
        simp only [decide_eq_true_eq]
        exact hb
      rw [this]
      simp [breakPages, pageText]

theorem rangesFromBreaksLoop_col_lt_one (sc sr ec er : Int) (h : sc < 1 ∨ ec < 1) :
    ∀ (breaks : List Int) (cur : Int) (acc : List GoString),
      rangesFromBreaksLoop sc sr ec er breaks cur acc = acc := by
  intro breaks
  induction breaks with
  | nil =>
    intro cur acc
    unfold rangesFromBreaksLoop
    by_cases hcur : cur ≤ er
    · rw [if_pos hcur]
      by_cases hsc : sc < 1
      · rw [CoordinatesToCellName_col_lt_one sc cur hsc]
      · have hec : ec < 1 := h.resolve_left hsc
        cases CoordinatesToCellName sc cur with
        | error e => rfl
        | ok a =>
          simp only []
          rw [CoordinatesToCellName_col_lt_one ec er hec]
    · rw [if_neg hcur]
  | cons b rest ih =>
    intro cur acc
    unfold rangesFromBreaksLoop
    by_cases hskip : b ≤ sr ∨ b > er
    · rw [if_pos hskip, ih cur acc]
    · rw [if_neg hskip]
      by_cases hsc : sc < 1
      · rw [CoordinatesToCellName_col_lt_one sc cur hsc]
      · have hec : ec < 1 := h.resolve_left hsc
        cases CoordinatesToCellName sc cur with
        | error e => rfl
        | ok a =>
          simp only []
          rw [CoordinatesToCellName_col_lt_one ec _ hec]

/-- With a start or end column below 1 `calculateRangesFromBreaks` returns no page. -/
theorem calculateRangesFromBreaks_col_lt_one (printArea : GoString) (breaks : List Int)
    (sc sr ec er : Int) (hparse : ParseRange printArea = ⟨sc, sr, ec, er, none⟩)
    (h : sc < 1 ∨ ec < 1) :
    calculateRangesFromBreaks printArea breaks = [] := by
  unfold calculateRangesFromBreaks
  by_cases hne : printArea = []
  · rw [if_pos hne]
  · rw [if_neg hne]
    simp only [hparse]
    by_cases hb : breaks.length = 0
    · rw [if_pos hb]
      by_cases hsc : sc < 1
      · rw [CoordinatesToCellName_col_lt_one sc sr hsc]
      · have hec : ec < 1 := h.resolve_left hsc
        cases CoordinatesToCellName sc sr with
        | error e => rfl
        | ok a =>
          simp only []
          rw [CoordinatesToCellName_col_lt_one ec er hec]
    · rw [if_neg hb, rangesFromBreaksLoop_col_lt_one sc sr ec er h]

theorem calculateRangesFromBreaks_eq (printArea : GoString) (breaks : List Int)
    (sc sr ec er : Int) (hparse : ParseRange printArea = ⟨sc, sr, ec, er, none⟩)
    (hsc0 : 1 ≤ sc) (hec0 : 1 ≤ ec) (hrow : sr ≤ er) :
    calculateRangesFromBreaks printArea breaks =
      breakPages sc ec er sr (validBreaks sr er breaks) := by
  have herr : (ParseRange printArea).err = none := by rw [hparse]
  obtain ⟨hs1, hs2⟩ := ParseRange_ok_inSheet printArea herr (by rw [hparse]; exact hsc0)
    (by rw [hparse]; exact hec0)
  rw [hparse] at hs1 hs2
  simp only [] at hs1 hs2
  have hne : printArea ≠ [] := by
    intro h
    rw [h] at herr
    revert herr
    decide
  unfold calculateRangesFromBreaks
  rw [if_neg hne]
  simp only [hparse]
  cases breaks with
  | nil =>
    simp only [List.length_nil, if_true, cellOf_ok sc sr hs1, cellOf_ok ec er hs2]
    rfl
  | cons b rest =>
    rw [if_neg (by simp)]
    rw [rangesFromBreaksLoop_eq sc sr ec er ⟨hs1.1, hs1.2.1⟩ ⟨hs2.1, hs2.2.1⟩ hs1.2.2.1
      hs2.2.2.2 (b :: rest) sr [] (le_refl _) hrow]
    rfl

theorem calculateRangesFromBreaks_unparsable (printArea : GoString) (breaks : List Int)
    (h : (ParseRange printArea).err ≠ none) :
    calculateRangesFromBreaks printArea breaks = [] := by
  unfold calculateRangesFromBreaks
  by_cases hne : printArea = []
  · rw [if_pos hne]
  · rw [if_neg hne]
    cases he : (ParseRange printArea).err with
    | none => exact absurd he h
    | some e => simp only [he]

theorem breakPages_length (sc ec er : Int) :
    ∀ (vs : List Int) (cur : Int), (breakPages sc ec er cur vs).length = vs.length + 1 := by
  intro vs
  induction vs with
  | nil => intro cur; rfl
  | cons b rest ih => intro cur; simp [breakPages, ih]

theorem validBreaks_mem (sr er : Int) (breaks : List Int) (b : Int)
    (h : b ∈ validBreaks sr er breaks) : sr < b ∧ b ≤ er := by
  unfold validBreaks at h
  simpa using (List.mem_filter.mp h).2

theorem breakPages_rows (sc ec er : Int) (hsc : 1 ≤ sc ∧ sc ≤ MaxColumns)
    (hec : 1 ≤ ec ∧ ec ≤ MaxColumns) (her : er ≤ TotalRows) :
    ∀ (vs : List Int) (cur : Int), 1 ≤ cur → cur ≤ er → vs.Pairwise (· < ·) →
      (∀ b ∈ vs, cur < b ∧ b ≤ er) →
      (∀ p ∈ breakPages sc ec er cur vs, (ParseRange p).err = none ∧
        cur ≤ (ParseRange p).startRow ∧ (ParseRange p).startRow ≤ (ParseRange p).endRow) ∧
      ((breakPages sc ec er cur vs).map (fun p => (ParseRange p).startRow)).Pairwise
        (· < ·) := by
  have hT : TotalRows = 1048576 := rfl
  intro vs
  induction vs with
  | nil =>
    intro cur h1 h2 _ _
    have hp := ParseRange_pageText sc ec cur er ⟨hsc.1, hsc.2, by omega, by omega⟩
      ⟨hec.1, hec.2, by omega, by omega⟩
    constructor
    · intro p hp'
      simp only [breakPages, List.mem_singleton] at hp'
      subst hp'
      rw [hp]
      exact ⟨rfl, le_refl _, h2⟩
    · simp [breakPages]
  | cons b rest ih =>
    intro cur h1 h2 hsorted hmem
    obtain ⟨hb1, hb2⟩ := hmem b (List.mem_cons_self _ _)
    have hp := ParseRange_pageText sc ec cur (b - 1) ⟨hsc.1, hsc.2, by omega, by omega⟩
      ⟨hec.1, hec.2, by omega, by omega⟩
    rw [List.pairwise_cons] at hsorted
    obtain ⟨ihp, ihs⟩ := ih b (by omega) hb2 hsorted.2
      (fun b' hb' => ⟨hsorted.1 b' hb', (hmem b' (List.mem_cons_of_mem _ hb')).2⟩)
    constructor
    · intro p hp'
      simp only [breakPages, List.mem_cons] at hp'
      rcases hp' with hp' | hp'
      · subst hp'
        rw [hp]
        exact ⟨rfl, le_refl _, by show cur ≤ b - 1; omega⟩
      · obtain ⟨q1, q2, q3⟩ := ihp p hp'
        exact ⟨q1, by omega, q3⟩
    · simp only [breakPages, List.map_cons, List.pairwise_cons]
      refine ⟨?_, ihs⟩
      intro r hr
      obtain ⟨p, hp', hpr⟩ := List.mem_map.mp hr
      obtain ⟨_, q2, _⟩ := ihp p hp'
      rw [hp]
      show cur < r
      omega

/-- The pages of `calculateRangesFromBreaks` within the sheet: for a print area that
parses to a well-formed range `(sc, sr, ec, er)` with `1 ≤ sc` and a strictly
increasing list of break rows, `calculateRangesFromBreaks` returns, for the breaks
`b1 < ... < bm` with `sr < b ≤ er` (the others are ignored), exactly the `m + 1` pages
`sr..b1-1`, `b1..b2-1`, ..., `bm..er` over the columns `sc..ec`; with no valid break
the single page is the whole print area; and an empty or unparsable print area gives
the empty list. -/
theorem calculateRangesFromBreaks_pages (printArea : GoString) (breaks : List Int)
    (sc sr ec er : Int) (hparse : ParseRange printArea = ⟨sc, sr, ec, er, none⟩)
    (hsc0 : 1 ≤ sc) (hcol : sc ≤ ec) (hrow : sr ≤ er)
    (hsorted : breaks.Pairwise (· < ·)) :
    calculateRangesFromBreaks printArea breaks =
      breakPages sc ec er sr (validBreaks sr er breaks) ∧
    (validBreaks sr er breaks).Pairwise (· < ·) ∧
    (∀ b, b ∈ validBreaks sr er breaks ↔ b ∈ breaks ∧ sr < b ∧ b ≤ er) ∧
    (calculateRangesFromBreaks printArea breaks).length =
      (validBreaks sr er breaks).length + 1 ∧
    (validBreaks sr er breaks = [] →
      calculateRangesFromBreaks printArea breaks = [pageText sc ec sr er] ∧
      ParseRange (pageText sc ec sr er) = ParseRange printArea) ∧
    (∀ area : GoString, area = [] ∨ (ParseRange area).err ≠ none →
      calculateRangesFromBreaks area breaks = []) := by
  have heq := calculateRangesFromBreaks_eq printArea breaks sc sr ec er hparse hsc0
    (le_trans hsc0 hcol) hrow
  have herr : (ParseRange printArea).err = none := by rw [hparse]
  obtain ⟨hs1, hs2⟩ := ParseRange_ok_inSheet printArea herr (by rw [hparse]; exact hsc0)
    (by rw [hparse]; exact le_trans hsc0 hcol)
  rw [hparse] at hs1 hs2
  simp only [] at hs1 hs2
  refine ⟨heq, ?_, ?_, ?_, ?_, ?_⟩
  · exact hsorted.filter _
  · intro b
    unfold validBreaks
    simp [List.mem_filter]
  · rw [heq, breakPages_length]
  · intro hnil
    rw [heq, hnil, hparse]
    exact ⟨rfl, ParseRange_pageText sc ec sr er hs1 hs2⟩
  · intro area harea
    rcases harea with h | h
    · subst h; rfl
    · exact calculateRangesFromBreaks_unparsable area breaks h

/-- The pages at the print area `A1:C10` with the breaks 0, 1, 4, 8, 10, 11, of which
4, 8 and 10 are valid: `A1:C3`, `A4:C7`, `A8:C9`, `A10:C10`. -/
theorem calculateRangesFromBreaks_pages_examples :
    calculateRangesFromBreaks "A1:C10".toList [0, 1, 4, 8, 10, 11] =
      ["A1:C3".toList, "A4:C7".toList, "A8:C9".toList, "A10:C10".toList] ∧
    validBreaks 1 10 [0, 1, 4, 8, 10, 11] = [4, 8, 10] ∧
    calculateRangesFromBreaks "A1:C10".toList [0, 1, 4, 8, 10, 11] =
      breakPages 1 3 10 1 (validBreaks 1 10 [0, 1, 4, 8, 10, 11]) :=
  ⟨by decide, by decide,
    (calculateRangesFromBreaks_pages "A1:C10".toList [0, 1, 4, 8, 10, 11] 1 1 3 10
      (by decide) (by decide) (by decide) (by decide) (by decide)).1⟩

/-- C15, as stated, fails: with the print area `A1:C10` and the breaks 5, 3 (not in
ascending order) the pages are `A1:C4`, `A5:C2`, `A3:C10`; the second page starts at
row 5 and ends at row 2, and the start rows 1, 5, 3 do not increase. Repeated breaks
5, 5 give the page `A5:C4`. -/
theorem calculateRangesFromBreaks_unordered_breaks :
    calculateRangesFromBreaks "A1:C10".toList [5, 3] =
      ["A1:C4".toList, "A5:C2".toList, "A3:C10".toList] ∧
    ParseRange "A5:C2".toList = ⟨1, 5, 3, 2, none⟩ ∧ ¬ ((5 : Int) ≤ 2) ∧
    ParseRange "A3:C10".toList = ⟨1, 3, 3, 10, none⟩ ∧ ¬ ((5 : Int) < 3) ∧
    calculateRangesFromBreaks "A1:C10".toList [5, 5] =
      ["A1:C4".toList, "A5:C4".toList, "A5:C10".toList] := by
  decide

/-- C15, amended: for a print area that parses to a well-formed range and a strictly
increasing list of break rows, every page returned by `calculateRangesFromBreaks`
parses to a range with start row at most its end row, and the start rows of the pages
strictly increase along the list. -/
theorem calculateRangesFromBreaks_ascending (printArea : GoString) (breaks : List Int)
    (sc sr ec er : Int) (hparse : ParseRange printArea = ⟨sc, sr, ec, er, none⟩)
    (hcol : sc ≤ ec) (hrow : sr ≤ er) (hsorted : breaks.Pairwise (· < ·)) :
    (∀ p ∈ calculateRangesFromBreaks printArea breaks, (ParseRange p).err = none ∧
      (ParseRange p).startRow ≤ (ParseRange p).endRow) ∧
    ((calculateRangesFromBreaks printArea breaks).map
      (fun p => (ParseRange p).startRow)).Pairwise (· < ·) := by
  have herr : (ParseRange printArea).err = none := by rw [hparse]
  by_cases hsc0 : sc < 1
  · rw [calculateRangesFromBreaks_col_lt_one printArea breaks sc sr ec er hparse
      (Or.inl hsc0)]
    exact ⟨fun p hp => absurd hp (List.not_mem_nil p), List.Pairwise.nil⟩
  have hsc1 : 1 ≤ sc := by omega
  obtain ⟨hs1, hs2⟩ := ParseRange_ok_inSheet printArea herr (by rw [hparse]; exact hsc1)
    (by rw [hparse]; exact le_trans hsc1 hcol)
  rw [hparse] at hs1 hs2
  simp only [] at hs1 hs2
  rw [calculateRangesFromBreaks_eq printArea breaks sc sr ec er hparse hsc1
    (le_trans hsc1 hcol) hrow]
  obtain ⟨h1, h2⟩ := breakPages_rows sc ec er ⟨hs1.1, hs1.2.1⟩ ⟨hs2.1, hs2.2.1⟩ hs2.2.2.2
    (validBreaks sr er breaks) sr hs1.2.2.1 hrow (hsorted.filter _)
    (fun b hb => validBreaks_mem sr er breaks b hb)
  exact ⟨fun p hp => ⟨(h1 p hp).1, (h1 p hp).2.2⟩, h2⟩

/-- Witness of the amended C15 at the print area `A1:C10` with the breaks 4, 8. -/
theorem calculateRangesFromBreaks_ascending_witness :
    calculateRangesFromBreaks "A1:C10".toList [4, 8] =
      ["A1:C3".toList, "A4:C7".toList, "A8:C10".toList] ∧
    ((calculateRangesFromBreaks "A1:C10".toList [4, 8]).map
      (fun p => (ParseRange p).startRow)).Pairwise (· < ·) :=
  ⟨by decide,
    (calculateRangesFromBreaks_ascending "A1:C10".toList [4, 8] 1 1 3 10 (by decide)
      (by decide) (by decide) (by decide)).2⟩

/-! ## Style tables -/

theorem mapGet_none_of_keys {ν : Type} (k : Int) (table : List (Int × ν))
    (h : ∀ kv ∈ table, kv.1 ≠ k) : mapGet k table = none := by
  induction table with
  | nil => rfl
  | cons kv rest ih =>
    obtain ⟨k1, v⟩ := kv
    unfold mapGet
    have hk : k ≠ k1 := fun e => h (k1, v) (List.mem_cons_self _ _) e.symm
    rw [if_neg hk]
    exact ih (fun kv hkv => h kv (List.mem_cons_of_mem _ hkv))

/-- C18: every value of `BorderStyleValues`, `FillPatternValues` and
`FillShadingValues` has an explicit entry in the name-to-code table, and the
code-to-name function maps its code back to it. -/
theorem style_tables_round_trip :
    (∀ s ∈ BorderStyleValues, (mapGet s borderStyleNameToIntStyles).isSome = true ∧
      intToBorderStyleName (borderStyleNameToInt s) = s) ∧
    (∀ p ∈ FillPatternValues, (mapGet p fillPatternNameToIntPatterns).isSome = true ∧
      intToFillPatternName (fillPatternNameToInt p) = p) ∧
    (∀ h ∈ FillShadingValues, (mapGet h fillShadingNameToIntShadings).isSome = true ∧
      intToFillShadingName (fillShadingNameToInt h) = h) := by
  decide

/-- C19: a native code without a table entry falls back to the default name: border
codes outside 0..13 give `continuous`, fill pattern codes outside 0..18 give `none`,
fill shading codes outside 0..5 give `horizontal`. -/
theorem style_codes_fallback :
    (∀ n : Int, n < 0 ∨ 13 < n → intToBorderStyleName n = "continuous".toList) ∧
    (∀ n : Int, n < 0 ∨ 18 < n → intToFillPatternName n = "none".toList) ∧
    (∀ n : Int, n < 0 ∨ 5 < n → intToFillShadingName n = "horizontal".toList) := by
  refine ⟨?_, ?_, ?_⟩
  · intro n hn
    unfold intToBorderStyleName
    rw [mapGet_none_of_keys n _ (by
      intro kv hkv
      simp only [intToBorderStyleNameStyles, List.mem_cons, List.mem_singleton,
        List.not_mem_nil, or_false] at hkv
      rcases hkv with h | h | h | h | h | h | h | h | h | h | h | h | h | h <;>
        (subst h; show _ ≠ n; omega))]
    rfl
  · intro n hn
    unfold intToFillPatternName
    rw [mapGet_none_of_keys n _ (by
      intro kv hkv
      simp only [intToFillPatternNamePatterns, List.mem_cons, List.mem_singleton,
        List.not_mem_nil, or_false] at hkv
      rcases hkv with h | h | h | h | h | h | h | h | h | h | h | h | h | h | h | h | h | h | h <;>
        (subst h; show _ ≠ n; omega))]
    rfl
  · intro n hn
    unfold intToFillShadingName
    rw [mapGet_none_of_keys n _ (by
      intro kv hkv
      simp only [intToFillShadingNameShadings, List.mem_cons, List.mem_singleton,
        List.not_mem_nil, or_false] at hkv
      rcases hkv with h | h | h | h | h | h <;>
        (subst h; show _ ≠ n; omega))]
    rfl

/-- C20: the neutral style whose only set attribute is `Font.Bold = true`, converted
to the native style and back, has `Font.Bold` present and true and every other
attribute absent. -/
theorem style_bold_round_trip :
    convertExcelizeStyleToCellStyle (convertCellStyleToExcelizeStyle
      { Border := [], Font := some ⟨some true, none, none, none, none, none, none⟩,
        Fill := none, NumFmt := none, DecimalPlaces := none }) =
      { Border := [], Font := some ⟨some true, none, none, none, none, none, none⟩,
        Fill := none, NumFmt := none, DecimalPlaces := none } := by
  decide

/-! ## Style conversion: absence and colours -/

theorem borderRoundTrip_eq (b : Border) :
    borderFromExcelize (borderToExcelize b) =
      { Type_ := b.Type_
        Color := if b.Color ≠ [] then
            (if trimPrefixHash b.Color ≠ [] then '#' :: stringsToUpper (trimPrefixHash b.Color)
              else [])
          else []
        Style := if borderStyleNameToInt b.Style ≠ 0 then
            intToBorderStyleName (borderStyleNameToInt b.Style) else [] } := by
  unfold borderFromExcelize borderToExcelize
  by_cases h : b.Color = []
  · simp [h]
  · simp [h]

theorem styleRoundTrip_border (s : CellStyle) :
    (styleRoundTrip s).Border =
      s.Border.map (fun b => borderFromExcelize (borderToExcelize b)) := by
  unfold styleRoundTrip convertExcelizeStyleToCellStyle convertCellStyleToExcelizeStyle
  cases hb : s.Border with
  | nil => simp
  | cons b rest => simp

theorem styleRoundTrip_font (s : CellStyle) :
    (styleRoundTrip s).Font =
      match s.Font with
      | none => none
      | some f =>
        if (fontFromExcelize (fontToExcelize f)).Bold ≠ none ∨
            (fontFromExcelize (fontToExcelize f)).Italic ≠ none ∨
            (fontFromExcelize (fontToExcelize f)).Underline ≠ none ∨
            (fontFromExcelize (fontToExcelize f)).Size ≠ none ∨
            (fontFromExcelize (fontToExcelize f)).Strike ≠ none ∨
            (fontFromExcelize (fontToExcelize f)).Color ≠ none ∨
            (fontFromExcelize (fontToExcelize f)).VertAlign ≠ none then
          some (fontFromExcelize (fontToExcelize f))
        else none := by
  unfold styleRoundTrip convertExcelizeStyleToCellStyle convertCellStyleToExcelizeStyle
  cases s.Font with
  | none => rfl
  | some f => rfl

theorem fontRoundTrip_absent (f : FontStyle) :
    (f.Bold = none → (fontFromExcelize (fontToExcelize f)).Bold = none) ∧
    (f.Italic = none → (fontFromExcelize (fontToExcelize f)).Italic = none) ∧
    (f.Underline = none → (fontFromExcelize (fontToExcelize f)).Underline = none) ∧
    (f.Size = none → (fontFromExcelize (fontToExcelize f)).Size = none) ∧
    (f.Strike = none → (fontFromExcelize (fontToExcelize f)).Strike = none) ∧
    (f.Color = none → (fontFromExcelize (fontToExcelize f)).Color = none) ∧
    (f.VertAlign = none → (fontFromExcelize (fontToExcelize f)).VertAlign = none) := by
  unfold fontFromExcelize fontToExcelize
  refine ⟨?_, ?_, ?_, ?_, ?_, ?_, ?_⟩ <;> intro h <;> simp [h]

theorem styleRoundTrip_fill_none (s : CellStyle) (h : s.Fill = none) :
    (styleRoundTrip s).Fill = none := by
  unfold styleRoundTrip convertExcelizeStyleToCellStyle convertCellStyleToExcelizeStyle
  simp [h]

theorem styleRoundTrip_fill_some (s : CellStyle) (fl fl' : FillStyle) (h : s.Fill = some fl)
    (h' : (styleRoundTrip s).Fill = some fl') :
    fl' = fillFromExcelize (fillToExcelize fl) := by
  unfold styleRoundTrip convertExcelizeStyleToCellStyle convertCellStyleToExcelizeStyle at h'
  simp only [h] at h'
  split at h'
  · split at h'
    · injection h' with h'
      exact h'.symm
    · exact Option.noConfusion h'
  · exact Option.noConfusion h'

theorem fillRoundTrip_absent (fl : FillStyle) :
    (fl.Type_ = [] → (fillFromExcelize (fillToExcelize fl)).Type_ = []) ∧
    (fl.Pattern = [] → (fillFromExcelize (fillToExcelize fl)).Pattern = []) ∧
    (fl.Color = [] → (fillFromExcelize (fillToExcelize fl)).Color = []) ∧
    (fl.Shading = none → (fillFromExcelize (fillToExcelize fl)).Shading = none) := by
  unfold fillFromExcelize fillToExcelize
  refine ⟨?_, ?_, ?_, ?_⟩
  · intro h; simp [h]
  · intro h
    have : fillPatternNameToInt [] = 0 := by decide
    simp [h, this]
  · intro h; simp [h]
  · intro h; simp [h]

theorem styleRoundTrip_numFmt (s : CellStyle) (h : s.NumFmt = none) :
    (styleRoundTrip s).NumFmt = none := by
  unfold styleRoundTrip convertExcelizeStyleToCellStyle convertCellStyleToExcelizeStyle
  simp [h]

theorem styleRoundTrip_decimalPlaces (s : CellStyle) (h : s.DecimalPlaces = none) :
    (styleRoundTrip s).DecimalPlaces = none := by
  unfold styleRoundTrip convertExcelizeStyleToCellStyle convertCellStyleToExcelizeStyle
  simp [h]

theorem toUpper_of_upperHex (c : Char) (h : isUpperHexDigit c = true) : c.toUpper = c := by
  unfold isUpperHexDigit isDigit09 at h
  simp only [Bool.or_eq_true, Bool.and_eq_true, decide_eq_true_eq] at h
  unfold Char.toUpper
  simp only []
  rw [if_neg (by omega)]

theorem toUpper_of_hex (c : Char) (h : isHexDigit c = true) :
    isUpperHexDigit c.toUpper = true := by
  unfold isHexDigit isDigit09 at h
  simp only [Bool.or_eq_true, Bool.and_eq_true, decide_eq_true_eq] at h
  by_cases hl : 97 ≤ c.toNat ∧ c.toNat ≤ 102
  · have e : c.toUpper = Char.ofNat (c.toNat - 32) := by
      unfold Char.toUpper
      simp only []
      rw [if_pos (by omega)]
    have hn := toNat_ofNat_small (c.toNat - 32) (by omega)
    rw [e]
    unfold isUpperHexDigit isDigit09
    rw [hn]
    simp only [Bool.or_eq_true, Bool.and_eq_true, decide_eq_true_eq]
    omega
  · have hu : isUpperHexDigit c = true := by
      unfold isUpperHexDigit isDigit09
      simp only [Bool.or_eq_true, Bool.and_eq_true, decide_eq_true_eq]
      omega
    rw [toUpper_of_upperHex c hu]
    exact hu

theorem stringsToUpper_of_upperHex (h : GoString) (hu : ∀ c ∈ h, isUpperHexDigit c = true) :
    stringsToUpper h = h := by
  unfold stringsToUpper
  induction h with
  | nil => rfl
  | cons c rest ih =>
    rw [List.map_cons, toUpper_of_upperHex c (hu c (List.mem_cons_self _ _)),
      ih (fun x hx => hu x (List.mem_cons_of_mem _ hx))]

theorem stringsToUpper_hex (h : GoString) (hh : ∀ c ∈ h, isHexDigit c = true) :
    ∀ c ∈ stringsToUpper h, isUpperHexDigit c = true := by
  intro c hc
  unfold stringsToUpper at hc
  obtain ⟨x, hx, rfl⟩ := List.mem_map.mp hc
  exact toUpper_of_hex x (hh x hx)

theorem convert_border (s : CellStyle) :
    (convertCellStyleToExcelizeStyle s).Border = s.Border.map borderToExcelize := by
  unfold convertCellStyleToExcelizeStyle
  cases s.Border with
  | nil => simp
  | cons b rest => simp

theorem convertBack_border (x : ExcelizeStyle) :
    (convertExcelizeStyleToCellStyle x).Border = x.Border.map borderFromExcelize := by
  unfold convertExcelizeStyleToCellStyle
  cases x.Border with
  | nil => simp
  | cons b rest => simp

theorem convert_fill_color (s : CellStyle) (fl : FillStyle) (h : s.Fill = some fl) :
    (convertCellStyleToExcelizeStyle s).Fill.Color = fl.Color.map trimPrefixHash := by
  unfold convertCellStyleToExcelizeStyle fillToExcelize
  simp only [h]
  cases fl.Color with
  | nil => simp
  | cons c rest => simp

theorem convertBack_font_color (x : ExcelizeStyle) (nf : ExcelizeFont) (h : x.Font = some nf)
    (hc : nf.Color ≠ []) :
    ∃ f, (convertExcelizeStyleToCellStyle x).Font = some f ∧
      f.Color = some ('#' :: stringsToUpper nf.Color) := by
  refine ⟨fontFromExcelize nf, ?_, ?_⟩
  · unfold convertExcelizeStyleToCellStyle
    simp only [h]
    rw [if_pos]
    right; right; right; right; right; left
    unfold fontFromExcelize
    simp [hc]
  · unfold fontFromExcelize
    simp [hc]

theorem convertBack_fill_color (x : ExcelizeStyle) (h : ∃ c ∈ x.Fill.Color, c ≠ []) :
    ∃ fl, (convertExcelizeStyleToCellStyle x).Fill = some fl ∧
      fl.Color = (x.Fill.Color.filter (fun c => decide (c ≠ []))).map
        (fun c => '#' :: stringsToUpper c) := by
  obtain ⟨c, hc, hne⟩ := h
  have hlen : x.Fill.Color.length > 0 := List.length_pos_of_mem hc
  have hcol : (fillFromExcelize x.Fill).Color =
      (x.Fill.Color.filter (fun c => decide (c ≠ []))).map
        (fun c => '#' :: stringsToUpper c) := by
    unfold fillFromExcelize
    simp only [if_pos hlen]
  have hpos : (fillFromExcelize x.Fill).Color.length > 0 := by
    rw [hcol, List.length_map]
    exact List.length_pos_of_mem (List.mem_filter.mpr ⟨hc, by simpa using hne⟩)
  refine ⟨fillFromExcelize x.Fill, ?_, hcol⟩
  unfold convertExcelizeStyleToCellStyle
  simp only []
  rw [if_pos (Or.inr (Or.inr hlen)), if_pos (Or.inr (Or.inr (Or.inl hpos)))]

theorem convert_border_color (s : CellStyle) (i : Nat) (b : Border) (h : GoString)
    (hb : s.Border[i]? = some b) (hc : b.Color = '#' :: h) :
    ∃ nb, (convertCellStyleToExcelizeStyle s).Border[i]? = some nb ∧ nb.Color = h := by
  refine ⟨borderToExcelize b, ?_, ?_⟩
  · rw [convert_border, List.getElem?_map, hb]; rfl
  · unfold borderToExcelize
    simp [hc, trimPrefixHash]

theorem convert_font_color (s : CellStyle) (f : FontStyle) (h : GoString)
    (hf : s.Font = some f) (hc : f.Color = some ('#' :: h)) :
    ∃ nf, (convertCellStyleToExcelizeStyle s).Font = some nf ∧ nf.Color = h := by
  refine ⟨fontToExcelize f, ?_, ?_⟩
  · unfold convertCellStyleToExcelizeStyle
    simp only [hf]
  · unfold fontToExcelize
    simp [hc, trimPrefixHash]

theorem convertBack_border_color (x : ExcelizeStyle) (i : Nat) (nb : ExcelizeBorder)
    (hb : x.Border[i]? = some nb) (hc : nb.Color ≠ []) :
    ∃ b, (convertExcelizeStyleToCellStyle x).Border[i]? = some b ∧
      b.Color = '#' :: stringsToUpper nb.Color := by
  refine ⟨borderFromExcelize nb, ?_, ?_⟩
  · rw [convertBack_border, List.getElem?_map, hb]; rfl
  · unfold borderFromExcelize
    simp [hc]

theorem map_trim_hash (hs : List GoString) :
    (hs.map (fun h => '#' :: h)).map trimPrefixHash = hs := by
  induction hs with
  | nil => rfl
  | cons h rest ih =>
    simp only [List.map_cons, List.map_map] at ih ⊢
    rw [ih]
    simp [trimPrefixHash]

theorem filter_nonempty_self (hs : List GoString) (hne : ∀ h ∈ hs, h ≠ []) :
    hs.filter (fun c => decide (c ≠ [])) = hs := by
  rw [List.filter_eq_self]
  intro c hc
  simpa using hne c hc

/-- C21, as stated, fails: a border entry without a style comes back from the round
trip with the style `continuous`. -/
theorem styleRoundTrip_border_style_default :
    styleRoundTrip ⟨[⟨"left".toList, [], []⟩], none, none, none, none⟩ =
      ⟨[⟨"left".toList, "continuous".toList, []⟩], none, none, none, none⟩ ∧
    borderStyleNameToInt [] = 1 ∧ intToBorderStyleName 1 = "continuous".toList := by
  decide

/-- C21, amended: in the round trip of a neutral style through the native style, every
attribute that is absent in the original (nil pointer, empty string, empty list) is
absent in the result, except the `Style` of a border entry: an absent border style
comes back as `continuous`. The border list keeps its length, so an empty list stays
empty. -/
theorem styleRoundTrip_absent (s : CellStyle) :
    (s.Border = [] → (styleRoundTrip s).Border = []) ∧
    (styleRoundTrip s).Border.length = s.Border.length ∧
    (∀ (i : Nat) (b : Border), s.Border[i]? = some b → ∃ b', (styleRoundTrip s).Border[i]? = some b' ∧
      (b.Type_ = [] → b'.Type_ = []) ∧ (b.Color = [] → b'.Color = []) ∧
      (b.Style = [] → b'.Style = "continuous".toList)) ∧
    (s.Font = none → (styleRoundTrip s).Font = none) ∧
    (∀ f f', s.Font = some f → (styleRoundTrip s).Font = some f' →
      (f.Bold = none → f'.Bold = none) ∧ (f.Italic = none → f'.Italic = none) ∧
      (f.Underline = none → f'.Underline = none) ∧ (f.Size = none → f'.Size = none) ∧
      (f.Strike = none → f'.Strike = none) ∧ (f.Color = none → f'.Color = none) ∧
      (f.VertAlign = none → f'.VertAlign = none)) ∧
    (s.Fill = none → (styleRoundTrip s).Fill = none) ∧
    (∀ fl fl', s.Fill = some fl → (styleRoundTrip s).Fill = some fl' →
      (fl.Type_ = [] → fl'.Type_ = []) ∧ (fl.Pattern = [] → fl'.Pattern = []) ∧
      (fl.Color = [] → fl'.Color = []) ∧ (fl.Shading = none → fl'.Shading = none)) ∧
    (s.NumFmt = none → (styleRoundTrip s).NumFmt = none) ∧
    (s.DecimalPlaces = none → (styleRoundTrip s).DecimalPlaces = none) := by
  refine ⟨?_, ?_, ?_, ?_, ?_, styleRoundTrip_fill_none s, ?_, styleRoundTrip_numFmt s,
    styleRoundTrip_decimalPlaces s⟩
  · intro h
    rw [styleRoundTrip_border, h]; rfl
  · rw [styleRoundTrip_border, List.length_map]
  · intro i b hb
    refine ⟨borderFromExcelize (borderToExcelize b), ?_, ?_, ?_, ?_⟩
    · rw [styleRoundTrip_border, List.getElem?_map, hb]; rfl
    · intro h; rw [borderRoundTrip_eq]; exact h
    · intro h; rw [borderRoundTrip_eq]; simp [h]
    · intro h
      rw [borderRoundTrip_eq, h]
      have e : (if borderStyleNameToInt [] ≠ 0 then
          intToBorderStyleName (borderStyleNameToInt []) else []) = "continuous".toList := by
        decide
      exact e
  · intro h
    rw [styleRoundTrip_font, h]
  · intro f f' hf hf'
    rw [styleRoundTrip_font, hf] at hf'
    simp only [] at hf'
    split at hf'
    · injection hf' with hf'
      rw [← hf']
      exact fontRoundTrip_absent f
    · exact Option.noConfusion hf'
  · intro fl fl' hfl hfl'
    rw [styleRoundTrip_fill_some s fl fl' hfl hfl']
    exact fillRoundTrip_absent fl

/-- C22: a neutral colour `#` followed by six hexadecimal digits `h`, in a border, the
font or the fill, is converted to the native colour `h`; every non-empty native colour
`c` is converted to `#` followed by `c` in upper case; in the round trip the colour
`#h` comes back as `#` followed by `h` in upper case, which is `#h` itself when `h` is
in upper case. -/
theorem style_colour_normalization (h : GoString) (hh : IsHexColor h) :
    (∀ (s : CellStyle) (i : Nat) (b : Border), s.Border[i]? = some b → b.Color = '#' :: h →
      ∃ nb, (convertCellStyleToExcelizeStyle s).Border[i]? = some nb ∧ nb.Color = h) ∧
    (∀ (s : CellStyle) (f : FontStyle), s.Font = some f → f.Color = some ('#' :: h) →
      ∃ nf, (convertCellStyleToExcelizeStyle s).Font = some nf ∧ nf.Color = h) ∧
    (∀ (s : CellStyle) (fl : FillStyle) (i : Nat), s.Fill = some fl → fl.Color[i]? = some ('#' :: h) →
      (convertCellStyleToExcelizeStyle s).Fill.Color[i]? = some h) ∧
    (∀ (x : ExcelizeStyle) (i : Nat) (nb : ExcelizeBorder), x.Border[i]? = some nb → nb.Color ≠ [] →
      ∃ b, (convertExcelizeStyleToCellStyle x).Border[i]? = some b ∧
        b.Color = '#' :: stringsToUpper nb.Color) ∧
    (∀ (x : ExcelizeStyle) (nf : ExcelizeFont), x.Font = some nf → nf.Color ≠ [] →
      ∃ f, (convertExcelizeStyleToCellStyle x).Font = some f ∧
        f.Color = some ('#' :: stringsToUpper nf.Color)) ∧
    (∀ x : ExcelizeStyle, (∃ c ∈ x.Fill.Color, c ≠ []) →
      ∃ fl, (convertExcelizeStyleToCellStyle x).Fill = some fl ∧
        fl.Color = (x.Fill.Color.filter (fun c => decide (c ≠ []))).map
          (fun c => '#' :: stringsToUpper c)) ∧
    (∀ (s : CellStyle) (i : Nat) (b : Border), s.Border[i]? = some b → b.Color = '#' :: h →
      ∃ b', (styleRoundTrip s).Border[i]? = some b' ∧ b'.Color = '#' :: stringsToUpper h) ∧
    (∀ (s : CellStyle) (f : FontStyle), s.Font = some f → f.Color = some ('#' :: h) →
      ∃ f', (styleRoundTrip s).Font = some f' ∧
        f'.Color = some ('#' :: stringsToUpper h)) ∧
    (∀ (s : CellStyle) (fl : FillStyle) (hs : List GoString), s.Fill = some fl → hs ≠ [] → (∀ c ∈ hs, IsHexColor c) →
      fl.Color = hs.map (fun c => '#' :: c) →
      ∃ fl', (styleRoundTrip s).Fill = some fl' ∧
        fl'.Color = hs.map (fun c => '#' :: stringsToUpper c)) ∧
    ((∀ c ∈ h, isUpperHexDigit c = true) → stringsToUpper h = h) ∧
    (∀ c ∈ stringsToUpper h, isUpperHexDigit c = true) := by
  have hne : h ≠ [] := by
    intro e
    have := hh.1
    rw [e] at this
    exact absurd this (by decide)
  refine ⟨fun s i b hb hc => convert_border_color s i b h hb hc,
    fun s f hf hc => convert_font_color s f h hf hc, ?_,
    fun x i nb hb hc => convertBack_border_color x i nb hb hc,
    fun x nf hf hc => convertBack_font_color x nf hf hc,
    fun x hx => convertBack_fill_color x hx, ?_, ?_, ?_,
    stringsToUpper_of_upperHex h, stringsToUpper_hex h hh.2⟩
  · intro s fl i hfl hc
    rw [convert_fill_color s fl hfl, List.getElem?_map, hc]
    simp [trimPrefixHash]
  · intro s i b hb hc
    obtain ⟨nb, hnb, hcol⟩ := convert_border_color s i b h hb hc
    obtain ⟨b', hb', hcol'⟩ := convertBack_border_color _ i nb hnb (by rw [hcol]; exact hne)
    exact ⟨b', hb', by rw [hcol', hcol]⟩
  · intro s f hf hc
    obtain ⟨nf, hnf, hcol⟩ := convert_font_color s f h hf hc
    obtain ⟨f', hf', hcol'⟩ := convertBack_font_color _ nf hnf (by rw [hcol]; exact hne)
    exact ⟨f', hf', by rw [hcol', hcol]⟩
  · intro s fl hs hfl hsne hhex hcol
    have hnat : (convertCellStyleToExcelizeStyle s).Fill.Color = hs := by
      rw [convert_fill_color s fl hfl, hcol, map_trim_hash]
    have hall : ∀ c ∈ hs, c ≠ [] := by
      intro c hc e
      have := (hhex c hc).1
      rw [e] at this
      exact absurd this (by decide)
    obtain ⟨c0, hc0⟩ : ∃ c0, c0 ∈ hs := List.exists_mem_of_ne_nil hs hsne
    obtain ⟨fl', hfl', hcol'⟩ := convertBack_fill_color (convertCellStyleToExcelizeStyle s)
      ⟨c0, by rw [hnat]; exact hc0, hall c0 hc0⟩
    refine ⟨fl', hfl', ?_⟩
    rw [hcol', hnat, filter_nonempty_self hs hall]

/-- Witness of C22 at the colours `#FF00AA` (upper case) and `#ff00aa` (lower case) of
a font: both come back from the round trip as `#FF00AA`. -/
theorem style_colour_normalization_witness :
    stringsToUpper "FF00AA".toList = "FF00AA".toList ∧
    (∀ c ∈ stringsToUpper "ff00aa".toList, isUpperHexDigit c = true) ∧
    styleRoundTrip
        ⟨[], some ⟨none, none, none, none, none, some "#ff00aa".toList, none⟩, none, none,
          none⟩ =
      ⟨[], some ⟨none, none, none, none, none, some "#FF00AA".toList, none⟩, none, none,
        none⟩ :=
  ⟨(style_colour_normalization "FF00AA".toList (by decide)).2.2.2.2.2.2.2.2.2.1 (by decide),
    (style_colour_normalization "ff00aa".toList (by decide)).2.2.2.2.2.2.2.2.2.2,
    by decide⟩

/-! ## Resumable paging -/

theorem FilterRemaining_take_drop (all : List GoString) (hnd : all.Nodup) (k : Nat) :
    FilterRemainingPagingRanges all (all.take (k + 1)) = all.drop (k + 1) := by
  rw [FilterRemaining_eq_filter]
  have hdisj := List.disjoint_take_drop hnd (le_refl (k + 1))
  conv_lhs => rw [← List.take_append_drop (k + 1) all]
  rw [List.filter_append]
  have h1 : (all.take (k + 1)).filter (fun r => decide (r ∉ all.take (k + 1))) = [] := by
    rw [List.filter_eq_nil_iff]
    intro r hr
    simp [hr]
  have h2 : (all.drop (k + 1)).filter (fun r => decide (r ∉ all.take (k + 1))) =
      all.drop (k + 1) := by
    rw [List.filter_eq_self]
    intro r hr
    have : r ∉ all.take (k + 1) := fun ht => hdisj ht hr
    simpa using this
  simp only [List.take_append_drop] at h1 h2 ⊢
  rw [h1, h2, List.nil_append]

theorem FindNextRange_at_index (all : List GoString) (hnd : all.Nodup) (k : Nat)
    (hk : k < all.length) :
    FindNextRange all (all.getD k []) =
      if k + 1 < all.length then all.getD (k + 1) [] else [] := by
  have := findNextLoop_first_match all (all.getD k []) all 0 k rfl hk rfl (by
    intro j hj hc
    rw [List.getD_eq_getElem _ _ hk, List.getD_eq_getElem _ _ (by omega : j < all.length)] at hc
    have := (hnd.getElem_inj_iff).mp hc
    omega)
  rw [Nat.zero_add] at this
  exact this

theorem FindNextRange_iterate (all : List GoString) (hnd : all.Nodup) :
    ∀ i, i < all.length →
      Nat.iterate (FindNextRange all) i (all.getD 0 []) = all.getD i [] := by
  intro i
  induction i with
  | zero => intro _; rfl
  | succ n ih =>
    intro hn
    rw [Function.iterate_succ_apply', ih (by omega),
      FindNextRange_at_index all hnd n (by omega), if_pos hn]

theorem FindNextRange_iterate_end (all : List GoString) (hnd : all.Nodup) :
    Nat.iterate (FindNextRange all) all.length (all.getD 0 []) = [] := by
  cases hlen : all.length with
  | zero =>
    have : all = [] := List.length_eq_zero.mp hlen
    subst this
    rfl
  | succ n =>
    rw [Function.iterate_succ_apply', FindNextRange_iterate all hnd n (by omega),
      FindNextRange_at_index all hnd n (by omega), if_neg (by omega)]

/-- C28: for a duplicate-free list `all` of non-empty strings and an index `k` of it,
filtering out the first `k + 1` elements leaves the suffix after index `k`, whose first
element, when there is one, is `FindNextRange(all, all[k])` (the empty string when
there is none); walking from `all[0]` with `FindNextRange` reaches `all[i]` after `i`
steps, each a non-empty string and each element once, and the empty string after
`len(all)` steps. -/
theorem paging_resumable (all : List GoString) (hnd : all.Nodup) (hne : ∀ r ∈ all, r ≠ [])
    (k : Nat) (hk : k < all.length) :
    FilterRemainingPagingRanges all (all.take (k + 1)) = all.drop (k + 1) ∧
    (∀ x, (FilterRemainingPagingRanges all (all.take (k + 1))).head? = some x →
      FindNextRange all (all.getD k []) = x) ∧
    (FilterRemainingPagingRanges all (all.take (k + 1)) = [] →
      FindNextRange all (all.getD k []) = []) ∧
    (∀ i, i < all.length →
      Nat.iterate (FindNextRange all) i (all.getD 0 []) = all.getD i [] ∧
      Nat.iterate (FindNextRange all) i (all.getD 0 []) ≠ []) ∧
    (∀ i j, i < all.length → j < all.length →
      Nat.iterate (FindNextRange all) i (all.getD 0 []) =
        Nat.iterate (FindNextRange all) j (all.getD 0 []) → i = j) ∧
    Nat.iterate (FindNextRange all) all.length (all.getD 0 []) = [] := by
  have hf := FilterRemaining_take_drop all hnd k
  have hnext := FindNextRange_at_index all hnd k hk
  refine ⟨hf, ?_, ?_, ?_, ?_, FindNextRange_iterate_end all hnd⟩
  · intro x hx
    rw [hf] at hx
    by_cases hlt : k + 1 < all.length
    · rw [hnext, if_pos hlt, List.getD_eq_getElem _ _ hlt]
      rw [List.head?_drop, List.getElem?_eq_getElem hlt] at hx
      injection hx
    · rw [List.drop_eq_nil_of_le (by omega)] at hx
      exact Option.noConfusion hx
  · intro hnil
    rw [hf] at hnil
    have : all.length ≤ k + 1 := List.drop_eq_nil_iff.mp hnil
    rw [hnext, if_neg (by omega)]
  · intro i hi
    rw [FindNextRange_iterate all hnd i hi, List.getD_eq_getElem _ _ hi]
    exact ⟨rfl, hne _ (List.getElem_mem _)⟩
  · intro i j hi hj h
    rw [FindNextRange_iterate all hnd i hi, FindNextRange_iterate all hnd j hj,
      List.getD_eq_getElem _ _ hi, List.getD_eq_getElem _ _ hj] at h
    exact (hnd.getElem_inj_iff).mp h

/-- Witness of C28 at the three pages `A1:A10`, `A11:A20`, `A21:A30` and `k = 0`. -/
theorem paging_resumable_witness :
    FilterRemainingPagingRanges ["A1:A10".toList, "A11:A20".toList, "A21:A30".toList]
      (["A1:A10".toList, "A11:A20".toList, "A21:A30".toList].take 1) =
      ["A11:A20".toList, "A21:A30".toList] ∧
    FindNextRange ["A1:A10".toList, "A11:A20".toList, "A21:A30".toList] "A1:A10".toList =
      "A11:A20".toList ∧
    Nat.iterate (FindNextRange ["A1:A10".toList, "A11:A20".toList, "A21:A30".toList]) 3
      "A1:A10".toList = [] :=
  ⟨(paging_resumable ["A1:A10".toList, "A11:A20".toList, "A21:A30".toList] (by decide)
      (by decide) 0 (by decide)).1,
    by decide, by decide⟩

/-- C30: under 64-bit wrap-around arithmetic the sum `currentRow + rowsPerPage - 1` is
claimed not to wrap for a positive `pageSize` up to `2^63 - 1`. For the dimension
`A2:A5` (four cells, within the sheet bounds) and `pageSize = 2^63 - 1` the division
gives `rowsPerPage = 2^63 - 1`, the sum `2 + (2^63 - 1) - 1 = 2^63` wraps around to
`-2^63`, and the result is the empty list instead of the single page `A2:A5` that exact
arithmetic gives. -/
theorem calculateFixedSizeRanges_row_sum_wraps :
    (4 : Int) ≤ 9223372036854775807 ∧
    goDiv 9223372036854775807 (goAdd (goSub 1 1) 1) = some 9223372036854775807 ∧
    goSub (goAdd 2 9223372036854775807) 1 ≠ 2 + 9223372036854775807 - 1 ∧
    goSub (goAdd 2 9223372036854775807) 1 < 0 ∧
    calculateFixedSizeRanges "A2:A5".toList 9223372036854775807 ≠
      .done ["A2:A5".toList] := by
  decide

/-! ## Backend selection and the stored dimension -/

/-- C24: `OpenFile` returns an error only when the OLE open fails, the excelize open
fails too and its error is not a file-does-not-exist error (and then it returns that
error); when the OLE open fails and the excelize open reports that the file does not
exist, it returns with a nil error a new excelize document whose `Path` is the given
path and whose backend name is `excelize`; when the OLE open succeeds it returns the
OLE document without calling the excelize open. -/
theorem OpenFile_backend_selection {Ole Err : Type}
    (newExcelOle : GoString → Except Err Ole)
    (excelizeOpenFile : GoString → Except Err ExcelizeFile) (isNotExist : Err → Bool)
    (path : GoString) :
    ((OpenFile newExcelOle excelizeOpenFile isNotExist path).err ≠ none ↔
      (∃ e1, newExcelOle path = .error e1) ∧
      ∃ e2, excelizeOpenFile path = .error e2 ∧ isNotExist e2 = false) ∧
    (∀ e2, (OpenFile newExcelOle excelizeOpenFile isNotExist path).err = some e2 →
      excelizeOpenFile path = .error e2) ∧
    (∀ e1 e2, newExcelOle path = .error e1 → excelizeOpenFile path = .error e2 →
      isNotExist e2 = true →
      (OpenFile newExcelOle excelizeOpenFile isNotExist path).err = none ∧
      ∃ file, (OpenFile newExcelOle excelizeOpenFile isNotExist path).excel =
          some (.excelize file) ∧
        file.Path = path ∧ file.Sheets = excelizeNewFile.Sheets ∧
        ExcelizeExcel.GetBackendName file = "excelize".toList) ∧
    (∀ e1 file, newExcelOle path = .error e1 → excelizeOpenFile path = .ok file →
      OpenFile newExcelOle excelizeOpenFile isNotExist path =
        ⟨some (.excelize file), none, true⟩) ∧
    (∀ doc, newExcelOle path = .ok doc →
      OpenFile newExcelOle excelizeOpenFile isNotExist path =
        ⟨some (.ole doc), none, false⟩) := by
  unfold OpenFile
  cases h1 : newExcelOle path with
  | ok doc =>
    refine ⟨?_, ?_, ?_, ?_, ?_⟩
    · simp
    · intro e2 h; simp at h
    · intro e1 e2 h; exact Except.noConfusion h
    · intro e1 file h; exact Except.noConfusion h
    · intro d hd
      injection hd with hd
      rw [hd]
  | error e1 =>
    cases h2 : excelizeOpenFile path with
    | ok file =>
      refine ⟨?_, ?_, ?_, ?_, ?_⟩
      · simp
      · intro e2 h; simp at h
      · intro _ e2 _ h; exact Except.noConfusion h
      · intro _ f _ hf
        injection hf with hf
        rw [hf]
      · intro d hd; exact Except.noConfusion hd
    | error e2 =>
      cases h3 : isNotExist e2 with
      | true =>
        refine ⟨?_, ?_, ?_, ?_, ?_⟩
        · simp [h3]
        · intro e h; simp [h3] at h
        · intro _ e _ he _
          exact ⟨by simp [h3], ⟨path, excelizeNewFile.Sheets⟩, by simp [h3], rfl, rfl, rfl⟩
        · intro _ f _ hf; exact Except.noConfusion hf
        · intro d hd; exact Except.noConfusion hd
      | false =>
        refine ⟨?_, ?_, ?_, ?_, ?_⟩
        · simp [h3]
        · intro e h
          simp [h3] at h
          rw [h]
        · intro _ e _ he hne
          injection he with he
          rw [← he, h3] at hne
          exact Bool.noConfusion hne
        · intro _ f _ hf; exact Except.noConfusion hf
        · intro d hd; exact Except.noConfusion hd

theorem CoordinatesToCellName_ok_inSheet (col row : Int) (name : GoString)
    (h : CoordinatesToCellName col row = .ok name) : InSheet col row := by
  unfold CoordinatesToCellName at h
  by_cases h1 : col < 1 ∨ row < 1
  · rw [if_pos h1] at h; exact Except.noConfusion h
  · rw [if_neg h1] at h
    by_cases h2 : TotalRows < row
    · rw [if_pos h2] at h; exact Except.noConfusion h
    · rw [if_neg h2] at h
      unfold ColumnNumberToName at h
      by_cases h3 : col < 1 ∨ MaxColumns < col
      · rw [if_pos h3] at h; exact Except.noConfusion h
      · exact ⟨by omega, by omega, by omega, by omega⟩

theorem updateDimension_ok (w : ExcelizeSheet) (cell : GoString) (w2 : ExcelizeSheet)
    (h : updateDimension w cell = .ok w2) :
    ∃ col row, CellNameToCoordinates cell = .ok (col, row) ∧
      (ParseRange w.dimension).err = none ∧
      w2.dimension =
        pageText (min (ParseRange w.dimension).startCol col)
          (max (ParseRange w.dimension).endCol col)
          (min (ParseRange w.dimension).startRow row)
          (max (ParseRange w.dimension).endRow row) ∧
      InSheet (min (ParseRange w.dimension).startCol col)
        (min (ParseRange w.dimension).startRow row) ∧
      InSheet (max (ParseRange w.dimension).endCol col)
        (max (ParseRange w.dimension).endRow row) ∧
      w2.cells = w.cells ∧ w2.formulas = w.formulas := by
  unfold updateDimension at h
  simp only [] at h
  cases herr : (ParseRange w.dimension).err with
  | some e => rw [herr] at h; exact Except.noConfusion h
  | none =>
    rw [herr] at h
    simp only [] at h
    cases hc : CellNameToCoordinates cell with
    | error e => rw [hc] at h; exact Except.noConfusion h
    | ok cr =>
      obtain ⟨col, row⟩ := cr
      rw [hc] at h
      simp only [] at h
      have e1 : (if (ParseRange w.dimension).startCol > col then col
          else (ParseRange w.dimension).startCol) = min (ParseRange w.dimension).startCol col := by
        by_cases hh : (ParseRange w.dimension).startCol > col
        · rw [if_pos hh]; omega
        · rw [if_neg hh]; omega
      have e2 : (if (ParseRange w.dimension).endCol < col then col
          else (ParseRange w.dimension).endCol) = max (ParseRange w.dimension).endCol col := by
        by_cases hh : (ParseRange w.dimension).endCol < col
        · rw [if_pos hh]; omega
        · rw [if_neg hh]; omega
      have e3 : (if (ParseRange w.dimension).startRow > row then row
          else (ParseRange w.dimension).startRow) = min (ParseRange w.dimension).startRow row := by
        by_cases hh : (ParseRange w.dimension).startRow > row
        · rw [if_pos hh]; omega
        · rw [if_neg hh]; omega
      have e4 : (if (ParseRange w.dimension).endRow < row then row
          else (ParseRange w.dimension).endRow) = max (ParseRange w.dimension).endRow row := by
        by_cases hh : (ParseRange w.dimension).endRow < row
        · rw [if_pos hh]; omega
        · rw [if_neg hh]; omega
      rw [e1, e2, e3, e4] at h
      refine ⟨col, row, rfl, rfl, ?_⟩
      cases ha : CoordinatesToCellName (min (ParseRange w.dimension).startCol col)
          (min (ParseRange w.dimension).startRow row) with
      | error e => rw [ha] at h; exact Except.noConfusion h
      | ok a =>
        cases hb : CoordinatesToCellName (max (ParseRange w.dimension).endCol col)
            (max (ParseRange w.dimension).endRow row) with
        | error e => rw [ha, hb] at h; exact Except.noConfusion h
        | ok b =>
          rw [ha, hb] at h
          simp only [SetSheetDimension] at h
          injection h with h
          rw [← h]
          refine ⟨?_, CoordinatesToCellName_ok_inSheet _ _ a ha,
            CoordinatesToCellName_ok_inSheet _ _ b hb, rfl, rfl⟩
          unfold pageText cellOf
          rw [ha, hb]

theorem CellNameToCoordinates_ok_bounds (cell : GoString) (col row : Int)
    (h : CellNameToCoordinates cell = .ok (col, row)) :
    1 ≤ row ∧ row ≤ TotalRows ∧ col ≤ MaxColumns ∧ - 2 ^ 63 ≤ col := by
  unfold CellNameToCoordinates at h
  cases hs : SplitCellName cell with
  | error e => rw [hs] at h; exact Except.noConfusion h
  | ok cr =>
    obtain ⟨name, r⟩ := cr
    rw [hs] at h
    simp only [] at h
    have hr : 0 < r := by
      unfold SplitCellName at hs
      split at hs
      · exact Except.noConfusion hs
      · split at hs
        · split at hs
          · exact Except.noConfusion hs
          · split at hs
            · dsimp only at hs
              split at hs
              · split at hs
                · injection hs with hs
                  injection hs with _ hs2
                  rw [← hs2]; assumption
                · exact Except.noConfusion hs
              · exact Except.noConfusion hs
            · exact Except.noConfusion hs
        · exact Except.noConfusion hs
    by_cases ht : TotalRows < r
    · rw [if_pos ht] at h; exact Except.noConfusion h
    · rw [if_neg ht] at h
      cases hcn : ColumnNameToNumber name with
      | error e => rw [hcn] at h; exact Except.noConfusion h
      | ok c =>
        rw [hcn] at h
        simp only [] at h
        injection h with h
        injection h with h1 h2
        subst h1 h2
        unfold ColumnNameToNumber at hcn
        split at hcn
        · exact Except.noConfusion hcn
        · split at hcn
          · exact Except.noConfusion hcn
          · rename_i hmax
            injection hcn with hcn
            rw [← hcn]
            have hb := (wrap64_bounds (columnValue name : Int)).1
            refine ⟨by omega, by omega, by omega, hb⟩

theorem updateDimension_rect (w : ExcelizeSheet) (cell : GoString) (sc sr ec er : Int)
    (hd : ParseRange w.dimension = ⟨sc, sr, ec, er, none⟩) (w2 : ExcelizeSheet)
    (h : updateDimension w cell = .ok w2) :
    ∃ col row, CellNameToCoordinates cell = .ok (col, row) ∧
      w2.dimension =
        cellOf (min sc col) (min sr row) ++ ':' :: cellOf (max ec col) (max er row) ∧
      ParseRange w2.dimension =
        ⟨min sc col, min sr row, max ec col, max er row, none⟩ := by
  obtain ⟨col, row, hc, herr, hdim, hin1, hin2, _, _⟩ := updateDimension_ok w cell w2 h
  rw [hd] at hdim hin1 hin2
  simp only [] at hdim hin1 hin2
  refine ⟨col, row, hc, hdim, ?_⟩
  rw [hdim]
  exact ParseRange_pageText _ _ _ _ hin1 hin2

theorem updateDimension_total (w : ExcelizeSheet) (cell : GoString)
    (herr : (ParseRange w.dimension).err = none) (col row : Int)
    (hc : CellNameToCoordinates cell = .ok (col, row))
    (hsc : 1 ≤ (ParseRange w.dimension).startCol) (hcol : 1 ≤ col) :
    ∃ w2, updateDimension w cell = .ok w2 := by
  obtain ⟨⟨a1, a2, a3, a4⟩, b1, b2, b3, b4⟩ := ParseRange_ok_bounds w.dimension herr
  obtain ⟨c1, c2, c3, c4⟩ := CellNameToCoordinates_ok_bounds cell col row hc
  unfold updateDimension
  simp only [herr, hc]
  rw [cellOf_ok _ _ (by split <;> split <;> exact ⟨by omega, by omega, by omega, by omega⟩),
    cellOf_ok _ _ (by split <;> split <;> exact ⟨by omega, by omega, by omega, by omega⟩)]
  exact ⟨_, rfl⟩

/-- C29: when the stored dimension parses to `(sc, sr, ec, er)`, a successful
`SetValue` or `SetFormula` on cell `c` at `(col, row)` leaves as the stored dimension
the text `cell(min sc col, min sr row):cell(max ec col, max er row)`, which parses to
these four numbers; this rectangle contains the old corners and the cell, lies inside
every rectangle that does, and is the old one when the cell is inside it; and both
calls do succeed for every valid cell name when the column of the cell and the start
column of the dimension are at least 1. -/
theorem SetValue_SetFormula_dimension (w : ExcelizeSheet) (c : GoString) (v : GoBytes)
    (sc sr ec er : Int) (hd : ParseRange w.dimension = ⟨sc, sr, ec, er, none⟩) :
    (∀ w2, SetValue w c v = .ok w2 ∨ SetFormula w c v = .ok w2 →
      ∃ col row, CellNameToCoordinates c = .ok (col, row) ∧
        w2.dimension =
          cellOf (min sc col) (min sr row) ++ ':' :: cellOf (max ec col) (max er row) ∧
        ParseRange w2.dimension =
          ⟨min sc col, min sr row, max ec col, max er row, none⟩ ∧
        (min sc col ≤ sc ∧ min sr row ≤ sr ∧ ec ≤ max ec col ∧ er ≤ max er row) ∧
        (min sc col ≤ col ∧ col ≤ max ec col ∧ min sr row ≤ row ∧ row ≤ max er row) ∧
        (∀ x0 y0 x1 y1 : Int, x0 ≤ sc → y0 ≤ sr → ec ≤ x1 → er ≤ y1 →
          x0 ≤ col → col ≤ x1 → y0 ≤ row → row ≤ y1 →
          x0 ≤ min sc col ∧ y0 ≤ min sr row ∧ max ec col ≤ x1 ∧ max er row ≤ y1) ∧
        (sc ≤ col → col ≤ ec → sr ≤ row → row ≤ er →
          ParseRange w2.dimension = ParseRange w.dimension)) ∧
    (∀ col row, CellNameToCoordinates c = .ok (col, row) → 1 ≤ sc → 1 ≤ col →
      (∃ w2, SetValue w c v = .ok w2) ∧ ∃ w2, SetFormula w c v = .ok w2) := by
  have key : ∀ w1 w2 : ExcelizeSheet, w1.dimension = w.dimension →
      updateDimension w1 c = .ok w2 →
      ∃ col row, CellNameToCoordinates c = .ok (col, row) ∧
        w2.dimension =
          cellOf (min sc col) (min sr row) ++ ':' :: cellOf (max ec col) (max er row) ∧
        ParseRange w2.dimension =
          ⟨min sc col, min sr row, max ec col, max er row, none⟩ ∧
        (min sc col ≤ sc ∧ min sr row ≤ sr ∧ ec ≤ max ec col ∧ er ≤ max er row) ∧
        (min sc col ≤ col ∧ col ≤ max ec col ∧ min sr row ≤ row ∧ row ≤ max er row) ∧
        (∀ x0 y0 x1 y1 : Int, x0 ≤ sc → y0 ≤ sr → ec ≤ x1 → er ≤ y1 →
          x0 ≤ col → col ≤ x1 → y0 ≤ row → row ≤ y1 →
          x0 ≤ min sc col ∧ y0 ≤ min sr row ∧ max ec col ≤ x1 ∧ max er row ≤ y1) ∧
        (sc ≤ col → col ≤ ec → sr ≤ row → row ≤ er →
          ParseRange w2.dimension = ParseRange w.dimension) := by
    intro w1 w2 hw h
    obtain ⟨col, row, hc, hdim, hp⟩ :=
      updateDimension_rect w1 c sc sr ec er (by rw [hw]; exact hd) w2 h
    refine ⟨col, row, hc, hdim, hp, ⟨by omega, by omega, by omega, by omega⟩,
      ⟨by omega, by omega, by omega, by omega⟩, ?_, ?_⟩
    · intro x0 y0 x1 y1 _ _ _ _ _ _ _ _
      exact ⟨by omega, by omega, by omega, by omega⟩
    · intro h1 h2 h3 h4
      rw [hp, hd, min_eq_left h1, min_eq_left h3, max_eq_left h2, max_eq_left h4]
  refine ⟨?_, ?_⟩
  · intro w2 h
    rcases h with h | h
    · unfold SetValue SetCellValue at h
      cases hc : CellNameToCoordinates c with
      | error e => rw [hc] at h; exact Except.noConfusion h
      | ok key0 =>
        rw [hc] at h
        simp only [] at h
        cases hu : updateDimension { w with cells := (key0, v) :: w.cells } c with
        | error e => rw [hu] at h; exact Except.noConfusion h
        | ok w3 =>
          rw [hu] at h
          injection h with h
          rw [← h]
          have hk := key { w with cells := (key0, v) :: w.cells } w3 rfl hu
          rw [hc] at hk
          exact hk
    · unfold SetFormula SetCellFormula at h
      cases hc : CellNameToCoordinates c with
      | error e => rw [hc] at h; exact Except.noConfusion h
      | ok key0 =>
        rw [hc] at h
        simp only [] at h
        cases hu : updateDimension { w with formulas := (key0, v) :: w.formulas } c with
        | error e => rw [hu] at h; exact Except.noConfusion h
        | ok w3 =>
          rw [hu] at h
          injection h with h
          rw [← h]
          have hk := key { w with formulas := (key0, v) :: w.formulas } w3 rfl hu
          rw [hc] at hk
          exact hk
  · intro col row hc hsc hcol
    have herr : (ParseRange w.dimension).err = none := by rw [hd]
    have hsc2 : 1 ≤ (ParseRange w.dimension).startCol := by rw [hd]; exact hsc
    constructor
    · obtain ⟨w2, h2⟩ := updateDimension_total { w with cells := ((col, row), v) :: w.cells } c
        herr col row hc hsc2 hcol
      refine ⟨w2, ?_⟩
      unfold SetValue SetCellValue
      simp only [hc, h2]
    · obtain ⟨w2, h2⟩ :=
        updateDimension_total { w with formulas := ((col, row), v) :: w.formulas } c
          herr col row hc hsc2 hcol
      refine ⟨w2, ?_⟩
      unfold SetFormula SetCellFormula
      simp only [hc, h2]

theorem SetValue_SetFormula_dimension_witness :
    ParseRange (ExcelizeSheet.mk [] [] "B2:C10".toList).dimension = ⟨2, 2, 3, 10, none⟩ ∧
    ((∀ w2, SetValue (ExcelizeSheet.mk [] [] "B2:C10".toList) "E1".toList [120] = .ok w2 ∨
        SetFormula (ExcelizeSheet.mk [] [] "B2:C10".toList) "E1".toList [120] = .ok w2 →
      ∃ col row, CellNameToCoordinates "E1".toList = .ok (col, row) ∧
        w2.dimension =
          cellOf (min 2 col) (min 2 row) ++ ':' :: cellOf (max 3 col) (max 10 row) ∧
        ParseRange w2.dimension =
          ⟨min 2 col, min 2 row, max 3 col, max 10 row, none⟩ ∧
        (min 2 col ≤ 2 ∧ min 2 row ≤ 2 ∧ 3 ≤ max 3 col ∧ 10 ≤ max 10 row) ∧
        (min 2 col ≤ col ∧ col ≤ max 3 col ∧ min 2 row ≤ row ∧ row ≤ max 10 row) ∧
        (∀ x0 y0 x1 y1 : Int, x0 ≤ 2 → y0 ≤ 2 → 3 ≤ x1 → 10 ≤ y1 →
          x0 ≤ col → col ≤ x1 → y0 ≤ row → row ≤ y1 →
          x0 ≤ min 2 col ∧ y0 ≤ min 2 row ∧ max 3 col ≤ x1 ∧ max 10 row ≤ y1) ∧
        (2 ≤ col → col ≤ 3 → 2 ≤ row → row ≤ 10 →
          ParseRange w2.dimension =
            ParseRange (ExcelizeSheet.mk [] [] "B2:C10".toList).dimension)) ∧
    (∀ col row, CellNameToCoordinates "E1".toList = .ok (col, row) → (1 : Int) ≤ 2 →
        1 ≤ col →
      (∃ w2, SetValue (ExcelizeSheet.mk [] [] "B2:C10".toList) "E1".toList [120] = .ok w2) ∧
      ∃ w2, SetFormula (ExcelizeSheet.mk [] [] "B2:C10".toList) "E1".toList [120] = .ok w2)) ∧
    SetValue (ExcelizeSheet.mk [] [] "B2:C10".toList) "E1".toList [120] =
      .ok (ExcelizeSheet.mk [((5, 1), [120])] [] "B1:E10".toList) :=
  ⟨by decide,
    SetValue_SetFormula_dimension (ExcelizeSheet.mk [] [] "B2:C10".toList) "E1".toList [120]
      2 2 3 10 (by decide),
    by rfl⟩

/-! ## `FindReplace`: lemmas -/

theorem startsWith_iff_take (s p : GoBytes) :
    startsWith s p = true ↔ p.length ≤ s.length ∧ s.take p.length = p := by
  induction p generalizing s with
  | nil => cases s <;> simp [startsWith]
  | cons b p ih =>
    cases s with
    | nil => simp [startsWith]
    | cons a s =>
      simp only [startsWith, Bool.and_eq_true, beq_iff_eq, ih, List.length_cons,
        List.take_succ_cons, List.cons.injEq]
      constructor
      · rintro ⟨h1, h2, h3⟩; exact ⟨by omega, h1, h3⟩
      · rintro ⟨h1, h2, h3⟩; exact ⟨h2, by omega, h3⟩

theorem stringsIndex_nil (s : GoBytes) : stringsIndex [] s = some 0 := by
  cases s <;> simp [stringsIndex, startsWith]

theorem stringsIndex_none (sub : GoBytes) :
    ∀ s : GoBytes, stringsIndex sub s = none → ∀ i, startsWith (s.drop i) sub = false := by
  intro s
  induction s with
  | nil =>
    intro h i
    cases sub with
    | nil => simp [stringsIndex] at h
    | cons b p => simp [startsWith]
  | cons a s ih =>
    intro h i
    unfold stringsIndex at h
    by_cases hp : startsWith (a :: s) sub = true
    · rw [if_pos hp] at h; exact Option.noConfusion h
    · rw [if_neg hp] at h
      have hn : stringsIndex sub s = none := by
        cases hs : stringsIndex sub s with
        | none => rfl
        | some j => rw [hs] at h; exact Option.noConfusion h
      cases i with
      | zero => simpa using hp
      | succ i => simpa using ih hn i

theorem stringsIndex_some (sub : GoBytes) :
    ∀ (s : GoBytes) (i : Nat), stringsIndex sub s = some i →
      startsWith (s.drop i) sub = true ∧ i ≤ s.length ∧
        ∀ j, j < i → startsWith (s.drop j) sub = false := by
  intro s
  induction s with
  | nil =>
    intro i h
    unfold stringsIndex at h
    by_cases hs : sub = []
    · rw [if_pos hs] at h
      injection h with h
      subst h; subst hs
      exact ⟨by simp [startsWith], by simp, by intro j hj; omega⟩
    · rw [if_neg hs] at h; exact Option.noConfusion h
  | cons a s ih =>
    intro i h
    unfold stringsIndex at h
    by_cases hp : startsWith (a :: s) sub = true
    · rw [if_pos hp] at h
      injection h with h
      subst h
      exact ⟨by simpa using hp, by simp, by intro j hj; omega⟩
    · rw [if_neg hp] at h
      cases hs : stringsIndex sub s with
      | none => rw [hs] at h; exact Option.noConfusion h
      | some k =>
        rw [hs] at h
        simp only [Option.map_some', Option.some.injEq] at h
        subst h
        obtain ⟨h1, h2, h3⟩ := ih k hs
        refine ⟨by simpa using h1, by simp; omega, ?_⟩
        intro j hj
        cases j with
        | zero => simpa using hp
        | succ j => simpa using h3 j (by omega)

theorem stringsToLower_ascii (s : GoBytes) (h : IsAscii s) :
    stringsToLower s = s.map lowerByte := by
  unfold stringsToLower
  rw [if_pos]
  rw [List.all_eq_true]
  intro b hb
  exact decide_eq_true (h b hb)

theorem IsAscii_drop (s : GoBytes) (h : IsAscii s) (k : Nat) : IsAscii (s.drop k) :=
  fun b hb => h b (List.mem_of_mem_drop hb)

theorem OccursAt_iff_startsWith (f s : GoBytes) (hf : f ≠ []) (i : Nat) :
    OccursAt f s i ↔ startsWith ((s.map lowerByte).drop i) (f.map lowerByte) = true := by
  have hlen : 0 < f.length := List.length_pos.mpr hf
  rw [startsWith_iff_take]
  unfold OccursAt EqualsIgnoringCase
  simp only [List.length_map, List.length_drop, ← List.map_drop, ← List.map_take]
  constructor
  · rintro ⟨h1, h2⟩; exact ⟨by omega, h2⟩
  · rintro ⟨h1, h2⟩; exact ⟨by omega, h2⟩

theorem OccursAt_of_parts (f s u m t : GoBytes) (hs : s = u ++ m ++ t)
    (hm : EqualsIgnoringCase m f) : OccursAt f s u.length := by
  have hl : m.length = f.length := by
    have := congrArg List.length hm
    simpa using this
  subst hs
  refine ⟨by simp; omega, ?_⟩
  rw [List.append_assoc, List.drop_left, ← hl, List.take_left]
  exact hm

theorem ReplacedIgnoringCase_unique (f r : GoBytes) :
    ∀ s o1, ReplacedIgnoringCase f r s o1 → ∀ o2, ReplacedIgnoringCase f r s o2 → o1 = o2 := by
  intro s o1 h1
  induction h1 with
  | rest s h =>
    intro o2 h2
    cases h2 with
    | rest _ _ => rfl
    | occurrence _ u m t out hs hm hfirst ht =>
      exact absurd (OccursAt_of_parts f s u m t hs hm) (h _)
  | occurrence s u m t out hs hm hfirst ht ih =>
    intro o2 h2
    cases h2 with
    | rest _ h => exact absurd (OccursAt_of_parts f s u m t hs hm) (h _)
    | occurrence _ u2 m2 t2 out2 hs2 hm2 hfirst2 ht2 =>
      have hu : u.length = u2.length := by
        rcases Nat.lt_trichotomy u.length u2.length with hlt | heq | hgt
        · exact absurd (OccursAt_of_parts f s u m t hs hm) (hfirst2 _ hlt)
        · exact heq
        · exact absurd (OccursAt_of_parts f s u2 m2 t2 hs2 hm2) (hfirst _ hgt)
      have hml : m.length = m2.length := by
        have a := congrArg List.length hm
        have b := congrArg List.length hm2
        simp at a b
        omega
      rw [hs2, List.append_assoc, List.append_assoc] at hs
      obtain ⟨e1, e2⟩ := List.append_inj hs hu.symm
      obtain ⟨e3, e4⟩ := List.append_inj e2 hml.symm
      subst e1 e4
      rw [ih out2 ht2]

theorem foldScanLoop_ascii (f r : GoBytes) (hf : f ≠ []) :
    ∀ (fuel : Nat) (t P : GoBytes), IsAscii t → t.length < fuel →
      ∃ out, foldScanLoop f r (f.map lowerByte) fuel (P ++ t) P.length = .done (P ++ out) ∧
        ReplacedIgnoringCase f r t out := by
  have hlen : 0 < f.length := List.length_pos.mpr hf
  intro fuel
  induction fuel with
  | zero => intro t P _ h; omega
  | succ n ih =>
    intro t P ht hfuel
    unfold foldScanLoop
    rw [if_neg (by simp), List.drop_left, stringsToLower_ascii t ht]
    cases hidx : stringsIndex (f.map lowerByte) (t.map lowerByte) with
    | none =>
      refine ⟨t, rfl, ReplacedIgnoringCase.rest t ?_⟩
      intro i hi
      have := stringsIndex_none _ _ hidx i
      rw [(OccursAt_iff_startsWith f t hf i).mp hi] at this
      exact Bool.noConfusion this
    | some pos =>
      obtain ⟨h1, h2, h3⟩ := stringsIndex_some _ _ _ hidx
      have hocc : OccursAt f t pos := (OccursAt_iff_startsWith f t hf pos).mpr h1
      obtain ⟨hb, hm⟩ := hocc
      simp only []
      rw [if_neg (by simp; omega)]
      have e1 : (P ++ t).take (P.length + pos) = P ++ t.take pos := by
        rw [List.take_append]
      have e2 : (P ++ t).drop (P.length + pos + f.length) = t.drop (pos + f.length) := by
        rw [Nat.add_assoc, List.drop_append]
      rw [e1, e2]
      have hlen2 : (t.drop (pos + f.length)).length < n := by
        simp; omega
      obtain ⟨out, ho1, ho2⟩ := ih (t.drop (pos + f.length)) (P ++ t.take pos ++ r)
        (IsAscii_drop t ht _) hlen2
      have e3 : (P ++ t.take pos ++ r).length = P.length + pos + r.length := by
        simp; omega
      rw [e3] at ho1
      rw [ho1]
      refine ⟨t.take pos ++ r ++ out, by simp, ?_⟩
      refine ReplacedIgnoringCase.occurrence t (t.take pos) ((t.drop pos).take f.length)
        (t.drop (pos + f.length)) out ?_ hm ?_ ho2
      · rw [List.append_assoc, ← List.drop_drop, List.take_append_drop, List.take_append_drop]
      · intro i hi hoi
        have hi2 : i < pos := by
          have := List.length_take_le pos t
          omega
        have := h3 i hi2
        rw [(OccursAt_iff_startsWith f t hf i).mp hoi] at this
        exact Bool.noConfusion this

theorem stringsContains_of_OccursAt (f s : GoBytes) (hf : f ≠ []) (i : Nat)
    (h : OccursAt f s i) :
    stringsContains (s.map lowerByte) (f.map lowerByte) = true := by
  unfold stringsContains
  cases hidx : stringsIndex (f.map lowerByte) (s.map lowerByte) with
  | some j => rfl
  | none =>
    have := stringsIndex_none _ _ hidx i
    rw [(OccursAt_iff_startsWith f s hf i).mp h] at this
    exact Bool.noConfusion this

theorem foldScanLoop_more_fuel (f r lf : GoBytes) :
    ∀ (fuel : Nat) (result : GoBytes) (idx : Nat),
      foldScanLoop f r lf fuel result idx ≠ .outOfFuel →
      ∀ k, foldScanLoop f r lf (fuel + k) result idx = foldScanLoop f r lf fuel result idx := by
  intro fuel
  induction fuel with
  | zero => intro result idx h; exact absurd rfl h
  | succ n ih =>
    intro result idx h k
    rw [Nat.add_right_comm]
    unfold foldScanLoop at h ⊢
    by_cases h1 : result.length < idx
    · simp only [if_pos h1]
    · simp only [if_neg h1] at h ⊢
      cases hidx : stringsIndex lf (stringsToLower (result.drop idx)) with
      | none => rfl
      | some pos =>
        rw [hidx] at h
        simp only [] at h ⊢
        by_cases h2 : result.length < idx + pos + f.length
        · simp only [if_pos h2]
        · simp only [if_neg h2] at h ⊢
          exact ih _ _ h k

theorem foldScanLoop_empty_find (r : GoBytes) :
    ∀ (fuel : Nat) (result : GoBytes) (idx : Nat), idx ≤ result.length →
      foldScanLoop [] r [] fuel result idx = .outOfFuel := by
  intro fuel
  induction fuel with
  | zero => intro result idx _; rfl
  | succ n ih =>
    intro result idx h
    unfold foldScanLoop
    rw [if_neg (by omega), stringsIndex_nil]
    simp only []
    rw [if_neg (by simp; omega)]
    apply ih
    simp
    omega

theorem foldScanLoop_ends (f r lf : GoBytes) (hf : f ≠ []) :
    ∀ (fuel : Nat) (result : GoBytes) (idx : Nat), result.length - idx < fuel →
      foldScanLoop f r lf fuel result idx ≠ .outOfFuel := by
  have hlen : 0 < f.length := List.length_pos.mpr hf
  intro fuel
  induction fuel with
  | zero => intro result idx h; omega
  | succ n ih =>
    intro result idx h
    unfold foldScanLoop
    by_cases h1 : result.length < idx
    · rw [if_pos h1]; exact fun e => Scan.noConfusion e
    · rw [if_neg h1]
      cases hidx : stringsIndex lf (stringsToLower (result.drop idx)) with
      | none => exact fun e => Scan.noConfusion e
      | some pos =>
        simp only []
        by_cases h2 : result.length < idx + pos + f.length
        · rw [if_pos h2]; exact fun e => Scan.noConfusion e
        · rw [if_neg h2]
          apply ih
          simp
          omega

theorem replaceInCell_more_fuel (fuel : Nat) (value find replace : GoBytes)
    (matchCase matchEntireCell : Bool)
    (h : replaceInCell fuel value find replace matchCase matchEntireCell ≠ .outOfFuel)
    (k : Nat) :
    replaceInCell (fuel + k) value find replace matchCase matchEntireCell =
      replaceInCell fuel value find replace matchCase matchEntireCell := by
  unfold replaceInCell at h ⊢
  cases matchEntireCell with
  | true => rfl
  | false =>
    cases matchCase with
    | true => rfl
    | false =>
      simp only [Bool.false_eq_true, if_false] at h ⊢
      by_cases hc : stringsContains (stringsToLower value) (stringsToLower find) = true
      · simp only [if_pos hc] at h ⊢
        have hs : foldScanLoop find replace (stringsToLower find) fuel value 0 ≠
            .outOfFuel := by
          intro e
          rw [e] at h
          exact h rfl
        rw [foldScanLoop_more_fuel find replace (stringsToLower find) fuel value 0 hs k]
      · simp only [if_neg hc]

theorem FindReplace_of_dimension (fuel : Nat) (w : ExcelizeSheet) (find replace : GoBytes)
    (matchCase matchEntireCell : Bool) (sc sr ec er : Int)
    (hparse : ParseRange w.dimension = ⟨sc, sr, ec, er, none⟩) :
    FindReplace fuel w [] find replace matchCase matchEntireCell =
      findReplaceCells fuel find replace matchCase matchEntireCell
        (cellsOfRange sc sr ec er) 0 w := by
  unfold FindReplace
  simp only [if_true, hparse]

theorem GetCellValue_stored (w : ExcelizeSheet) (cell : GoString) (key : Int × Int)
    (value : GoBytes) (hcoord : CellNameToCoordinates cell = .ok key)
    (hget : mapGet key w.cells = some value) : GetCellValue w cell = .ok value := by
  unfold GetCellValue
  simp only [hcoord, hget]

theorem SetCellValue_stored (w : ExcelizeSheet) (cell : GoString) (key : Int × Int)
    (value : GoBytes) (hcoord : CellNameToCoordinates cell = .ok key) :
    SetCellValue w cell value = .ok { w with cells := (key, value) :: w.cells } := by
  unfold SetCellValue
  simp only [hcoord]

theorem findReplaceCells_single (fuel : Nat) (find replace : GoBytes)
    (matchCase matchEntireCell : Bool) (col row : Int) (cell : GoString) (value : GoBytes)
    (w : ExcelizeSheet) (count : Int) (hname : CoordinatesToCellName col row = .ok cell)
    (hget : GetCellValue w cell = .ok value) (hv : value ≠ []) :
    findReplaceCells fuel find replace matchCase matchEntireCell [(col, row)] count w =
      match replaceInCell fuel value find replace matchCase matchEntireCell with
      | .unchanged => .returned count none w
      | .replaced newValue =>
        match SetCellValue w cell newValue with
        | .error e => .returned count (some e) w
        | .ok w2 => .returned (count + 1) none w2
      | .sliceOutOfRange => .sliceOutOfRange
      | .outOfFuel => .outOfFuel := by
  unfold findReplaceCells
  simp only [hname, hget, if_neg hv]
  cases replaceInCell fuel value find replace matchCase matchEntireCell with
  | unchanged => simp only [findReplaceCells]
  | replaced newValue =>
    simp only []
    cases SetCellValue w cell newValue with
    | error e => rfl
    | ok w2 => simp only [findReplaceCells]
  | sliceOutOfRange => rfl
  | outOfFuel => rfl

theorem FindReplace_single_cell (fuel : Nat) (value find replace : GoBytes)
    (matchCase matchEntireCell : Bool) (hv : value ≠ []) :
    FindReplace fuel ⟨[((1, 1), value)], [], "A1".toList⟩ [] find replace matchCase
        matchEntireCell =
      match replaceInCell fuel value find replace matchCase matchEntireCell with
      | .unchanged => .returned 0 none ⟨[((1, 1), value)], [], "A1".toList⟩
      | .replaced newValue =>
        .returned 1 none ⟨[((1, 1), newValue), ((1, 1), value)], [], "A1".toList⟩
      | .sliceOutOfRange => .sliceOutOfRange
      | .outOfFuel => .outOfFuel := by
  have hp : ParseRange "A1".toList = ⟨1, 1, 1, 1, none⟩ := by decide
  have hcells : cellsOfRange 1 1 1 1 = [(1, 1)] := by decide
  have hname : CoordinatesToCellName 1 1 = .ok "A1".toList := by rfl
  have hcoord : CellNameToCoordinates "A1".toList = .ok (1, 1) := by rfl
  have hget : GetCellValue ⟨[((1, 1), value)], [], "A1".toList⟩ "A1".toList = .ok value :=
    GetCellValue_stored _ _ (1, 1) value hcoord (by unfold mapGet; rw [if_pos rfl])
  rw [FindReplace_of_dimension fuel _ find replace matchCase matchEntireCell 1 1 1 1 hp,
    hcells, findReplaceCells_single fuel find replace matchCase matchEntireCell 1 1
      "A1".toList value _ 0 hname hget hv]
  cases replaceInCell fuel value find replace matchCase matchEntireCell with
  | unchanged => rfl
  | replaced newValue =>
    simp only []
    rw [SetCellValue_stored _ _ (1, 1) newValue hcoord]
    rfl
  | sliceOutOfRange => rfl
  | outOfFuel => rfl
/-! ## `FindReplace`: the count, the replacement, the scan loop -/

/-- C23: the integer that `FindReplace` returns is the number of cells it rewrote, not
the number of occurrences it replaced: on a sheet whose only cell `A1` holds `aaa`,
finding `a` and replacing it by `b` turns the cell into `bbb` (three replacements)
and returns 1, with and without `matchCase`, for every bound of at least 4 on the
iterations of the scan loop. -/
theorem FindReplace_counts_cells (k : Nat) :
    FindReplace (4 + k) ⟨[((1, 1), utf8Bytes "aaa".toList)], [], "A1".toList⟩ []
        (utf8Bytes "a".toList) (utf8Bytes "b".toList) false false =
      .returned 1 none
        ⟨[((1, 1), utf8Bytes "bbb".toList), ((1, 1), utf8Bytes "aaa".toList)], [],
          "A1".toList⟩ ∧
    FindReplace (4 + k) ⟨[((1, 1), utf8Bytes "aaa".toList)], [], "A1".toList⟩ []
        (utf8Bytes "a".toList) (utf8Bytes "b".toList) true false =
      .returned 1 none
        ⟨[((1, 1), utf8Bytes "bbb".toList), ((1, 1), utf8Bytes "aaa".toList)], [],
          "A1".toList⟩ := by
  have h1 : replaceInCell 4 (utf8Bytes "aaa".toList) (utf8Bytes "a".toList)
      (utf8Bytes "b".toList) false false = .replaced (utf8Bytes "bbb".toList) := by decide
  have h2 : replaceInCell 4 (utf8Bytes "aaa".toList) (utf8Bytes "a".toList)
      (utf8Bytes "b".toList) true false = .replaced (utf8Bytes "bbb".toList) := by decide
  constructor
  · rw [FindReplace_single_cell _ _ _ _ _ _ (by decide),
      replaceInCell_more_fuel 4 _ _ _ _ _ (by rw [h1]; exact fun e => CellOutcome.noConfusion e) k,
      h1]
  · rw [FindReplace_single_cell _ _ _ _ _ _ (by decide),
      replaceInCell_more_fuel 4 _ _ _ _ _ (by rw [h2]; exact fun e => CellOutcome.noConfusion e) k,
      h2]

/-- C25: in substring mode without `matchCase`, for an ASCII cell text `v`, a non-empty
ASCII search text `f` that occurs in `v` up to the case of letters, any replacement `r`
and a bound on the scan loop above the length of `v`, the cell is rewritten to the one
text `out` that is `v` with each occurrence of `f`, from left to right without overlap
and up to case, replaced by `r` as written and every other byte kept; what follows an
inserted `r` is derived from the rest of `v` alone. A sheet holding `v` in `A1` gets
`out` written to `A1`. -/
theorem FindReplace_ignoring_case_ascii (v f r : GoBytes) (fuel : Nat) (hv : IsAscii v)
    (hf : IsAscii f) (hne : f ≠ []) (hocc : ∃ i, OccursAt f v i) (hfuel : v.length < fuel) :
    ∃ out, replaceInCell fuel v f r false false = .replaced out ∧
      ReplacedIgnoringCase f r v out ∧
      (∀ out2, ReplacedIgnoringCase f r v out2 → out2 = out) ∧
      FindReplace fuel ⟨[((1, 1), v)], [], "A1".toList⟩ [] f r false false =
        .returned 1 none ⟨[((1, 1), out), ((1, 1), v)], [], "A1".toList⟩ := by
  obtain ⟨i, hi⟩ := hocc
  obtain ⟨out, h1, h2⟩ := foldScanLoop_ascii f r hne fuel v [] hv hfuel
  simp only [List.nil_append, List.length_nil] at h1
  have hcell : replaceInCell fuel v f r false false = .replaced out := by
    unfold replaceInCell
    simp only [Bool.false_eq_true, if_false]
    rw [stringsToLower_ascii v hv, stringsToLower_ascii f hf,
      if_pos (stringsContains_of_OccursAt f v hne i hi), h1]
  have hvne : v ≠ [] := by
    intro e
    have hl : 0 < f.length := List.length_pos.mpr hne
    have h0 := hi.1
    rw [e, List.length_nil] at h0
    omega
  refine ⟨out, hcell, h2, ?_, ?_⟩
  · intro out2 h3
    exact ReplacedIgnoringCase_unique f r v out2 h3 out h2
  · rw [FindReplace_single_cell _ _ _ _ _ _ hvne, hcell]

theorem FindReplace_ignoring_case_ascii_witness :
    (IsAscii (utf8Bytes "abAB".toList) ∧ IsAscii (utf8Bytes "Ab".toList) ∧
      utf8Bytes "Ab".toList ≠ [] ∧
      (∃ i, OccursAt (utf8Bytes "Ab".toList) (utf8Bytes "abAB".toList) i) ∧
      (utf8Bytes "abAB".toList).length < 5) ∧
    (∃ out, replaceInCell 5 (utf8Bytes "abAB".toList) (utf8Bytes "Ab".toList)
        (utf8Bytes "xabx".toList) false false = .replaced out ∧
      ReplacedIgnoringCase (utf8Bytes "Ab".toList) (utf8Bytes "xabx".toList)
        (utf8Bytes "abAB".toList) out ∧
      (∀ out2, ReplacedIgnoringCase (utf8Bytes "Ab".toList) (utf8Bytes "xabx".toList)
        (utf8Bytes "abAB".toList) out2 → out2 = out) ∧
      FindReplace 5 ⟨[((1, 1), utf8Bytes "abAB".toList)], [], "A1".toList⟩ []
          (utf8Bytes "Ab".toList) (utf8Bytes "xabx".toList) false false =
        .returned 1 none
          ⟨[((1, 1), out), ((1, 1), utf8Bytes "abAB".toList)], [], "A1".toList⟩) ∧
    replaceInCell 5 (utf8Bytes "abAB".toList) (utf8Bytes "Ab".toList)
      (utf8Bytes "xabx".toList) false false = .replaced (utf8Bytes "xabxxabx".toList) :=
  ⟨⟨by decide, by decide, by decide, ⟨0, by decide⟩, by decide⟩,
    FindReplace_ignoring_case_ascii (utf8Bytes "abAB".toList) (utf8Bytes "Ab".toList)
      (utf8Bytes "xabx".toList) 5 (by decide) (by decide) (by decide) ⟨0, by decide⟩
      (by decide),
    by decide⟩

/-- C26: with an empty search text the scan loop of `FindReplace` (substring mode,
no `matchCase`) never ends: for every cell text, every replacement and every bound on
the number of iterations the loop is still running when the bound is reached, and so
is the call on a sheet whose cell `A1` holds `a`. With a non-empty search text the
loop ends within as many iterations as the cell text has bytes, plus one, and the
path with `matchCase` always ends. -/
theorem FindReplace_empty_find_never_ends (value replace : GoBytes) (fuel : Nat) :
    replaceInCell fuel value [] replace false false = .outOfFuel ∧
    FindReplace fuel ⟨[((1, 1), utf8Bytes "a".toList)], [], "A1".toList⟩ [] [] replace
      false false = .outOfFuel ∧
    (∀ find : GoBytes, find ≠ [] → value.length < fuel →
      replaceInCell fuel value find replace false false ≠ .outOfFuel) ∧
    (∀ find : GoBytes, replaceInCell fuel value find replace true false ≠ .outOfFuel) := by
  have hnil : stringsToLower [] = [] := by rfl
  have key : ∀ v : GoBytes, replaceInCell fuel v [] replace false false = .outOfFuel := by
    intro v
    unfold replaceInCell
    simp only [Bool.false_eq_true, if_false]
    rw [hnil, if_pos (by unfold stringsContains; rw [stringsIndex_nil]; rfl),
      foldScanLoop_empty_find replace fuel v 0 (Nat.zero_le _)]
  refine ⟨key value, ?_, ?_, ?_⟩
  · rw [FindReplace_single_cell _ _ _ _ _ _ (by decide), key]
  · intro find hf hlen
    unfold replaceInCell
    simp only [Bool.false_eq_true, if_false]
    by_cases hc : stringsContains (stringsToLower value) (stringsToLower find) = true
    · rw [if_pos hc]
      have := foldScanLoop_ends find replace (stringsToLower find) hf fuel value 0
        (by omega)
      cases hs : foldScanLoop find replace (stringsToLower find) fuel value 0 with
      | done result => exact fun e => CellOutcome.noConfusion e
      | sliceOutOfRange => exact fun e => CellOutcome.noConfusion e
      | outOfFuel => exact absurd hs this
    · rw [if_neg hc]; exact fun e => CellOutcome.noConfusion e
  · intro find
    unfold replaceInCell
    simp only [Bool.false_eq_true, if_false, if_true]
    split <;> exact fun e => CellOutcome.noConfusion e

/-- C27: a slice index of the scan loop of `FindReplace` can be out of bounds: for the
cell text `Ⱥb` (bytes `C8 BA 62`) and the search text `b`, the lower-cased text is one
byte longer (`E2 B1 A5 62`), `b` is found there at offset 3, and `0 + 3 + len(find)`
is 4, above the 3 bytes of `result`, so the splice panics, whatever the replacement
and the bound on the iterations; the call on a sheet holding this text in `A1` ends
in that panic. -/
theorem FindReplace_slice_out_of_range (replace : GoBytes) (fuel : Nat) :
    utf8Bytes "Ⱥb".toList = [0xC8, 0xBA, 0x62] ∧
    stringsToLower [0xC8, 0xBA, 0x62] = [0xE2, 0xB1, 0xA5, 0x62] ∧
    stringsIndex (stringsToLower [0x62]) (stringsToLower [0xC8, 0xBA, 0x62]) = some 3 ∧
    ¬ (0 + 3 + ([0x62] : GoBytes).length ≤ ([0xC8, 0xBA, 0x62] : GoBytes).length) ∧
    replaceInCell (fuel + 1) [0xC8, 0xBA, 0x62] [0x62] replace false false =
      .sliceOutOfRange ∧
    FindReplace (fuel + 1) ⟨[((1, 1), [0xC8, 0xBA, 0x62])], [], "A1".toList⟩ [] [0x62]
      replace false false = .sliceOutOfRange := by
  have hidx : stringsIndex (stringsToLower [0x62])
      (stringsToLower (List.drop 0 [0xC8, 0xBA, 0x62])) = some 3 := by decide
  have hcell : replaceInCell (fuel + 1) [0xC8, 0xBA, 0x62] [0x62] replace false false =
      .sliceOutOfRange := by
    unfold replaceInCell
    simp only [Bool.false_eq_true, if_false]
    rw [if_pos (by decide)]
    unfold foldScanLoop
    rw [if_neg (by decide), hidx]
    simp only []
    rw [if_pos (by decide)]
  refine ⟨by decide, by decide, by decide, by decide, hcell, ?_⟩
  rw [FindReplace_single_cell _ _ _ _ _ _ (by decide), hcell]

end ExcelMcp
